import Mathlib

/-!
RTTR (tx-code/rttr): a verification development.

Shallow embedding of the parts of the repository that the specification talks
about, followed by the theorems about them. All definitions come first, the
lemmas and theorems after them.

Conventions of the embedding
* a C++ `char` is the natural number of its byte (`0 .. 255`); a `std::string`
  is the list of its bytes; `bytes "abc"` is the byte list of an ASCII literal;
* code that mutates a local string in place becomes a function returning the
  new value;
* the JSON example runs in a state monad over the state of the program: a
  computation returns, throws, or uses up the recursion budget of the
  embedding, and the state reached is kept in each case.
-/

set_option autoImplicit false

namespace rttr

/-! ## `bench_variant_conversion.cpp` -/

/-- A `std::string`: the sequence of its bytes. -/
abbrev cstring := List Nat

/-- Byte list of an ASCII string literal of the source. -/
def bytes (s : String) : cstring := s.data.map Char.toNat

/-- Source `::tolower` in the "C" locale (the benchmark never calls `setlocale`): the
 upper-case ASCII letters `A` .. `Z` (65 .. 90) are moved to `a` .. `z`, every
 other character is returned unchanged. -/
def tolower (ch : Nat) : Nat :=
  if 65 ≤ ch ∧ ch ≤ 90 then ch + 32 else ch

/-- Source `std::isspace<char>(ch, std::locale::classic())`: space, `\t`, `\n`, `\v`,
 `\f` and `\r`. -/
def isspace (ch : Nat) : Bool :=
  ch == 32 || (9 ≤ ch && ch ≤ 13)

/-- Source `std::transform(first, last, first, op)`: every element is replaced, in
 order, by the image of `op`. -/
def transform (op : Nat → Nat) : cstring → cstring
  | [] => []
  | ch :: rest => op ch :: transform op rest

/-- Source `text.erase(std::remove_if(text.begin(), text.end(), pred), text.end())`:
 the elements satisfying `pred` are dropped, the others keep their order. -/
def erase_remove_if (pred : Nat → Bool) : cstring → cstring
  | [] => []
  | ch :: rest =>
    if pred ch then erase_remove_if pred rest else ch :: erase_remove_if pred rest

/-- Source `static bool string_to_bool(std::string text)` of
 `bench_variant_conversion.cpp`, lines 266-272. -/
def string_to_bool (text : cstring) : Bool :=
  let text := transform tolower text
  let text := erase_remove_if (fun ch => isspace ch) text
  !(text == bytes "false" || text == bytes "0" || text.isEmpty)

/-- Source `setup_string_bool()`. -/
def setup_string_bool : cstring := bytes "1"

/-- Source `setup_bool()`. -/
def setup_bool : Bool := true

/-- Source `setup_integer()`. -/
def setup_integer : Int := 12345

/-- Source `setup_string_integer()`. -/
def setup_string_integer : cstring := bytes "12345"

/-- The body of `bench_native_bool_to_string`:
 `value ? std::string("true") : std::string("false")`. -/
def bool_to_string (value : Bool) : cstring :=
  if value then bytes "true" else bytes "false"

/-! ### Vocabulary of the statements about `string_to_bool` -/

/-- The lower-cased form of `s` with whitespace removed, in the words of the
 specification. -/
def normal_form (s : cstring) : cstring :=
  (s.map tolower).filter (fun ch => !isspace ch)

/-- An ASCII letter changed to the other case; any other character unchanged. -/
def swap_case (ch : Nat) : Nat :=
  if 65 ≤ ch ∧ ch ≤ 90 then ch + 32
  else if 97 ≤ ch ∧ ch ≤ 122 then ch - 32
  else ch

/-- The string `s` with the letters selected by `mask` changed to the other
 case (`mask` is read position by position; positions beyond its end are not
 selected). -/
def change_case : List Bool → cstring → cstring
  | _, [] => []
  | [], s => s
  | b :: mask, ch :: s => (if b then swap_case ch else ch) :: change_case mask s

/-! ## The reflection core described by the specification

The sources of the variant, of the invocation layer and of the relationship
resolver are missing from the sources examined (only their callers in the
benchmarks are present); the definitions of this section follow the
specification. -/

/-- Modelled from the spec: the stored type identifier of a Variant (§3, "type
 identifier (possibly invalid/void)"), restricted to the value types the
 benchmarks convert between; the variant sources (`rttr/variant.h`) are
 missing. -/
inductive type_id where
  | invalid
  | void
  | bool
  | int
  | string
  deriving DecidableEq, Repr

/-- Modelled from the spec: the Variant of §3, a value tagged with its type
 identifier; `invalid` is the default-constructed Variant that holds no value,
 `void` the distinguished Variant of §4.2 (4), constructed in
 `bench_variant_void_ctor` from `rttr::detail::void_variant_type{}`. The variant
 sources are missing. -/
inductive variant where
  | invalid
  | void
  | bool (b : Bool)
  | int (i : Int)
  | string (s : cstring)
  deriving DecidableEq, Repr

/-- Modelled from the spec: `get_type()` "returns the stored type identifier
 or invalid for empty" (§4.1); the variant sources are missing. -/
def variant.get_type : variant → type_id
  | .invalid => .invalid
  | .void => .void
  | .bool _ => .bool
  | .int _ => .int
  | .string _ => .string

/-- Modelled from the spec: a Variant is valid unless it is the invalid
 Variant, which "holds no value" (§3); the variant sources are missing. -/
def variant.is_valid (v : variant) : Bool :=
  v.get_type != type_id.invalid

/-- Largest value of the 32-bit `int`. -/
def INT_MAX : Int := 2147483647

/-- Smallest value of the 32-bit `int`. -/
def INT_MIN : Int := -2147483648

/-- The decimal digit characters of `n`, least significant first; `fuel`
 bounds the number of digits. -/
def digits_rev : Nat → Nat → cstring
  | 0, _ => []
  | fuel + 1, n => (48 + n % 10) :: (if n / 10 = 0 then [] else digits_rev fuel (n / 10))

/-- Decimal text of a natural number. -/
def nat_to_string (n : Nat) : cstring := (digits_rev (n + 1) n).reverse

/-- Modelled from the spec: the locale-independent text of an `int` (§4.1 (4),
 §8 round-trip law), the decimal digits with a leading `-` for a negative
 value, as `std::to_string` gives in `bench_native_int_to_string`; the
 conversion sources of the variant are missing. -/
def int_to_string (value : Int) : cstring :=
  if value < 0 then 45 :: nat_to_string (-value).toNat else nat_to_string value.toNat

/-- Value of a run of decimal digit characters read after `acc`; `none` when a
 character is not a digit. -/
def parse_digits : Nat → cstring → Option Nat
  | acc, [] => some acc
  | acc, ch :: rest =>
    if 48 ≤ ch ∧ ch ≤ 57 then parse_digits (acc * 10 + (ch - 48)) rest else none

/-- Modelled from the spec: locale-independent textual parsing of an `int`
 (§4.1 (4)): an optional `-`, at least one decimal digit, nothing else, and a
 value in the range of `int`; anything else is a conversion failure (§7 (c)).
 The conversion sources of the variant are missing. -/
def string_to_int (text : cstring) : Option Int :=
  match text with
  | [] => none
  | 45 :: rest =>
    match rest with
    | [] => none
    | _ => (parse_digits 0 rest).bind
        (fun n => if INT_MIN ≤ -(n : Int) then some (-(n : Int)) else none)
  | _ => (parse_digits 0 text).bind (fun n => if (n : Int) ≤ INT_MAX then some (n : Int) else none)

/-- Modelled from the spec: `convert(target_type)` of §4.1: (1) identity when
 the Variant already has the target type, (3) numeric conversion between the
 arithmetic types, (4) textual conversion to and from strings, the boolean
 being read as `string_to_bool` does; `none` is the reported failure. The
 variant sources are missing. -/
def variant.convert (v : variant) (target : type_id) : Option variant :=
  if v.get_type = target then some v
  else
    match v, target with
    | .bool b, .int => some (.int (if b then 1 else 0))
    | .bool b, .string => some (.string (bool_to_string b))
    | .int i, .bool => some (.bool (i != 0))
    | .int i, .string => some (.string (int_to_string i))
    | .string s, .bool => some (.bool (string_to_bool s))
    | .string s, .int => (string_to_int s).map variant.int
    | _, _ => none

/-- Modelled from the spec: `to_string()` as called in
 `bench_variant_int_to_string` and `bench_variant_bool_to_string`: the value
 converted to a string, the empty string when the conversion fails. -/
def variant.to_string (v : variant) : cstring :=
  match v.convert type_id.string with
  | some (.string s) => s
  | _ => []

/-- Modelled from the spec: `to_int()` as called in
 `bench_variant_string_to_int`: the value converted to `int`, `0` when the
 conversion fails. -/
def variant.to_int (v : variant) : Int :=
  match v.convert type_id.int with
  | some (.int i) => i
  | _ => 0

/-- Modelled from the spec: `to_bool()` as called in
 `bench_variant_string_to_bool`: the value converted to `bool`, `false` when
 the conversion fails. -/
def variant.to_bool (v : variant) : Bool :=
  match v.convert type_id.bool with
  | some (.bool b) => b
  | _ => false

/-! ### Polymorphic relationship resolver (§4.3) -/

/-- Modelled from the spec: an entry of the "ordered list of (base-type
 identifier, pointer-offset-or-adjuster)" of a Type Descriptor (§3), that is a
 Relationship Edge from the owning type to `base` with its pointer adjustment
 rule. The type registry sources are missing. -/
structure base_edge (τ : Type) where
  base : τ
  adjust : Int → Int

/-- Modelled from the spec: what the "get derived info" capability of an
 object supplies (§4.3): its dynamic most-derived type and the address of the
 most-derived object. -/
structure derived_info (τ : Type) where
  type : τ
  ptr : Int

/-- Modelled from the spec: the part of the Type Descriptor Table the resolver
 reads: the base list of every type; `depth` bounds the length of a path of
 the (finite, acyclic) relationship graph. -/
structure type_table (τ : Type) where
  bases : τ → List (base_edge τ)
  depth : Nat

/-- First result of `f` over a list, in order. -/
def first_some {α β : Type} (f : α → Option β) : List α → Option β
  | [] => none
  | x :: xs =>
    match f x with
    | some y => some y
    | none => first_some f xs

/-- Modelled from the spec: the graph search of §4.3 from a type towards its
 bases: the target itself resolves to the address unchanged, a "direct edge
 match returns the address transformed by that edge's adjustment rule", a
 "multi-hop path composes adjustments hop-by-hop", and `none` is "not
 related". The resolver sources are missing. -/
def walk {τ : Type} [DecidableEq τ] (bases : τ → List (base_edge τ)) :
    Nat → τ → τ → Int → Option Int
  | 0, src, tgt, addr => if src = tgt then some addr else none
  | fuel + 1, src, tgt, addr =>
    if src = tgt then some addr
    else
      match (bases src).find? (fun e => decide (e.base = tgt)) with
      | some e => some (e.adjust addr)
      | none => first_some (fun e => walk bases fuel e.base tgt (e.adjust addr)) (bases src)

/-- Modelled from the spec: resolution of §4.3 for an instance viewed as type
 `src` at address `addr`: a walk from the starting type; when that finds no
 path, the walk "up to the dynamic most-derived type (using a registered get
 derived info capability supplied by the object itself) and then down to the
 target". The resolver sources are missing. -/
def resolve {τ : Type} [DecidableEq τ] (tbl : type_table τ) (src : τ) (addr : Int)
    (info : derived_info τ) (tgt : τ) : Option Int :=
  match walk tbl.bases tbl.depth src tgt addr with
  | some a => some a
  | none => walk tbl.bases tbl.depth info.type tgt info.ptr

/-! ### Invocation dispatcher (§4.2) -/

/-- Modelled from the spec: a Method Descriptor with its dispatcher entry
 (§3, §4.2): name, declaring type, parameter type list and the concrete
 function, which acts on the state `σ` of the object and returns a value or
 nothing (`none`, a `void` function). The method sources are missing. -/
structure method (τ σ : Type) where
  name : cstring
  declaring_type : τ
  parameter_types : List type_id
  func : σ → List variant → σ × Option variant

/-- Modelled from the spec: an Instance wrapper (§2): a reference to an object
 through a view of static type `static_type` at address `addr`, with the
 derived info the object supplies. -/
structure instance_ref (τ : Type) where
  static_type : τ
  addr : Int
  info : derived_info τ

/-- Outcome of an invocation: the returned Variant, the state of the object
 afterwards, and whether the concrete function was called. -/
structure invoke_result (σ : Type) where
  result : variant
  obj : σ
  called : Bool
  deriving DecidableEq

/-- Modelled from the spec: binding of §4.2 (3): each argument is bound
 "without conversion if types match exactly, else attempts a convert to the
 parameter type"; binding fails as a whole when one parameter cannot be
 bound. -/
def bind_arguments : List type_id → List variant → Option (List variant)
  | [], [] => some []
  | t :: ts, a :: rest =>
    match a.convert t, bind_arguments ts rest with
    | some v, some vs => some (v :: vs)
    | _, _ => none
  | _, _ => none

/-- Modelled from the spec: `invoke_variadic(instance, args)` of §4.2, the call
 form "taking an ordered list of erased arguments": (1) instance resolution,
 (2) argument count against arity, (3) binding, (4) the call, with a `void`
 return wrapped as the void Variant, (5) the invalid Variant when resolution,
 arity or binding failed. The method sources are missing. -/
def invoke_variadic {τ σ : Type} [DecidableEq τ] (tbl : type_table τ) (m : method τ σ)
    (inst : instance_ref τ) (obj : σ) (args : List variant) : invoke_result σ :=
  match resolve tbl inst.static_type inst.addr inst.info m.declaring_type with
  | none => ⟨variant.invalid, obj, false⟩
  | some _ =>
    if args.length ≠ m.parameter_types.length then ⟨variant.invalid, obj, false⟩
    else
      match bind_arguments m.parameter_types args with
      | none => ⟨variant.invalid, obj, false⟩
      | some bound =>
        match m.func obj bound with
        | (obj', none) => ⟨variant.void, obj', true⟩
        | (obj', some r) => ⟨r, obj', true⟩

/-- Modelled from the spec: the fixed-arity call form `m.invoke(obj)`. -/
def invoke {τ σ : Type} [DecidableEq τ] (tbl : type_table τ) (m : method τ σ)
    (inst : instance_ref τ) (obj : σ) : invoke_result σ :=
  invoke_variadic tbl m inst obj []

/-- Modelled from the spec: the fixed-arity call form `m.invoke(obj, arg1)`. -/
def invoke_1 {τ σ : Type} [DecidableEq τ] (tbl : type_table τ) (m : method τ σ)
    (inst : instance_ref τ) (obj : σ) (arg1 : variant) : invoke_result σ :=
  invoke_variadic tbl m inst obj [arg1]

/-- Modelled from the spec: the fixed-arity call form
 `m.invoke(obj, arg1, arg2)`. -/
def invoke_2 {τ σ : Type} [DecidableEq τ] (tbl : type_table τ) (m : method τ σ)
    (inst : instance_ref τ) (obj : σ) (arg1 arg2 : variant) : invoke_result σ :=
  invoke_variadic tbl m inst obj [arg1, arg2]

/-- Modelled from the spec: the fixed-arity call form
 `m.invoke(obj, arg1, arg2, arg3)`. -/
def invoke_3 {τ σ : Type} [DecidableEq τ] (tbl : type_table τ) (m : method τ σ)
    (inst : instance_ref τ) (obj : σ) (arg1 arg2 arg3 : variant) : invoke_result σ :=
  invoke_variadic tbl m inst obj [arg1, arg2, arg3]

/-- Modelled from the spec: `rttr::type::get(obj)`, "get type of instance"
 (§6): the dynamic type the object reports. -/
def type_get {τ : Type} (inst : instance_ref τ) : τ := inst.info.type

/-- Modelled from the spec: `get_method(name)` on a type: the first registered
 method of that name declared by the type or by one of its bases (§3, §6). -/
def get_method {τ σ : Type} [DecidableEq τ] (tbl : type_table τ) (methods : List (method τ σ))
    (t : τ) (name : cstring) : Option (method τ σ) :=
  methods.find? (fun m => m.name == name && (walk tbl.bases tbl.depth t m.declaring_type 0).isSome)

/-! ### The class hierarchies of the benchmarks

`benchmarks/bench_method/test_methods.h` is missing from the sources examined; the
hierarchies are the ones `bench_find_method.cpp` and the specification (§8)
describe. -/

/-- Modelled from the spec: a single-inheritance chain of depth `D`: class `0`
 is `method_class`, class `i + 1` is `method_class_d_(i+1)` and has the one base
 `method_class_d_i` at the static offset `δ i`; identifiers above `D` are
 unrelated types. -/
def chain_table (δ : Nat → Int) (D : Nat) : type_table Nat where
  bases := fun t =>
    match t with
    | 0 => []
    | i + 1 => if i < D then [⟨i, fun a => a + δ i⟩] else []
  depth := D

/-- The compile-time-known offset from class `k` of a chain to its ancestor
 `j`: the sum of the offsets `δ i` of the hops `i + 1 → i` for `j ≤ i < k`. -/
def chain_offset (δ : Nat → Int) (j : Nat) : Nat → Int
  | 0 => 0
  | k + 1 => if j ≤ k then δ k + chain_offset δ j k else 0

/-- Name of the method that `bench_find_method.cpp` looks up for class number
 `i`: "method_i". -/
def method_name (i : Nat) : cstring := bytes "method_" ++ nat_to_string i

/-- Modelled from the spec: the methods of the chain: class `i` declares the
 parameterless `void method_i()`. -/
def chain_methods (D : Nat) : List (method Nat Unit) :=
  (List.range (D + 1)).map (fun i => ⟨method_name i, i, [], fun s _ => (s, none)⟩)

/-- The native `dynamic_cast<method_class_d_j*>` applied to an object of
 dynamic type `method_class_d_k` of the chain of depth `D`: it succeeds when
 class `k` is class `j` or is declared, directly or through its base, as
 derived from it. -/
def native_dynamic_cast (D : Nat) : Nat → Nat → Bool
  | 0, j => j == 0
  | i + 1, j => j == i + 1 || (decide (i < D) && native_dynamic_cast D i j)

/-- Classes of a multiple-inheritance hierarchy with two branches: `A i` is
 `class_multiple_base_A` (`i = 0`) or `class_multiple_iA`, `C i` likewise for
 the branch of `class_multiple_base_C`, and `final` is `class_multiple_final`. -/
inductive multiple where
  | A (i : Nat)
  | C (i : Nat)
  | final
  deriving DecidableEq, Repr

/-- Modelled from the spec: the hierarchy of §8 with a most-derived type
 `final` and two unrelated base branches: `A (i+1)` derives from `A i` for
 `i < m`, `C (i+1)` from `C i` for `i < n`, and `final` from `A m` (offset
 `oA`) and from `C n` (offset `oC`). -/
def diamond_table (m n : Nat) (δA δC : Nat → Int) (oA oC : Int) : type_table multiple where
  bases := fun t =>
    match t with
    | .A 0 => []
    | .A (i + 1) => if i < m then [⟨.A i, fun a => a + δA i⟩] else []
    | .C 0 => []
    | .C (i + 1) => if i < n then [⟨.C i, fun a => a + δC i⟩] else []
    | .final => [⟨.A m, fun a => a + oA⟩, ⟨.C n, fun a => a + oC⟩]
  depth := max m n + 1

/-- A method with `n` `int` parameters that returns nothing and counts its
 calls in the object, standing for `void_method_arg_n` of `method_class`. -/
def void_method_arg (n : Nat) : method Nat Nat where
  name := bytes "void_method_arg_" ++ nat_to_string n
  declaring_type := 0
  parameter_types := List.replicate n type_id.int
  func := fun calls _ => (calls + 1, none)

/-- An object of dynamic type `method_class` referred to as such. -/
def method_class_obj : instance_ref Nat := ⟨0, 0, ⟨0, 0⟩⟩

/-- Value of a run of decimal digit characters given least significant first. -/
def value_rev : cstring → Nat
  | [] => 0
  | ch :: rest => (ch - 48) + 10 * value_rev rest

/-- Every character of the string is a decimal digit. -/
def all_digits (s : cstring) : Prop := ∀ ch ∈ s, 48 ≤ ch ∧ ch ≤ 57


/-! ## `rttr/string_view.h` -/

/-- Modelled from the spec: `std::char_traits<char>::compare(s1, s2, count)`, which
 `basic_string_view::compare` is documented to call: the first `count`
 characters are compared as unsigned values, the result is negative, zero or
 positive. The implementation (`rttr/detail/impl/string_view_impl.h`) is
 missing. -/
def traits_compare : cstring → cstring → Nat → Int
  | a :: s1, b :: s2, count + 1 =>
    if a < b then -1 else if b < a then 1 else traits_compare s1 s2 count
  | _, _, _ => 0

/-- Source `class basic_string_view` for `CharT = char`: the characters of the
 range `[m_data, m_data + m_size)`; `m_size` is the length of the list. -/
structure basic_string_view where
  m_data : cstring
  deriving DecidableEq, Repr

/-- Source `size()`: "the number of `CharT` elements in the view". -/
def basic_string_view.size (self : basic_string_view) : Nat := self.m_data.length

/-- Source `operator[](pos)` for `pos < size()`. -/
def basic_string_view.at (self : basic_string_view) (pos : Nat) : Nat := self.m_data.getD pos 0

/-- Modelled from the spec: `compare(v)` as `string_view.h` documents it: "The
 function compares the two views by calling `Traits::compare(data(), v.data(),
 length)`, where length is the small of `size()` and `v.size()`", and returns a
 "negative value if this view is less than the other character sequence, zero
 if the both character sequences are equal, positive value if this view is
 greater"; views with a common beginning are ordered by size. The
 implementation (`rttr/detail/impl/string_view_impl.h`) is missing. -/
def basic_string_view.compare (self v : basic_string_view) : Int :=
  let cmp := traits_compare self.m_data v.m_data (min self.size v.size)
  if cmp ≠ 0 then cmp
  else if self.size = v.size then 0
  else if self.size < v.size then -1
  else 1

/-- Modelled from the spec: `operator==(lhs, rhs)` as `string_view.h` documents
 it: "Two views are equal if both the `size()` of lhs and rhs are equal and
 each character in lhs has an equivalent character in rhs at the same
 position". The implementation is missing. -/
def basic_string_view.op_eq (lhs rhs : basic_string_view) : Bool :=
  lhs.size == rhs.size && (List.range lhs.size).all (fun pos => lhs.at pos == rhs.at pos)

/-- The function `std::lexicographical_compare` on two character ranges, to
 which the ordering operators of `string_view.h` are documented to be
 equivalent: whether the first range is lexicographically less than the
 second. -/
def lexicographical_compare : cstring → cstring → Bool
  | [], [] => false
  | [], _ :: _ => true
  | _ :: _, [] => false
  | a :: s1, b :: s2 =>
    if a < b then true else if b < a then false else lexicographical_compare s1 s2

/-! ## `rttr/detail/property/property_wrapper_base.h` and `.cpp` -/

/-- Source `enum class access_levels` of `rttr/access_levels.h`, of which
 `property_wrapper_base.cpp` names `public_access`. -/
inductive access_levels where
  | public_access
  | protected_access
  | private_access
  deriving DecidableEq, Repr

/-- Source `class property_wrapper_base`: its two private data members. `τ`
 stands for `rttr::type`; the `string_view` `m_name` is given by its
 characters. -/
structure property_wrapper_base (τ : Type) where
  m_name : cstring
  m_declaring_type : τ
  deriving DecidableEq, Repr

section
variable {τ σ α κ ν : Type}

/-- Source `property_wrapper_base::property_wrapper_base(string_view name, type
 declaring_type)`, the constructor: the member initializer list `m_name(name),
 m_declaring_type(declaring_type)`. -/
def make_property_wrapper_base (name : cstring) (declaring_type : τ) :
    property_wrapper_base τ :=
  { m_name := name, m_declaring_type := declaring_type }

/-- Source `bool property_wrapper_base::is_valid() const`: `return false;`. -/
def property_wrapper_base.is_valid (_self : property_wrapper_base τ) : Bool := false

/-- Source `string_view property_wrapper_base::get_name() const`:
 `return m_name;`. -/
def property_wrapper_base.get_name (self : property_wrapper_base τ) : cstring := self.m_name

/-- Source `type property_wrapper_base::get_declaring_type() const`:
 `return m_declaring_type;`. -/
def property_wrapper_base.get_declaring_type (self : property_wrapper_base τ) : τ :=
  self.m_declaring_type

/-- Source `access_levels property_wrapper_base::get_access_level() const`:
 `return access_levels::public_access;`. -/
def property_wrapper_base.get_access_level (_self : property_wrapper_base τ) : access_levels :=
  access_levels.public_access

/-- Source `bool property_wrapper_base::is_readonly() const`: `return false;`. -/
def property_wrapper_base.is_readonly (_self : property_wrapper_base τ) : Bool := false

/-- Source `bool property_wrapper_base::is_static() const`: `return false;`. -/
def property_wrapper_base.is_static (_self : property_wrapper_base τ) : Bool := false

/-- Source `type property_wrapper_base::get_type() const`:
 `return get_invalid_type();`; the invalid type of the library is the
 parameter `get_invalid_type`. -/
def property_wrapper_base.get_type (_self : property_wrapper_base τ) (get_invalid_type : τ) : τ :=
  get_invalid_type

/-- Source `variant property_wrapper_base::get_metadata(const variant& key)
 const`: `return variant();`. -/
def property_wrapper_base.get_metadata (_self : property_wrapper_base τ) (_key : κ) : variant :=
  variant.invalid

/-- Source `bool property_wrapper_base::set_value(instance& object, argument& arg)
 const`: `return false;`. The object and the argument are passed by
 reference, so they are returned as the call leaves them. -/
def property_wrapper_base.set_value (_self : property_wrapper_base τ) (object : σ) (arg : α) :
    Bool × σ × α :=
  (false, object, arg)

/-- Source `variant property_wrapper_base::get_value(instance& object) const`:
 `return variant();`. The object is passed by reference, so it is returned as
 the call leaves it. -/
def property_wrapper_base.get_value (_self : property_wrapper_base τ) (object : σ) :
    variant × σ :=
  (variant.invalid, object)

/-- Source `void property_wrapper_base::visit(visitor& visitor, property prop)
 const`: the empty body; the visitor is returned as the call leaves it. -/
def property_wrapper_base.visit (_self : property_wrapper_base τ) (visitor : ν) : ν := visitor

/-- Source `void property_wrapper_base::init()`, the one member function that
 is not `const`: it calls `get_type()` and drops the result; the wrapper is
 returned as the call leaves it. -/
def property_wrapper_base.init (self : property_wrapper_base τ) (get_invalid_type : τ) :
    property_wrapper_base τ :=
  let _ := self.get_type get_invalid_type
  self

/-- A call of a member function of `property_wrapper_base` with its arguments. -/
inductive wrapper_call (τ σ α κ ν : Type) where
  | init (get_invalid_type : τ)
  | is_valid
  | get_type (get_invalid_type : τ)
  | get_metadata (key : κ)
  | set_value (object : σ) (arg : α)
  | get_value (object : σ)
  | visit (visitor : ν)

/-- The wrapper after a call of one of its member functions: `init` may change
 it, the `const` member functions cannot. -/
def property_wrapper_base.after (self : property_wrapper_base τ) :
    wrapper_call τ σ α κ ν → property_wrapper_base τ
  | .init t => self.init t
  | .is_valid => self
  | .get_type _ => self
  | .get_metadata _ => self
  | .set_value _ _ => self
  | .get_value _ => self
  | .visit _ => self

end

/-! ## The JSON example: `examples/json_serialization/from_json.cpp` -/

namespace json_serialization

/-- A `double` of the JSON library, kept as its IEEE-754 binary64 bit pattern;
 no arithmetic is done on it here. -/
structure double where
  bits : Nat
  deriving DecidableEq, Repr

/-- Source `nlohmann::json`: a parsed JSON value (`json::value_t` without `binary` and
 `discarded`, which `json::parse` of a text never yields). An object is the
 list of its members. -/
inductive json where
  | null
  | boolean (b : Bool)
  | number_integer (n : Int)
  | number_unsigned (n : Nat)
  | number_float (x : double)
  | string (s : cstring)
  | array (items : List json)
  | object (members : List (cstring × json))
  deriving Repr

/-- The exceptions of the JSON library that the code can meet; both derive from
 `std::exception`. -/
inductive exception where
  | parse_error
  | type_error
  deriving DecidableEq, Repr

/-- Result of running a piece of code: it returned, it threw, or the recursion
 budget of the embedding was used up before it finished. -/
inductive outcome (α : Type) where
  | ok (a : α)
  | thrown (e : exception)
  | out_of_fuel
  deriving DecidableEq, Repr

/-- The integer types that `extract_value` names, `char` included. -/
inductive int_kind where
  | char
  | int8_t
  | int16_t
  | int32_t
  | int64_t
  | uint8_t
  | uint16_t
  | uint32_t
  | uint64_t
  deriving DecidableEq, Repr

/-- The floating-point types that `extract_value` names. -/
inductive float_kind where
  | float
  | double
  deriving DecidableEq, Repr

/-- The C++ types that the code obtains with `type::get<T>()`. -/
inductive cpp_type where
  | bool
  | integer (k : int_kind)
  | floating (k : float_kind)
  | std_string
  deriving DecidableEq, Repr

/-- A C++ value from which the code constructs a `variant`. -/
inductive cvalue where
  | bool (b : Bool)
  | integer (k : int_kind) (n : Int)
  | floating (k : float_kind) (x : double)
  | string (s : cstring)
  | string_view (s : cstring)
  deriving DecidableEq, Repr

/-- Source `json_object.contains(key)`: only an object contains keys. -/
def json.contains : json → cstring → Bool
  | .object members, key => members.any (fun m => m.1 == key)
  | _, _ => false

/-- Source `json_object[key]` for a key the object contains (`null` stands for the
 cases the code never reaches: an absent key or a value that is no object). -/
def json.at_key : json → cstring → json
  | .object members, key =>
    match members.find? (fun m => m.1 == key) with
    | some m => m.2
    | none => json.null
  | _, _ => json.null

/-- Source `json_array_value.size()`. -/
def json.size : json → Nat
  | .null => 0
  | .array items => items.length
  | .object members => members.length
  | _ => 1

/-- Source `json_array_value[i]` for `i < size()` of an array. -/
def json.at_index : json → Nat → json
  | .array items, i => items.getD i json.null
  | _, _ => json.null

def json.is_array : json → Bool
  | .array _ => true
  | _ => false

def json.is_object : json → Bool
  | .object _ => true
  | _ => false

def json.is_boolean : json → Bool
  | .boolean _ => true
  | _ => false

/-- Source `is_number_integer()`: true for signed and for unsigned integers. -/
def json.is_number_integer : json → Bool
  | .number_integer _ => true
  | .number_unsigned _ => true
  | _ => false

def json.is_number_unsigned : json → Bool
  | .number_unsigned _ => true
  | _ => false

def json.is_number_float : json → Bool
  | .number_float _ => true
  | _ => false

def json.is_string : json → Bool
  | .string _ => true
  | _ => false

mutual
/-- Nesting depth of a JSON value: `0` for a scalar. -/
def json.depth : json → Nat
  | .array items => depth_items items + 1
  | .object members => depth_members members + 1
  | _ => 0
/-- Largest depth among the items of an array. -/
def depth_items : List json → Nat
  | [] => 0
  | j :: rest => max j.depth (depth_items rest)
/-- Largest depth among the member values of an object. -/
def depth_members : List (cstring × json) → Nat
  | [] => 0
  | (_, j) :: rest => max j.depth (depth_members rest)
end

/-- Value of `n` in an unsigned integer type of `bits` bits. -/
def wrap_unsigned (bits : Nat) (n : Int) : Int := n % 2 ^ bits

/-- Value of `n` in a two's-complement signed integer type of `bits` bits. -/
def wrap_signed (bits : Nat) (n : Int) : Int :=
  (n + 2 ^ (bits - 1)) % 2 ^ bits - 2 ^ (bits - 1)

/-- Source `static_cast<T>(n)` for an integer type `T`; `char` is the signed
 8-bit type. -/
def int_kind.cast : int_kind → Int → Int
  | .char, n => wrap_signed 8 n
  | .int8_t, n => wrap_signed 8 n
  | .int16_t, n => wrap_signed 16 n
  | .int32_t, n => wrap_signed 32 n
  | .int64_t, n => wrap_signed 64 n
  | .uint8_t, n => wrap_unsigned 8 n
  | .uint16_t, n => wrap_unsigned 16 n
  | .uint32_t, n => wrap_unsigned 32 n
  | .uint64_t, n => wrap_unsigned 64 n


/-- Source `json_value.get<bool>()`: the value of a JSON boolean; `type_error` for
 every other kind. -/
def json.get_bool : json → Except exception Bool
  | .boolean b => .ok b
  | _ => .error exception.type_error

/-- Source `json_value.get<T>()` for an integer type `T`: a JSON number is converted
 with `static_cast<T>`; a JSON boolean is accepted (as 0 or 1) except by
 `int64_t` and `uint64_t`, the library's own number types; every other kind is
 a `type_error`. `trunc` is the integer part of a `double`. -/
def json.get_integer (trunc : double → Int) (k : int_kind) : json → Except exception Int
  | .number_unsigned n => .ok (k.cast n)
  | .number_integer n => .ok (k.cast n)
  | .number_float x => .ok (k.cast (trunc x))
  | .boolean b =>
    if k = int_kind.int64_t ∨ k = int_kind.uint64_t then .error exception.type_error
    else .ok (k.cast (if b then 1 else 0))
  | _ => .error exception.type_error

/-- Source `json_value.get<T>()` for `T` one of `float` and `double`: a JSON number
 is converted with `static_cast<T>`; a JSON boolean is accepted by `float`
 only; every other kind is a `type_error`. `of_int` is the `double` of an
 integer, `to_float` the rounding of a `double` to `float`. -/
def json.get_floating (of_int : Int → double) (to_float : double → double) (k : float_kind) :
    json → Except exception double
  | .number_unsigned n => .ok (if k = float_kind.float then to_float (of_int n) else of_int n)
  | .number_integer n => .ok (if k = float_kind.float then to_float (of_int n) else of_int n)
  | .number_float x => .ok (if k = float_kind.float then to_float x else x)
  | .boolean b =>
    if k = float_kind.double then .error exception.type_error
    else .ok (to_float (of_int (if b then 1 else 0)))
  | _ => .error exception.type_error

/-- Source `json_value.get<std::string>()`: the text of a JSON string; `type_error`
 for every other kind. -/
def json.get_string : json → Except exception cstring
  | .string s => .ok s
  | _ => .error exception.type_error

/-! ### The reflection interface used by the example

The example is written against the public interface of the library, whose
implementation is missing from the sources examined. The interface is a parameter of
the embedding: `σ` is the state of the program (the objects and the variants
alive), `T`, `P`, `I`, `V` and `W` are what `rttr::type`, `rttr::property`,
`rttr::instance`, `rttr::variant` and `rttr::variant_sequential_view` refer
to. -/

/-- The operations of the library that `from_json.cpp` calls. -/
structure reflection (σ T P I V W : Type) where
  /-- Source `type::get<X>()`. -/
  type_get : cpp_type → T
  /-- Source `t.is_arithmetic()`. -/
  is_arithmetic : T → Bool
  /-- Source `t.is_enumeration()`. -/
  is_enumeration : T → Bool
  /-- Source `t.is_wrapper()`. -/
  is_wrapper : T → Bool
  /-- Source `t.is_sequential_container()`. -/
  is_sequential_container : T → Bool
  /-- Source `t.get_wrapped_type()`. -/
  get_wrapped_type : T → T
  /-- Source `t.get_raw_type()`. -/
  get_raw_type : T → T
  /-- Source `t.get_properties()`. -/
  get_properties : T → List P
  /-- Source `t.get_enumeration().name_to_value(name)`. -/
  name_to_value : σ → T → cstring → σ × V
  /-- Source `t.get_enumeration().value_to_name(value)` for an `int64_t` value. -/
  value_to_name : T → Int → cstring
  /-- Source `prop.get_metadata(key)`. -/
  get_metadata : σ → P → cstring → σ × V
  /-- Source `prop.get_name()`. -/
  get_name : P → cstring
  /-- Source `prop.get_type()`. -/
  prop_get_type : P → T
  /-- Source `prop.get_value(obj)`. -/
  prop_get_value : σ → P → I → σ × V
  /-- Source `prop.set_value(obj, arg)`. -/
  prop_set_value : σ → P → I → V → σ × Bool
  /-- The conversion of a `variant` to the `instance` that refers to it. -/
  instance_of_variant : V → I
  /-- Source `obj.get_type()`. -/
  inst_get_type : σ → I → T
  /-- Source `obj.get_wrapped_instance()`. -/
  get_wrapped_instance : σ → I → I
  /-- Source `obj.get_derived_type()`. -/
  get_derived_type : σ → I → T
  /-- Construction of a `variant` from a C++ value. -/
  make_variant : σ → cvalue → σ × V
  /-- Source `variant()`, the invalid variant. -/
  make_invalid : σ → σ × V
  /-- Source `explicit operator bool` of a `variant`. -/
  operator_bool : σ → V → Bool
  /-- Source `var.convert(target_type)`, which changes `var` in place. -/
  convert : σ → V → T → σ × Bool
  /-- Source `var.extract_wrapped_value()`. -/
  extract_wrapped_value : σ → V → σ × V
  /-- Source `var.create_sequential_view()`. -/
  create_sequential_view : σ → V → σ × W
  /-- Source `view.set_size(n)`. -/
  set_size : σ → W → Nat → σ × Bool
  /-- Source `view.get_value_type()`. -/
  get_value_type : σ → W → T
  /-- Source `view.get_value(i)`. -/
  view_get_value : σ → W → Nat → σ × V
  /-- Source `view.set_value(i, arg)`. -/
  view_set_value : σ → W → Nat → V → σ × Bool
  /-- Integer part of a `double` (`static_cast` to an integer type). -/
  trunc : double → Int
  /-- The `double` of an integer. -/
  of_int : Int → double
  /-- Rounding of a `double` to `float`. -/
  to_float : double → double

/-- An access to an object or to a container made through the library. -/
inductive event (P I V W : Type) where
  | prop_get_value (prop : P) (obj : I)
  | prop_set_value (prop : P) (obj : I) (arg : V)
  | view_set_size (view : W) (n : Nat)
  | view_get_value (view : W) (i : Nat)
  | view_set_value (view : W) (i : Nat) (arg : V)
  deriving DecidableEq, Repr

/-- State threaded through the embedded code: the state of the program and the
 accesses made so far, oldest first. -/
structure run_state (σ P I V W : Type) where
  world : σ
  trace : List (event P I V W)

/-- A computation over a state `S` that returns, throws or runs out of fuel;
 the state reached is kept in every case. -/
def M (S α : Type) : Type := S → outcome α × S

/-- Sequencing: the rest runs only after a normal return. -/
def M.bind {S α β : Type} (m : M S α) (f : α → M S β) : M S β :=
  fun s =>
    match m s with
    | (.ok a, s') => f a s'
    | (.thrown e, s') => (.thrown e, s')
    | (.out_of_fuel, s') => (.out_of_fuel, s')

instance (S : Type) : Monad (M S) where
  pure a := fun s => (.ok a, s)
  bind := M.bind

/-- A library function of the JSON library that may throw. -/
def lift_except {S α : Type} : Except exception α → M S α
  | .ok a => fun s => (.ok a, s)
  | .error e => fun s => (.thrown e, s)

/-- The recursion budget is used up. -/
def no_fuel {S α : Type} : M S α := fun s => (.out_of_fuel, s)

section
variable {σ T P I V W : Type}

/-- A call that reads the state of the program. -/
def read (f : σ → W → T) (w : W) : M (run_state σ P I V W) T :=
  fun s => (.ok (f s.world w), s)

/-- A call that may change the state of the program. -/
def call {α : Type} (f : σ → σ × α) : M (run_state σ P I V W) α :=
  fun s => (.ok (f s.world).2, { s with world := (f s.world).1 })

/-- A logged call: the access is appended to the trace, then the call is made. -/
def access {α : Type} (ev : event P I V W) (f : σ → σ × α) : M (run_state σ P I V W) α :=
  fun s => (.ok (f s.world).2, { world := (f s.world).1, trace := s.trace ++ [ev] })

/-- A `for` loop over a list whose body may `continue` (return normally). -/
def for_each {S α : Type} : List α → (α → M S Unit) → M S Unit
  | [], _ => pure ()
  | x :: xs, body => M.bind (body x) (fun _ => for_each xs body)

/-- Translation of `variant extract_basic_types(const json& json_value)`,
 `from_json.cpp` lines 50-64. -/
def extract_basic_types (r : reflection σ T P I V W) (json_value : json) :
    M (run_state σ P I V W) V :=
  if json_value.is_boolean then do
    let b ← lift_except json_value.get_bool
    call (fun w => r.make_variant w (cvalue.bool b))
  else if json_value.is_number_integer then do
    let n ← lift_except (json_value.get_integer r.trunc int_kind.int64_t)
    call (fun w => r.make_variant w (cvalue.integer int_kind.int64_t n))
  else if json_value.is_number_unsigned then do
    let n ← lift_except (json_value.get_integer r.trunc int_kind.uint64_t)
    call (fun w => r.make_variant w (cvalue.integer int_kind.uint64_t n))
  else if json_value.is_number_float then do
    let x ← lift_except (json_value.get_floating r.of_int r.to_float float_kind.double)
    call (fun w => r.make_variant w (cvalue.floating float_kind.double x))
  else if json_value.is_string then do
    let s ← lift_except json_value.get_string
    call (fun w => r.make_variant w (cvalue.string s))
  else
    call r.make_invalid

/-- The branch `return json_value.get<T>();` of `extract_value` for an integer
 type `T`. -/
def extract_integer (r : reflection σ T P I V W) (json_value : json) (k : int_kind) :
    M (run_state σ P I V W) V := do
  let n ← lift_except (json_value.get_integer r.trunc k)
  call (fun w => r.make_variant w (cvalue.integer k n))

/-- The branch `return json_value.get<T>();` of `extract_value` for `T` one of
 `float` and `double`. -/
def extract_floating (r : reflection σ T P I V W) (json_value : json) (k : float_kind) :
    M (run_state σ P I V W) V := do
  let x ← lift_except (json_value.get_floating r.of_int r.to_float k)
  call (fun w => r.make_variant w (cvalue.floating k x))

/-- Translation of `variant extract_value(const json& json_value, const type& t)`,
 `from_json.cpp` lines 99-145. -/
def extract_value [DecidableEq T] (r : reflection σ T P I V W) (json_value : json) (t : T) :
    M (run_state σ P I V W) V :=
  if r.is_arithmetic t then
    if t = r.type_get cpp_type.bool then do
      let b ← lift_except json_value.get_bool
      call (fun w => r.make_variant w (cvalue.bool b))
    else if t = r.type_get (cpp_type.integer int_kind.char) then do
      let n ← lift_except (json_value.get_integer r.trunc int_kind.int32_t)
      call (fun w => r.make_variant w (cvalue.integer int_kind.char (int_kind.char.cast n)))
    else if t = r.type_get (cpp_type.integer int_kind.int8_t) then
      extract_integer r json_value int_kind.int8_t
    else if t = r.type_get (cpp_type.integer int_kind.int16_t) then
      extract_integer r json_value int_kind.int16_t
    else if t = r.type_get (cpp_type.integer int_kind.int32_t) then
      extract_integer r json_value int_kind.int32_t
    else if t = r.type_get (cpp_type.integer int_kind.int64_t) then
      extract_integer r json_value int_kind.int64_t
    else if t = r.type_get (cpp_type.integer int_kind.uint8_t) then
      extract_integer r json_value int_kind.uint8_t
    else if t = r.type_get (cpp_type.integer int_kind.uint16_t) then
      extract_integer r json_value int_kind.uint16_t
    else if t = r.type_get (cpp_type.integer int_kind.uint32_t) then
      extract_integer r json_value int_kind.uint32_t
    else if t = r.type_get (cpp_type.integer int_kind.uint64_t) then
      extract_integer r json_value int_kind.uint64_t
    else if t = r.type_get (cpp_type.floating float_kind.float) then
      extract_floating r json_value float_kind.float
    else if t = r.type_get (cpp_type.floating float_kind.double) then
      extract_floating r json_value float_kind.double
    else
      call r.make_invalid
  else if r.is_enumeration t then
    if json_value.is_string then do
      let name ← lift_except json_value.get_string
      call (fun w => r.name_to_value w t name)
    else if json_value.is_number_integer then do
      let n ← lift_except (json_value.get_integer r.trunc int_kind.int64_t)
      call (fun w => r.make_variant w (cvalue.string_view (r.value_to_name t n)))
    else
      call r.make_invalid
  else if t = r.type_get cpp_type.std_string then do
    let s ← lift_except json_value.get_string
    call (fun w => r.make_variant w (cvalue.string s))
  else
    call r.make_invalid

/-- The body of `write_array_recursively(view, json_array_value)`,
 `from_json.cpp` lines 68-95; `rec_obj` and `rec_arr` are the two recursive
 calls. -/
def write_array_body (r : reflection σ T P I V W)
    (rec_obj : I → json → M (run_state σ P I V W) Unit)
    (rec_arr : W → json → M (run_state σ P I V W) Unit)
    (view : W) (json_array_value : json) : M (run_state σ P I V W) Unit := do
  let _ ← access (event.view_set_size view json_array_value.size)
    (fun w => r.set_size w view json_array_value.size)
  let array_value_type ← read r.get_value_type view
  for_each (List.range json_array_value.size) (fun i =>
    let json_index_value := json_array_value.at_index i
    if json_index_value.is_array then do
      let element ← access (event.view_get_value view i) (fun w => r.view_get_value w view i)
      let sub_array_view ← call (fun w => r.create_sequential_view w element)
      rec_arr sub_array_view json_index_value
    else if json_index_value.is_object then do
      let var_tmp ← access (event.view_get_value view i) (fun w => r.view_get_value w view i)
      let wrapped_var ← call (fun w => r.extract_wrapped_value w var_tmp)
      rec_obj (r.instance_of_variant wrapped_var) json_index_value
      let _ ← access (event.view_set_value view i wrapped_var)
        (fun w => r.view_set_value w view i wrapped_var)
      pure ()
    else do
      let extracted_value ← extract_basic_types r json_index_value
      let converted ← call (fun w => r.convert w extracted_value array_value_type)
      if converted then
        let _ ← access (event.view_set_value view i extracted_value)
          (fun w => r.view_set_value w view i extracted_value)
        pure ()
      else
        pure ())

/-- The instance `wrapped_obj` of `fromjson_recursively`:
 `obj.get_type().get_raw_type().is_wrapper() ? obj.get_wrapped_instance() : obj`. -/
def wrapped_instance (r : reflection σ T P I V W) (w : σ) (obj : I) : I :=
  if r.is_wrapper (r.get_raw_type (r.inst_get_type w obj)) then r.get_wrapped_instance w obj
  else obj

/-- The body of `fromjson_recursively(obj, json_object)`, `from_json.cpp` lines
 149-196; `rec_obj` and `rec_arr` are the two recursive calls. -/
def fromjson_body [DecidableEq T] (r : reflection σ T P I V W)
    (rec_obj : I → json → M (run_state σ P I V W) Unit)
    (rec_arr : W → json → M (run_state σ P I V W) Unit)
    (obj : I) (json_object : json) : M (run_state σ P I V W) Unit :=
  fun s =>
    let wrapped_obj := wrapped_instance r s.world obj
    let prop_list := r.get_properties (r.get_derived_type s.world wrapped_obj)
    for_each prop_list (fun prop => do
      let no_serialize ← call (fun w => r.get_metadata w prop (bytes "NO_SERIALIZE"))
      let skip ← (fun s => (outcome.ok (r.operator_bool s.world no_serialize), s))
      if skip then pure ()
      else
        let name := r.get_name prop
        if !json_object.contains name then pure ()
        else
          let json_value := json_object.at_key name
          let value_t := r.prop_get_type prop
          match json_value with
          | json.array _ => do
            let _ ← call r.make_invalid
            if r.is_sequential_container value_t then do
              let var ← access (event.prop_get_value prop wrapped_obj)
                (fun w => r.prop_get_value w prop wrapped_obj)
              let view ← call (fun w => r.create_sequential_view w var)
              rec_arr view json_value
            else pure ()
          | json.object _ => do
            let var ← access (event.prop_get_value prop wrapped_obj)
              (fun w => r.prop_get_value w prop wrapped_obj)
            rec_obj (r.instance_of_variant var) json_value
            let _ ← access (event.prop_set_value prop wrapped_obj var)
              (fun w => r.prop_set_value w prop wrapped_obj var)
            pure ()
          | _ => do
            let extracted_value ← extract_value r json_value
              (if r.is_wrapper value_t then r.get_wrapped_type value_t else value_t)
            let converted ← call (fun w => r.convert w extracted_value value_t)
            if converted then
              let _ ← access (event.prop_set_value prop wrapped_obj extracted_value)
                (fun w => r.prop_set_value w prop wrapped_obj extracted_value)
              pure ()
            else pure ()) s

mutual
/-- Translation of `void fromjson_recursively(instance obj, const json&
 json_object)`; the first argument bounds the depth of the recursion. -/
def fromjson_recursively [DecidableEq T] (r : reflection σ T P I V W) :
    Nat → I → json → M (run_state σ P I V W) Unit
  | 0 => fun _ _ => no_fuel
  | fuel + 1 => fromjson_body r (fromjson_recursively r fuel) (write_array_recursively r fuel)
/-- Translation of `static void write_array_recursively(variant_sequential_view&
 view, const json& json_array_value)`; the first argument bounds the depth of
 the recursion. -/
def write_array_recursively [DecidableEq T] (r : reflection σ T P I V W) :
    Nat → W → json → M (run_state σ P I V W) Unit
  | 0 => fun _ _ => no_fuel
  | fuel + 1 => write_array_body r (fromjson_recursively r fuel) (write_array_recursively r fuel)
end

/-- Translation of `bool io::from_json(const std::string& json_str,
 rttr::instance obj)`, `from_json.cpp` lines 209-222. `parse` is `json::parse` of
 the JSON library; a thrown `std::exception` is caught and turned into `false`
 (the message written to `std::cerr` is not modelled). The recursion is given
 the budget `depth + 1` of the parsed value. -/
def from_json [DecidableEq T] (r : reflection σ T P I V W)
    (parse : cstring → Except exception json) (json_str : cstring) (obj : I) :
    M (run_state σ P I V W) Bool :=
  fun s =>
    match parse json_str with
    | .error _ => (.ok false, s)
    | .ok json_object =>
      match fromjson_recursively r (json_object.depth + 1) obj json_object s with
      | (.ok _, s') => (.ok true, s')
      | (.thrown _, s') => (.ok false, s')
      | (.out_of_fuel, s') => (.out_of_fuel, s')

end

/-! ### A concrete JSON reader and a concrete object, used to run the code -/

/-- JSON whitespace: space, tab, line feed, carriage return. -/
def is_json_space (ch : Nat) : Bool := ch == 32 || ch == 9 || ch == 10 || ch == 13

/-- The input after its leading whitespace. -/
def skip_space : cstring → cstring
  | [] => []
  | ch :: rest => if is_json_space ch then skip_space rest else ch :: rest

/-- The input after the literal `lit`, when the input starts with it. -/
def expect : cstring → cstring → Option cstring
  | [], input => some input
  | _ :: _, [] => none
  | c :: lit, ch :: input => if c = ch then expect lit input else none

/-- The characters up to the closing quote of a JSON string without escapes,
 and the input after the quote. -/
def read_string : cstring → Option (cstring × cstring)
  | [] => none
  | ch :: rest =>
    if ch = 34 then some ([], rest)
    else if ch = 92 ∨ ch < 32 then none
    else
      match read_string rest with
      | some (s, rest') => some (ch :: s, rest')
      | none => none

/-- The leading decimal digits of the input and the input after them. -/
def read_digits : cstring → cstring × cstring
  | [] => ([], [])
  | ch :: rest =>
    if 48 ≤ ch ∧ ch ≤ 57 then ((read_digits rest).1 ++ [ch], (read_digits rest).2)
    else ([], ch :: rest)

/-- Value of decimal digit characters given least significant first. -/
def digits_value : cstring → Nat
  | [] => 0
  | ch :: rest => (ch - 48) + 10 * digits_value rest

/-- A JSON integer that fits the 64-bit number types of the library: an
 unsigned number below `2 ^ 64`, or a signed one not below `- 2 ^ 63` after
 `-`. -/
def read_number (input : cstring) : Option (json × cstring) :=
  match input with
  | 45 :: rest =>
    match read_digits rest with
    | ([], _) => none
    | (ds, rest') =>
      if digits_value ds ≤ 2 ^ 63 then some (json.number_integer (-(digits_value ds : Int)), rest')
      else none
  | _ =>
    match read_digits input with
    | ([], _) => none
    | (ds, rest') =>
      if digits_value ds < 2 ^ 64 then some (json.number_unsigned (digits_value ds), rest')
      else none

mutual
/-- Reads one JSON value of the subset without fractions, exponents, string
 escapes and integers beyond 64 bits. -/
def read_value : Nat → cstring → Option (json × cstring)
  | 0, _ => none
  | fuel + 1, input =>
    match skip_space input with
    | [] => none
    | ch :: rest =>
      if ch = 110 then (expect (bytes "ull") rest).map (fun r => (json.null, r))
      else if ch = 116 then (expect (bytes "rue") rest).map (fun r => (json.boolean true, r))
      else if ch = 102 then (expect (bytes "alse") rest).map (fun r => (json.boolean false, r))
      else if ch = 34 then (read_string rest).map (fun sr => (json.string sr.1, sr.2))
      else if ch = 91 then
        match skip_space rest with
        | 93 :: rest' => some (json.array [], rest')
        | _ => (read_items fuel rest).map (fun ir => (json.array ir.1, ir.2))
      else if ch = 123 then
        match skip_space rest with
        | 125 :: rest' => some (json.object [], rest')
        | _ => (read_members fuel rest).map (fun mr => (json.object mr.1, mr.2))
      else read_number (ch :: rest)
/-- Reads the items of an array up to the closing bracket. -/
def read_items : Nat → cstring → Option (List json × cstring)
  | 0, _ => none
  | fuel + 1, input =>
    match read_value fuel input with
    | none => none
    | some (v, rest) =>
      match skip_space rest with
      | 44 :: rest' => (read_items fuel rest').map (fun ir => (v :: ir.1, ir.2))
      | 93 :: rest' => some ([v], rest')
      | _ => none
/-- Reads the members of an object up to the closing brace. -/
def read_members : Nat → cstring → Option (List (cstring × json) × cstring)
  | 0, _ => none
  | fuel + 1, input =>
    match skip_space input with
    | 34 :: rest =>
      match read_string rest with
      | none => none
      | some (key, rest1) =>
        match skip_space rest1 with
        | 58 :: rest2 =>
          match read_value fuel rest2 with
          | none => none
          | some (v, rest3) =>
            match skip_space rest3 with
            | 44 :: rest4 => (read_members fuel rest4).map (fun mr => ((key, v) :: mr.1, mr.2))
            | 125 :: rest4 => some ([(key, v)], rest4)
            | _ => none
        | _ => none
    | _ => none
end

/-- A stand-in for `json::parse` on the subset of JSON read by `read_value`:
 the value of a text that is one JSON value, `parse_error` otherwise. -/
def parse_text (text : cstring) : Except exception json :=
  match read_value (2 * text.length + 2) text with
  | some (j, rest) => if skip_space rest = [] then .ok j else .error exception.parse_error
  | none => .error exception.parse_error

/-- State of a small program: one object of a class with the properties
 `flag` (a `bool`) and `count` (an `int32_t`), and the variants created so far
 (`none` is an invalid variant). -/
structure demo_state where
  flag : Bool
  count : Int
  variants : List (Option cvalue)
  deriving DecidableEq, Repr

/-- Type of a C++ value. -/
def cvalue.type : cvalue → Option cpp_type
  | .bool _ => some cpp_type.bool
  | .integer k _ => some (cpp_type.integer k)
  | .floating k _ => some (cpp_type.floating k)
  | .string _ => some cpp_type.std_string
  | .string_view _ => none

/-- A new variant is stored; its number is returned. -/
def demo_alloc (w : demo_state) (v : Option cvalue) : demo_state × Nat :=
  ({ w with variants := w.variants ++ [v] }, w.variants.length)

/-- The content of variant number `v`. -/
def demo_content (w : demo_state) (v : Nat) : Option cvalue :=
  (w.variants.getD v none)

/-- The library as the small program sees it. Types are `some` C++ type or
 `none` (the class of the object, and the type of an invalid variant);
 properties are numbered `0` (`flag`) and `1` (`count`); instance `0` is the
 object and instance `v + 1` refers to variant `v`; no type is a wrapper, an
 enumeration or a container, and `convert` succeeds only on a variant that
 already has the target type. -/
def demo : reflection demo_state (Option cpp_type) Nat Nat Nat Nat where
  type_get := fun c => some c
  is_arithmetic := fun t =>
    match t with
    | some cpp_type.std_string => false
    | some _ => true
    | none => false
  is_enumeration := fun _ => false
  is_wrapper := fun _ => false
  is_sequential_container := fun _ => false
  get_wrapped_type := fun t => t
  get_raw_type := fun t => t
  get_properties := fun t => if t = none then [0, 1] else []
  name_to_value := fun w _ _ => demo_alloc w none
  value_to_name := fun _ _ => []
  get_metadata := fun w _ _ => demo_alloc w none
  get_name := fun p => if p = 0 then bytes "flag" else bytes "count"
  prop_get_type := fun p =>
    if p = 0 then some cpp_type.bool else some (cpp_type.integer int_kind.int32_t)
  prop_get_value := fun w p _ =>
    demo_alloc w (some (if p = 0 then cvalue.bool w.flag
      else cvalue.integer int_kind.int32_t w.count))
  prop_set_value := fun w p obj v =>
    if obj ≠ 0 then (w, false)
    else
      match p, demo_content w v with
      | 0, some (cvalue.bool b) => ({ w with flag := b }, true)
      | 1, some (cvalue.integer int_kind.int32_t n) => ({ w with count := n }, true)
      | _, _ => (w, false)
  instance_of_variant := fun v => v + 1
  inst_get_type := fun w i =>
    match i with
    | 0 => none
    | v + 1 => (demo_content w v).bind cvalue.type
  get_wrapped_instance := fun _ i => i
  get_derived_type := fun w i =>
    match i with
    | 0 => none
    | v + 1 => (demo_content w v).bind cvalue.type
  make_variant := fun w c => demo_alloc w (some c)
  make_invalid := fun w => demo_alloc w none
  operator_bool := fun w v => (demo_content w v).isSome
  convert := fun w v t => (w, decide ((demo_content w v).bind cvalue.type = t ∧ t ≠ none))
  extract_wrapped_value := fun w v => demo_alloc w (demo_content w v)
  create_sequential_view := fun w _ => (w, 0)
  set_size := fun w _ _ => (w, false)
  get_value_type := fun _ _ => none
  view_get_value := fun w _ _ => demo_alloc w none
  view_set_value := fun w _ _ _ => (w, false)
  trunc := fun _ => 0
  of_int := fun _ => ⟨0⟩
  to_float := fun x => x

/-- The small program before the call: `flag` is false, `count` is 7, nothing
 has been accessed. -/
def demo_start : run_state demo_state Nat Nat Nat Nat :=
  ⟨⟨false, 7, []⟩, []⟩

/-- The computation never uses up the recursion budget. -/
def finishes {S α : Type} (m : M S α) : Prop := ∀ s, (m s).1 ≠ outcome.out_of_fuel


/-! ### `examples/json_serialization/to_json.cpp` -/

/-- Source `j.is_null()`. -/
def json.is_null : json → Bool
  | .null => true
  | _ => false

/-- Source `j.is_number()`: an integer, an unsigned integer or a floating-point
 number. -/
def json.is_number : json → Bool
  | .number_integer _ => true
  | .number_unsigned _ => true
  | .number_float _ => true
  | _ => false

/-- Source `array_json.push_back(val)`: the value is appended to an array; a
 `null` becomes an array first; every other kind is a `type_error`. -/
def json.push_back : json → json → Except exception json
  | .array items, val => .ok (json.array (items ++ [val]))
  | .null, val => .ok (json.array [val])
  | _, _ => .error exception.type_error

/-- The members of an object (a `std::map`, ordered by key) after
 `object[key] = value`: the value of an existing key is replaced, a new key is
 inserted at its place in the order. -/
def insert_member (key : cstring) (value : json) : List (cstring × json) → List (cstring × json)
  | [] => [(key, value)]
  | (k, v) :: rest =>
    if k = key then (key, value) :: rest
    else if lexicographical_compare key k then (key, value) :: (k, v) :: rest
    else (k, v) :: insert_member key value rest

/-- Source `obj_json[key] = value`: the member is set in an object; a `null`
 becomes an object first; every other kind is a `type_error`. -/
def json.set_member : json → cstring → json → Except exception json
  | .object members, key, value => .ok (json.object (insert_member key value members))
  | .null, key, value => .ok (json.object [(key, value)])
  | _, _, _ => .error exception.type_error

/-- The names of the members of an object. -/
def json.keys : json → List cstring
  | .object members => members.map (fun m => m.1)
  | _ => []

/-- The JSON number made from a value of an integer type: `number_unsigned` for
 the unsigned types, `number_integer` for the signed ones. -/
def json.of_integer (k : int_kind) (n : Int) : json :=
  match k with
  | .uint8_t => json.number_unsigned n.toNat
  | .uint16_t => json.number_unsigned n.toNat
  | .uint32_t => json.number_unsigned n.toNat
  | .uint64_t => json.number_unsigned n.toNat
  | _ => json.number_integer n

/-- The further operations of the library that `to_json.cpp` calls; `A` is what
 `rttr::variant_associative_view` refers to. -/
structure reflection_out (σ T P I V W A : Type) extends reflection σ T P I V W where
  /-- Source `obj.is_valid()` of an instance. -/
  inst_is_valid : σ → I → Bool
  /-- Source `var.get_type()`. -/
  variant_get_type : σ → V → T
  /-- Source `var.is_sequential_container()`. -/
  var_is_sequential_container : σ → V → Bool
  /-- Source `var.is_associative_container()`. -/
  var_is_associative_container : σ → V → Bool
  /-- Source `var.create_associative_view()`. -/
  create_associative_view : σ → V → σ × A
  /-- The items that the range-based `for` over a sequential view yields, in
   iteration order. -/
  view_items : σ → W → σ × List V
  /-- Source `view.is_key_only_type()`. -/
  is_key_only_type : σ → A → Bool
  /-- The pairs that the range-based `for` over an associative view yields, in
   iteration order. -/
  assoc_items : σ → A → σ × List (V × V)
  /-- Source `var.to_bool()`. -/
  to_bool : σ → V → Bool
  /-- Source `var.to_int8()` ... `var.to_uint64()`, with the flag `ok`. -/
  to_integer : σ → V → int_kind → Int × Bool
  /-- Source `var.to_double()`. -/
  to_double : σ → V → double
  /-- Source `var.to_string()`, with the flag `ok`. -/
  to_string : σ → V → cstring × Bool

section
variable {σ T P I V W A : Type}

/-- A call of a `const` member function: the state of the program is read. -/
def inspect {α : Type} (f : σ → α) : M (run_state σ P I V W) α :=
  fun s => (.ok (f s.world), s)

/-- A `for` loop over a list that updates a local value (the JSON value under
 construction). -/
def for_fold {S α β : Type} : List α → β → (β → α → M S β) → M S β
  | [], acc, _ => pure acc
  | x :: xs, acc, body => M.bind (body acc x) (fun acc' => for_fold xs acc' body)

/-- Source `try { ... } catch (const std::exception& e) { ... }`: when the block
 throws, the handler runs from the state the block has reached. -/
def try_catch {S α : Type} (block : M S α) (handler : exception → M S α) : M S α :=
  fun s =>
    match block s with
    | (.thrown e, s') => handler e s'
    | other => other

/-- The branch `return var.to_intN();` of `write_atomic_types_to_json` for an
 integer type. -/
def write_integer (r : reflection_out σ T P I V W A) (var : V) (k : int_kind) :
    M (run_state σ P I V W) json := do
  let value ← inspect (fun w => r.to_integer w var k)
  pure (json.of_integer k value.1)

/-- Translation of `json write_atomic_types_to_json(const type& t, const variant&
 var)`, `to_json.cpp` lines 53-108; `json{}` and `nullptr` are the JSON
 `null`. -/
def write_atomic_types_to_json [DecidableEq T] (r : reflection_out σ T P I V W A) (t : T)
    (var : V) : M (run_state σ P I V W) json :=
  if r.is_arithmetic t then
    if t = r.type_get cpp_type.bool then do
      let b ← inspect (fun w => r.to_bool w var)
      pure (json.boolean b)
    else if t = r.type_get (cpp_type.integer int_kind.char) then do
      let b ← inspect (fun w => r.to_bool w var)
      pure (json.boolean b)
    else if t = r.type_get (cpp_type.integer int_kind.int8_t) then
      write_integer r var int_kind.int8_t
    else if t = r.type_get (cpp_type.integer int_kind.int16_t) then
      write_integer r var int_kind.int16_t
    else if t = r.type_get (cpp_type.integer int_kind.int32_t) then
      write_integer r var int_kind.int32_t
    else if t = r.type_get (cpp_type.integer int_kind.int64_t) then
      write_integer r var int_kind.int64_t
    else if t = r.type_get (cpp_type.integer int_kind.uint8_t) then
      write_integer r var int_kind.uint8_t
    else if t = r.type_get (cpp_type.integer int_kind.uint16_t) then
      write_integer r var int_kind.uint16_t
    else if t = r.type_get (cpp_type.integer int_kind.uint32_t) then
      write_integer r var int_kind.uint32_t
    else if t = r.type_get (cpp_type.integer int_kind.uint64_t) then
      write_integer r var int_kind.uint64_t
    else if t = r.type_get (cpp_type.floating float_kind.float) then do
      let x ← inspect (fun w => r.to_double w var)
      pure (json.number_float x)
    else if t = r.type_get (cpp_type.floating float_kind.double) then do
      let x ← inspect (fun w => r.to_double w var)
      pure (json.number_float x)
    else
      pure json.null
  else if r.is_enumeration t then do
    let result ← inspect (fun w => r.to_string w var)
    if result.2 then do
      let text ← inspect (fun w => r.to_string w var)
      pure (json.string text.1)
    else do
      let value ← inspect (fun w => r.to_integer w var int_kind.uint64_t)
      if value.2 then pure (json.number_unsigned value.1.toNat)
      else pure json.null
  else if t = r.type_get cpp_type.std_string then do
    let text ← inspect (fun w => r.to_string w var)
    pure (json.string text.1)
  else
    pure json.null

/-- One pass of the loop of `write_array`: the JSON value of `item` is appended
 to `array_json`. -/
def write_array_item [DecidableEq T] (r : reflection_out σ T P I V W A)
    (rec_obj : I → M (run_state σ P I V W) json)
    (rec_arr : W → M (run_state σ P I V W) json)
    (array_json : json) (item : V) : M (run_state σ P I V W) json := do
  let is_seq ← inspect (fun w => r.var_is_sequential_container w item)
  if is_seq then do
    let sub_view ← call (fun w => r.create_sequential_view w item)
    let element ← rec_arr sub_view
    lift_except (array_json.push_back element)
  else do
    let wrapped_var ← call (fun w => r.extract_wrapped_value w item)
    let value_type ← inspect (fun w => r.variant_get_type w wrapped_var)
    if r.is_arithmetic value_type ∨ value_type = r.type_get cpp_type.std_string ∨
        r.is_enumeration value_type then do
      let element ← write_atomic_types_to_json r value_type wrapped_var
      lift_except (array_json.push_back element)
    else do
      let element ← rec_obj (r.instance_of_variant wrapped_var)
      lift_except (array_json.push_back element)

/-- The body of `static json write_array(const variant_sequential_view& view)`,
 `to_json.cpp` lines 112-136; `rec_obj` is the call of `to_json_recursively`,
 `rec_arr` the recursive call. The items of the view are taken in iteration
 order. -/
def write_array_open [DecidableEq T] (r : reflection_out σ T P I V W A)
    (rec_obj : I → M (run_state σ P I V W) json)
    (rec_arr : W → M (run_state σ P I V W) json)
    (view : W) : M (run_state σ P I V W) json := do
  let items ← call (fun w => r.view_items w view)
  for_fold items (json.array []) (write_array_item r rec_obj rec_arr)

/-- One pass of the loop of `write_associative_container` for a key-only view:
 `array_json.push_back(write_variant(item.first))`. -/
def write_key_item (rec_var : V → M (run_state σ P I V W) json)
    (array_json : json) (item : V × V) : M (run_state σ P I V W) json := do
  let element ← rec_var item.1
  lift_except (array_json.push_back element)

/-- One pass of the loop of `write_associative_container` for a key-value view:
 an object with the members `key` and `value` is appended. -/
def write_key_value_item (rec_var : V → M (run_state σ P I V W) json)
    (array_json : json) (item : V × V) : M (run_state σ P I V W) json := do
  let obj_json := json.object []
  let key_json ← rec_var item.1
  let obj_json ← lift_except (obj_json.set_member (bytes "key") key_json)
  let value_json ← rec_var item.2
  let obj_json ← lift_except (obj_json.set_member (bytes "value") value_json)
  lift_except (array_json.push_back obj_json)

/-- The body of `static json write_associative_container(const
 variant_associative_view& view)`, `to_json.cpp` lines 141-167; `rec_var` is the
 call of `write_variant`. -/
def write_associative_container_open (r : reflection_out σ T P I V W A)
    (rec_var : V → M (run_state σ P I V W) json)
    (view : A) : M (run_state σ P I V W) json := do
  let array_json := json.array []
  let key_only ← inspect (fun w => r.is_key_only_type w view)
  if key_only then do
    let items ← call (fun w => r.assoc_items w view)
    for_fold items array_json (write_key_item rec_var)
  else do
    let items ← call (fun w => r.assoc_items w view)
    for_fold items array_json (write_key_value_item rec_var)

/-- The body of `json write_variant(const variant& var)`, `to_json.cpp` lines
 171-210; `rec_obj`, `rec_arr` and `rec_assoc` are the calls of
 `to_json_recursively`, `write_array` and `write_associative_container`. -/
def write_variant_open [DecidableEq T] (r : reflection_out σ T P I V W A)
    (rec_obj : I → M (run_state σ P I V W) json)
    (rec_arr : W → M (run_state σ P I V W) json)
    (rec_assoc : A → M (run_state σ P I V W) json)
    (var : V) : M (run_state σ P I V W) json := do
  let value_type ← inspect (fun w => r.variant_get_type w var)
  let wrapped_type := if r.is_wrapper value_type then r.get_wrapped_type value_type else value_type
  let is_wrapper : Bool := decide (wrapped_type ≠ value_type)
  let atomic_arg ← if is_wrapper then call (fun w => r.extract_wrapped_value w var) else pure var
  let atomic_result ← write_atomic_types_to_json r
    (if is_wrapper then wrapped_type else value_type) atomic_arg
  if atomic_result.is_string || atomic_result.is_number || atomic_result.is_boolean ||
      atomic_result.is_null then
    pure atomic_result
  else do
    let is_seq ← inspect (fun w => r.var_is_sequential_container w var)
    if is_seq then do
      let view ← call (fun w => r.create_sequential_view w var)
      rec_arr view
    else do
      let is_assoc ← inspect (fun w => r.var_is_associative_container w var)
      if is_assoc then do
        let view ← call (fun w => r.create_associative_view w var)
        rec_assoc view
      else
        let child_props :=
          if is_wrapper then r.get_properties wrapped_type else r.get_properties value_type
        if !child_props.isEmpty then
          rec_obj (r.instance_of_variant var)
        else do
          let text ← inspect (fun w => r.to_string w var)
          if text.2 then pure (json.string text.1)
          else pure json.null

/-- One pass of the loop of `to_json_recursively` over the property `prop` of
 the instance `obj`; `obj_json` is the object under construction. -/
def write_property (r : reflection_out σ T P I V W A)
    (rec_var : V → M (run_state σ P I V W) json)
    (obj : I) (obj_json : json) (prop : P) : M (run_state σ P I V W) json := do
  let no_serialize ← call (fun w => r.get_metadata w prop (bytes "NO_SERIALIZE"))
  let skip ← inspect (fun w => r.operator_bool w no_serialize)
  if skip then pure obj_json
  else do
    let prop_value ← access (event.prop_get_value prop obj)
      (fun w => r.prop_get_value w prop obj)
    let valid ← inspect (fun w => r.operator_bool w prop_value)
    if !valid then pure obj_json
    else
      let name := r.get_name prop
      try_catch
        (do
          let value_json ← rec_var prop_value
          lift_except (obj_json.set_member name value_json))
        (fun _ => pure obj_json)

/-- The body of `json to_json_recursively(const instance& obj2)`, `to_json.cpp`
 lines 214-241; `rec_var` is the call of `write_variant`. The message written
 to `std::cerr` by the handler is not modelled. -/
def to_json_recursively_open (r : reflection_out σ T P I V W A)
    (rec_var : V → M (run_state σ P I V W) json)
    (obj2 : I) : M (run_state σ P I V W) json :=
  fun s =>
    let obj := wrapped_instance r.toreflection s.world obj2
    let prop_list := r.get_properties (r.get_derived_type s.world obj)
    for_fold prop_list (json.object []) (write_property r rec_var obj) s

mutual
/-- Translation of `json to_json_recursively(const instance& obj2)`; the first
 argument bounds the depth of the recursion. -/
def to_json_recursively [DecidableEq T] (r : reflection_out σ T P I V W A) :
    Nat → I → M (run_state σ P I V W) json
  | 0 => fun _ => no_fuel
  | fuel + 1 => to_json_recursively_open r (write_variant r fuel)
/-- Translation of `json write_variant(const variant& var)`; the first argument
 bounds the depth of the recursion. -/
def write_variant [DecidableEq T] (r : reflection_out σ T P I V W A) :
    Nat → V → M (run_state σ P I V W) json
  | 0 => fun _ => no_fuel
  | fuel + 1 =>
    write_variant_open r (to_json_recursively r fuel) (write_array r fuel)
      (write_associative_container r fuel)
/-- Translation of `static json write_array(const variant_sequential_view&
 view)`; the first argument bounds the depth of the recursion. -/
def write_array [DecidableEq T] (r : reflection_out σ T P I V W A) :
    Nat → W → M (run_state σ P I V W) json
  | 0 => fun _ => no_fuel
  | fuel + 1 => write_array_open r (to_json_recursively r fuel) (write_array r fuel)
/-- Translation of `static json write_associative_container(const
 variant_associative_view& view)`; the first argument bounds the depth of the
 recursion. -/
def write_associative_container [DecidableEq T] (r : reflection_out σ T P I V W A) :
    Nat → A → M (run_state σ P I V W) json
  | 0 => fun _ => no_fuel
  | fuel + 1 => write_associative_container_open r (write_variant r fuel)
end

/-- Translation of `std::string io::to_json(rttr::instance obj)`, `to_json.cpp`
 lines 254-261. `dump` is `result.dump(indent)` of the JSON library, which
 throws on a string that is not UTF-8; `fuel` bounds the depth of the
 recursion. -/
def to_json [DecidableEq T] (r : reflection_out σ T P I V W A)
    (dump : json → Nat → Except exception cstring) (fuel : Nat) (obj : I) :
    M (run_state σ P I V W) cstring := do
  let valid ← inspect (fun w => r.inst_is_valid w obj)
  if !valid then pure []
  else do
    let result ← to_json_recursively r fuel obj
    lift_except (dump result 4)

end

/-! ### Vocabulary of the statements about `to_json.cpp` -/

section
variable {σ T P I V W A : Type}

/-- The results of `f` on the items of a list, computed one after the other in
 the order of the list. -/
def map_in_order {S α β : Type} (f : α → M S β) : List α → M S (List β)
  | [] => pure []
  | x :: xs => do
    let y ← f x
    let ys ← map_in_order f xs
    pure (y :: ys)

/-- The serialization of one item of a sequential view, as `write_array`
 computes it: the array of a sequential container, the atomic JSON value of
 an arithmetic type, a string or an enumeration, the object of anything
 else. -/
def element_json [DecidableEq T] (r : reflection_out σ T P I V W A)
    (rec_obj : I → M (run_state σ P I V W) json)
    (rec_arr : W → M (run_state σ P I V W) json)
    (item : V) : M (run_state σ P I V W) json := do
  let is_seq ← inspect (fun w => r.var_is_sequential_container w item)
  if is_seq then do
    let sub_view ← call (fun w => r.create_sequential_view w item)
    rec_arr sub_view
  else do
    let wrapped_var ← call (fun w => r.extract_wrapped_value w item)
    let value_type ← inspect (fun w => r.variant_get_type w wrapped_var)
    if r.is_arithmetic value_type ∨ value_type = r.type_get cpp_type.std_string ∨
        r.is_enumeration value_type then
      write_atomic_types_to_json r value_type wrapped_var
    else
      rec_obj (r.instance_of_variant wrapped_var)

/-- The object with exactly the two members `key` and `value` made from the
 serializations of the two halves of a pair. -/
def key_value_json {S : Type} (rec_var : V → M S json) (item : V × V) : M S json := do
  let key_json ← rec_var item.1
  let value_json ← rec_var item.2
  pure (json.object [(bytes "key", key_json), (bytes "value", value_json)])

/-- The property `prop` of `obj` is serializable in the state `s`: it carries
 no truthy `NO_SERIALIZE` metadata, its value is a valid variant, and
 `rec_var` (the call of `write_variant`) returns a JSON value for it. -/
def serializable (r : reflection_out σ T P I V W A)
    (rec_var : V → M (run_state σ P I V W) json) (obj : I) (prop : P)
    (s : run_state σ P I V W) : Prop :=
  let m := r.get_metadata s.world prop (bytes "NO_SERIALIZE")
  let g := r.prop_get_value m.1 prop obj
  r.operator_bool m.1 m.2 = false ∧ r.operator_bool g.1 g.2 = true ∧
    ∃ j s', rec_var g.2 ⟨g.1, s.trace ++ [event.prop_get_value prop obj]⟩ = (outcome.ok j, s')

end

section
variable {σ T P I V W A : Type}

/-- The computation reads the state only and returns a JSON value of an atomic
 kind (string, number, boolean or null). -/
def returns_atomic (m : M (run_state σ P I V W) json) : Prop :=
  ∀ s, ∃ j, m s = (outcome.ok j, s) ∧
    (j.is_string || j.is_number || j.is_boolean || j.is_null) = true

end

/-! ### A second concrete program, with containers -/

/-- Types of the second small program: the C++ types, the class `shelf` of
 its object, and the container types of its properties. -/
inductive lab_type where
  | invalid
  | cpp (c : cpp_type)
  | shelf
  | vector_int
  | array_int
  | set_int
  | map_int
  deriving DecidableEq, Repr

/-- What a variant of the second small program holds: nothing, a C++ value, a
 `std::vector<int32_t>`, a `std::array<int32_t, N>` (`N` is the length of the
 list), a `std::set<int32_t>` or a `std::map<int32_t, int32_t>`. -/
inductive lab_value where
  | invalid
  | atom (c : cvalue)
  | vector (xs : List Int)
  | array (xs : List Int)
  | set (xs : List Int)
  | map (xs : List (Int × Int))
  deriving DecidableEq, Repr

/-- State of the second small program: one object of class `shelf` with the
 properties `title`, `count`, `list`, `fixed`, `tags`, `scores` and `secret`,
 and the variants created so far. -/
structure lab_state where
  title : cstring
  count : Int
  list : List Int
  fixed : List Int
  tags : List Int
  scores : List (Int × Int)
  secret : Int
  variants : List lab_value
  deriving DecidableEq, Repr

/-- A new variant is stored; its number is returned. -/
def lab_alloc (w : lab_state) (v : lab_value) : lab_state × Nat :=
  ({ w with variants := w.variants ++ [v] }, w.variants.length)

/-- The content of variant number `v`. -/
def lab_content (w : lab_state) (v : Nat) : lab_value :=
  w.variants.getD v lab_value.invalid

/-- Type of the content of a variant. -/
def lab_value.type : lab_value → lab_type
  | .invalid => lab_type.invalid
  | .atom (.bool _) => lab_type.cpp cpp_type.bool
  | .atom (.integer k _) => lab_type.cpp (cpp_type.integer k)
  | .atom (.floating k _) => lab_type.cpp (cpp_type.floating k)
  | .atom (.string _) => lab_type.cpp cpp_type.std_string
  | .atom (.string_view _) => lab_type.invalid
  | .vector _ => lab_type.vector_int
  | .array _ => lab_type.array_int
  | .set _ => lab_type.set_int
  | .map _ => lab_type.map_int

/-- The value of property number `p` of the object; property `7` (`broken`)
 cannot be read. -/
def lab_field (w : lab_state) (p : Nat) : lab_value :=
  match p with
  | 0 => lab_value.atom (cvalue.string w.title)
  | 1 => lab_value.atom (cvalue.integer int_kind.int32_t w.count)
  | 2 => lab_value.vector w.list
  | 3 => lab_value.array w.fixed
  | 4 => lab_value.set w.tags
  | 5 => lab_value.map w.scores
  | 6 => lab_value.atom (cvalue.integer int_kind.int32_t w.secret)
  | _ => lab_value.invalid

/-- Property number `p` of the object is set to `v` when `v` has the type of
 the property (the `std::array` keeps its size). -/
def lab_set_field (w : lab_state) (p : Nat) (v : lab_value) : lab_state × Bool :=
  match p, v with
  | 0, .atom (.string s) => ({ w with title := s }, true)
  | 1, .atom (.integer .int32_t n) => ({ w with count := n }, true)
  | 2, .vector xs => ({ w with list := xs }, true)
  | 3, .array xs => if xs.length = w.fixed.length then ({ w with fixed := xs }, true) else (w, false)
  | 4, .set xs => ({ w with tags := xs }, true)
  | 5, .map xs => ({ w with scores := xs }, true)
  | 6, .atom (.integer .int32_t n) => ({ w with secret := n }, true)
  | _, _ => (w, false)

/-- The elements of a sequential container, `none` for anything else. -/
def lab_value.elements : lab_value → Option (List Int)
  | .vector xs => some xs
  | .array xs => some xs
  | _ => none

/-- The list resized to `n` elements, new elements being `0`. -/
def resize (xs : List Int) (n : Nat) : List Int :=
  xs.take n ++ List.replicate (n - xs.length) 0

/-- Source `var.convert(target_type)` in the second small program: a variant
 that has the target type is left as it is; an integer is converted to another
 integer type when its value fits; everything else fails and leaves the
 variant unchanged. -/
def lab_convert (w : lab_state) (v : Nat) (t : lab_type) : lab_state × Bool :=
  if t = lab_type.invalid then (w, false)
  else if (lab_content w v).type = t then (w, true)
  else
    match lab_content w v, t with
    | .atom (.integer _ n), .cpp (.integer k) =>
      if k.cast n = n then
        ({ w with variants := w.variants.set v (lab_value.atom (cvalue.integer k n)) }, true)
      else (w, false)
    | _, _ => (w, false)

/-- The variants made for a list of values, and their numbers. -/
def lab_alloc_all (w : lab_state) (vs : List lab_value) : lab_state × List Nat :=
  ({ w with variants := w.variants ++ vs },
    (List.range vs.length).map (fun i => w.variants.length + i))

/-- The variant of an `int32_t`. -/
def lab_int (n : Int) : lab_value := lab_value.atom (cvalue.integer int_kind.int32_t n)

/-- The library as the second small program sees it. Properties are numbered
 `0` to `7` (`title`, `count`, `list`, `fixed`, `tags`, `scores`, `secret`,
 `broken`), `secret` carries the metadata `NO_SERIALIZE`; instance `0` is the
 object, instance `v + 1` refers to variant `v`; a view is the number of the
 variant it was created from; `get_value` returns a copy of the property.
 The sequential view follows §4.4 of the specification: `set_size` resizes a
 `std::vector` and fails on anything else, `get_value` and `set_value` report
 an index out of range as a failure. -/
def lab : reflection_out lab_state lab_type Nat Nat Nat Nat Nat where
  type_get := fun c => lab_type.cpp c
  is_arithmetic := fun t =>
    match t with
    | lab_type.cpp cpp_type.std_string => false
    | lab_type.cpp _ => true
    | _ => false
  is_enumeration := fun _ => false
  is_wrapper := fun _ => false
  is_sequential_container := fun t => t = lab_type.vector_int ∨ t = lab_type.array_int
  get_wrapped_type := fun t => t
  get_raw_type := fun t => t
  get_properties := fun t => if t = lab_type.shelf then [0, 1, 2, 3, 4, 5, 6, 7] else []
  name_to_value := fun w _ _ => lab_alloc w lab_value.invalid
  value_to_name := fun _ _ => []
  get_metadata := fun w p key =>
    if p = 6 ∧ key = bytes "NO_SERIALIZE" then lab_alloc w (lab_value.atom (cvalue.bool true))
    else lab_alloc w lab_value.invalid
  get_name := fun p =>
    match p with
    | 0 => bytes "title"
    | 1 => bytes "count"
    | 2 => bytes "list"
    | 3 => bytes "fixed"
    | 4 => bytes "tags"
    | 5 => bytes "scores"
    | 6 => bytes "secret"
    | _ => bytes "broken"
  prop_get_type := fun p =>
    match p with
    | 0 => lab_type.cpp cpp_type.std_string
    | 1 => lab_type.cpp (cpp_type.integer int_kind.int32_t)
    | 2 => lab_type.vector_int
    | 3 => lab_type.array_int
    | 4 => lab_type.set_int
    | 5 => lab_type.map_int
    | 6 => lab_type.cpp (cpp_type.integer int_kind.int32_t)
    | _ => lab_type.invalid
  prop_get_value := fun w p obj =>
    if obj = 0 then lab_alloc w (lab_field w p) else lab_alloc w lab_value.invalid
  prop_set_value := fun w p obj v =>
    if obj = 0 then lab_set_field w p (lab_content w v) else (w, false)
  instance_of_variant := fun v => v + 1
  inst_get_type := fun w i =>
    match i with
    | 0 => lab_type.shelf
    | v + 1 => (lab_content w v).type
  get_wrapped_instance := fun _ i => i
  get_derived_type := fun w i =>
    match i with
    | 0 => lab_type.shelf
    | v + 1 => (lab_content w v).type
  make_variant := fun w c => lab_alloc w (lab_value.atom c)
  make_invalid := fun w => lab_alloc w lab_value.invalid
  operator_bool := fun w v => decide (lab_content w v ≠ lab_value.invalid)
  convert := lab_convert
  extract_wrapped_value := fun w v => lab_alloc w (lab_content w v)
  create_sequential_view := fun w v => (w, v)
  set_size := fun w view n =>
    match lab_content w view with
    | .vector xs => ({ w with variants := w.variants.set view (lab_value.vector (resize xs n)) }, true)
    | _ => (w, false)
  get_value_type := fun w view =>
    match (lab_content w view).elements with
    | some _ => lab_type.cpp (cpp_type.integer int_kind.int32_t)
    | none => lab_type.invalid
  view_get_value := fun w view i =>
    match (lab_content w view).elements with
    | some xs => if i < xs.length then lab_alloc w (lab_int (xs.getD i 0))
      else lab_alloc w lab_value.invalid
    | none => lab_alloc w lab_value.invalid
  view_set_value := fun w view i arg =>
    match lab_content w view, lab_content w arg with
    | .vector xs, .atom (.integer .int32_t n) =>
      if i < xs.length then
        ({ w with variants := w.variants.set view (lab_value.vector (xs.set i n)) }, true)
      else (w, false)
    | .array xs, .atom (.integer .int32_t n) =>
      if i < xs.length then
        ({ w with variants := w.variants.set view (lab_value.array (xs.set i n)) }, true)
      else (w, false)
    | _, _ => (w, false)
  trunc := fun _ => 0
  of_int := fun _ => ⟨0⟩
  to_float := fun x => x
  inst_is_valid := fun w i =>
    match i with
    | 0 => true
    | v + 1 => decide (lab_content w v ≠ lab_value.invalid)
  variant_get_type := fun w v => (lab_content w v).type
  var_is_sequential_container := fun w v => (lab_content w v).elements.isSome
  var_is_associative_container := fun w v =>
    match lab_content w v with
    | .set _ => true
    | .map _ => true
    | _ => false
  create_associative_view := fun w v => (w, v)
  view_items := fun w view =>
    match (lab_content w view).elements with
    | some xs => lab_alloc_all w (xs.map lab_int)
    | none => (w, [])
  is_key_only_type := fun w view =>
    match lab_content w view with
    | .set _ => true
    | _ => false
  assoc_items := fun w view =>
    match lab_content w view with
    | .set xs =>
      ({ w with variants := w.variants ++ (xs.map lab_int ++ [lab_value.invalid]) },
        (List.range xs.length).map
          (fun i => (w.variants.length + i, w.variants.length + xs.length)))
    | .map xs =>
      ({ w with variants := w.variants ++ (xs.map (fun e => lab_int e.1) ++
          xs.map (fun e => lab_int e.2)) },
        (List.range xs.length).map
          (fun i => (w.variants.length + i, w.variants.length + xs.length + i)))
    | _ => (w, [])
  to_bool := fun w v =>
    match lab_content w v with
    | .atom (.bool b) => b
    | .atom (.integer _ n) => decide (n ≠ 0)
    | _ => false
  to_integer := fun w v k =>
    match lab_content w v with
    | .atom (.integer _ n) => (k.cast n, decide (k.cast n = n))
    | .atom (.bool b) => (if b then 1 else 0, true)
    | _ => (0, false)
  to_double := fun w v =>
    match lab_content w v with
    | .atom (.floating _ x) => x
    | _ => ⟨0⟩
  to_string := fun w v =>
    match lab_content w v with
    | .atom (.string s) => (s, true)
    | .atom (.integer _ n) => (int_to_string n, true)
    | .atom (.bool b) => (bool_to_string b, true)
    | _ => ([], false)

/-- The second small program before a call: a shelf with a title, a count, a
 list of three, a fixed array of two, two tags, one score and a secret; no
 variant exists and nothing has been accessed. -/
def lab_start : run_state lab_state Nat Nat Nat Nat :=
  ⟨⟨bytes "A", 7, [10, 20, 30], [0, 0], [4, 5], [(1, 100)], 99, []⟩, []⟩

/-- The dump of the JSON library reduced to what the statements need: the
 kind of the value as text (the layout of the text is not modelled). -/
def dump_kind (j : json) (_indent : Nat) : Except exception cstring :=
  match j with
  | .object _ => .ok (bytes "object")
  | .array _ => .ok (bytes "array")
  | _ => .ok (bytes "scalar")

/-- The second small program with the single variant `v` (number `0`) and
 nothing accessed. -/
def lab_with (v : lab_value) : run_state lab_state Nat Nat Nat Nat :=
  ⟨{ lab_start.world with variants := [v] }, []⟩

/-- A stand-in for `write_variant` that throws on a string and returns what
 `write_variant` returns on everything else. -/
def throwing_write (var : Nat) : M (run_state lab_state Nat Nat Nat Nat) json :=
  fun s =>
    match lab_content s.world var with
    | .atom (.string _) => (outcome.thrown exception.type_error, s)
    | _ => write_variant lab 1 var s

/-! ### Vocabulary of the statements about `write_array_recursively` -/

section
variable {σ T P I V W : Type}

/-- The computation keeps the property `inv` of the state. -/
def keeps {S α : Type} (inv : S → Prop) (m : M S α) : Prop :=
  ∀ s, inv s → inv (m s).2

/-- Every element of the JSON array is a scalar: neither an array nor an
 object. -/
def scalar_items (j : json) : Prop :=
  ∀ i, i < j.size → (j.at_index i).is_array = false ∧ (j.at_index i).is_object = false

end

section
variable {σ T P I V W : Type}

/-- One pass of the loop of `fromjson_recursively` (`from_json.cpp` lines
 154-195) over the property `prop` of the instance `wrapped_obj`. -/
def fromjson_property [DecidableEq T] (r : reflection σ T P I V W)
    (rec_obj : I → json → M (run_state σ P I V W) Unit)
    (rec_arr : W → json → M (run_state σ P I V W) Unit)
    (wrapped_obj : I) (json_object : json) (prop : P) : M (run_state σ P I V W) Unit := do
  let no_serialize ← call (fun w => r.get_metadata w prop (bytes "NO_SERIALIZE"))
  let skip ← (fun s => (outcome.ok (r.operator_bool s.world no_serialize), s))
  if skip then pure ()
  else
    let name := r.get_name prop
    if !json_object.contains name then pure ()
    else
      let json_value := json_object.at_key name
      let value_t := r.prop_get_type prop
      match json_value with
      | json.array _ => do
        let _ ← call r.make_invalid
        if r.is_sequential_container value_t then do
          let var ← access (event.prop_get_value prop wrapped_obj)
            (fun w => r.prop_get_value w prop wrapped_obj)
          let view ← call (fun w => r.create_sequential_view w var)
          rec_arr view json_value
        else pure ()
      | json.object _ => do
        let var ← access (event.prop_get_value prop wrapped_obj)
          (fun w => r.prop_get_value w prop wrapped_obj)
        rec_obj (r.instance_of_variant var) json_value
        let _ ← access (event.prop_set_value prop wrapped_obj var)
          (fun w => r.prop_set_value w prop wrapped_obj var)
        pure ()
      | _ => do
        let extracted_value ← extract_value r json_value
          (if r.is_wrapper value_t then r.get_wrapped_type value_t else value_t)
        let converted ← call (fun w => r.convert w extracted_value value_t)
        if converted then
          let _ ← access (event.prop_set_value prop wrapped_obj extracted_value)
            (fun w => r.prop_set_value w prop wrapped_obj extracted_value)
          pure ()
        else pure ()

/-- One pass of the loop of `write_array_recursively` (`from_json.cpp` lines
 73-94) over the index `i`; `array_value_type` is `view.get_value_type()`. -/
def write_array_element (r : reflection σ T P I V W)
    (rec_obj : I → json → M (run_state σ P I V W) Unit)
    (rec_arr : W → json → M (run_state σ P I V W) Unit)
    (view : W) (json_array_value : json) (array_value_type : T) (i : Nat) :
    M (run_state σ P I V W) Unit :=
  let json_index_value := json_array_value.at_index i
  if json_index_value.is_array then do
    let element ← access (event.view_get_value view i) (fun w => r.view_get_value w view i)
    let sub_array_view ← call (fun w => r.create_sequential_view w element)
    rec_arr sub_array_view json_index_value
  else if json_index_value.is_object then do
    let var_tmp ← access (event.view_get_value view i) (fun w => r.view_get_value w view i)
    let wrapped_var ← call (fun w => r.extract_wrapped_value w var_tmp)
    rec_obj (r.instance_of_variant wrapped_var) json_index_value
    let _ ← access (event.view_set_value view i wrapped_var)
      (fun w => r.view_set_value w view i wrapped_var)
    pure ()
  else do
    let extracted_value ← extract_basic_types r json_index_value
    let converted ← call (fun w => r.convert w extracted_value array_value_type)
    if converted then
      let _ ← access (event.view_set_value view i extracted_value)
        (fun w => r.view_set_value w view i extracted_value)
      pure ()
    else
      pure ()

end

/-! ### Vocabulary of the statements about the frame of `from_json.cpp` -/

section
variable {σ T P I V W : Type}

/-- The access is made through a sequential view. -/
def event.is_view_access : event P I V W → Bool
  | .view_set_size _ _ => true
  | .view_get_value _ _ => true
  | .view_set_value _ _ _ => true
  | _ => false

/-- The computation only appends to the trace, and every access it appends
 satisfies `allowed`. -/
def quiet {α : Type} (allowed : event P I V W → Prop) (m : M (run_state σ P I V W) α) : Prop :=
  ∀ s, ∃ rest, (m s).2.trace = s.trace ++ rest ∧ ∀ e, e ∈ rest → allowed e

/-- The observation `obs` of the state of the program (for instance the value
 of a property of an object) is not changed by the calls that make, look up
 or convert a variant: a variant is a value of its own. -/
structure variant_frame (r : reflection σ T P I V W) {X : Type} (obs : σ → X) : Prop where
  get_metadata_same : ∀ w p k, obs (r.get_metadata w p k).1 = obs w
  make_variant_same : ∀ w c, obs (r.make_variant w c).1 = obs w
  make_invalid_same : ∀ w, obs (r.make_invalid w).1 = obs w
  name_to_value_same : ∀ w t n, obs (r.name_to_value w t n).1 = obs w
  convert_same : ∀ w v t, obs (r.convert w v t).1 = obs w

/-- The observation `obs` is, in addition, not changed by reading a property
 into a variant nor by what is done through a sequential view of a variant:
 the variant returned by `get_value` does not alias what `obs` observes. -/
structure view_frame (r : reflection σ T P I V W) {X : Type} (obs : σ → X) : Prop where
  variants : variant_frame r obs
  prop_get_value_same : ∀ w p i, obs (r.prop_get_value w p i).1 = obs w
  create_sequential_view_same : ∀ w v, obs (r.create_sequential_view w v).1 = obs w
  set_size_same : ∀ w view n, obs (r.set_size w view n).1 = obs w
  view_set_value_same : ∀ w view i v, obs (r.view_set_value w view i v).1 = obs w

end

/-- The object of the second small program without the variants. -/
def lab_object (w : lab_state) : lab_state := { w with variants := [] }

/-! ### A third concrete program, with an enumeration -/

/-- Types of the third small program: the C++ types, the enumeration
 `color` (enumerators `red` and `green`) and the class `shape`. -/
inductive paint_type where
  | cpp (c : cpp_type)
  | color
  | shape
  deriving DecidableEq, Repr

/-- What a variant of the third small program holds: nothing, a C++ value or
 an enumerator of `color` (given by its number). -/
inductive paint_value where
  | invalid
  | atom (c : cvalue)
  | enumerator (n : Int)
  deriving DecidableEq, Repr

/-- A new variant is stored; its number is returned. -/
def paint_alloc (w : List paint_value) (v : paint_value) : List paint_value × Nat :=
  (w ++ [v], w.length)

/-- The library as the third small program sees it: the state is the list of
 the variants created so far; there are no objects, properties or
 containers. `name_to_value` and `value_to_name` are those of `color`. -/
def paint : reflection (List paint_value) paint_type Nat Nat Nat Nat where
  type_get := fun c => paint_type.cpp c
  is_arithmetic := fun t =>
    match t with
    | paint_type.cpp cpp_type.std_string => false
    | paint_type.cpp _ => true
    | _ => false
  is_enumeration := fun t => t = paint_type.color
  is_wrapper := fun _ => false
  is_sequential_container := fun _ => false
  get_wrapped_type := fun t => t
  get_raw_type := fun t => t
  get_properties := fun _ => []
  name_to_value := fun w t name =>
    if t = paint_type.color ∧ name = bytes "red" then paint_alloc w (paint_value.enumerator 0)
    else if t = paint_type.color ∧ name = bytes "green" then
      paint_alloc w (paint_value.enumerator 1)
    else paint_alloc w paint_value.invalid
  value_to_name := fun t n =>
    if t = paint_type.color ∧ n = 0 then bytes "red"
    else if t = paint_type.color ∧ n = 1 then bytes "green"
    else []
  get_metadata := fun w _ _ => paint_alloc w paint_value.invalid
  get_name := fun _ => []
  prop_get_type := fun _ => paint_type.shape
  prop_get_value := fun w _ _ => paint_alloc w paint_value.invalid
  prop_set_value := fun w _ _ _ => (w, false)
  instance_of_variant := fun v => v
  inst_get_type := fun _ _ => paint_type.shape
  get_wrapped_instance := fun _ i => i
  get_derived_type := fun _ _ => paint_type.shape
  make_variant := fun w c => paint_alloc w (paint_value.atom c)
  make_invalid := fun w => paint_alloc w paint_value.invalid
  operator_bool := fun w v => decide (w.getD v paint_value.invalid ≠ paint_value.invalid)
  convert := fun w _ _ => (w, false)
  extract_wrapped_value := fun w v => paint_alloc w (w.getD v paint_value.invalid)
  create_sequential_view := fun w v => (w, v)
  set_size := fun w _ _ => (w, false)
  get_value_type := fun _ _ => paint_type.shape
  view_get_value := fun w _ _ => paint_alloc w paint_value.invalid
  view_set_value := fun w _ _ _ => (w, false)
  trunc := fun _ => 0
  of_int := fun _ => ⟨0⟩
  to_float := fun x => x

/-! ### A fourth concrete program, with a property that refers back to the object -/

/-- Types of the fourth small program: the C++ types, the class `node` of its
 object, the pointer type `node*` of the property `next`, and the type of an
 invalid variant. -/
inductive ring_type where
  | invalid
  | cpp (c : cpp_type)
  | node
  | node_ptr
  deriving DecidableEq, Repr

/-- State of the fourth small program: one object of class `node` with the
 properties `next` (a `node*` that points to the object itself) and `count`
 (an `int32_t`), and the variants created so far (`none` is an invalid
 variant). Variant number `0` is the pointer to the object; variant number
 `v + 1` is entry `v` of the list. -/
structure ring_state where
  count : Int
  variants : List (Option cvalue)
  deriving DecidableEq, Repr

/-- A new variant is stored; its number is returned. -/
def ring_alloc (w : ring_state) (v : Option cvalue) : ring_state × Nat :=
  ({ w with variants := w.variants ++ [v] }, w.variants.length + 1)

/-- The C++ value held by variant number `v`; none for the pointer and for an
 invalid variant. -/
def ring_content (w : ring_state) (v : Nat) : Option cvalue :=
  match v with
  | 0 => none
  | v + 1 => w.variants.getD v none

/-- Type of the content of a variant. -/
def ring_variant_type (w : ring_state) (v : Nat) : ring_type :=
  match v with
  | 0 => ring_type.node_ptr
  | v + 1 =>
    match (w.variants.getD v none).bind cvalue.type with
    | some c => ring_type.cpp c
    | none => ring_type.invalid

/-- The library as the fourth small program sees it. Properties are numbered
 `0` (`next`) and `1` (`count`). An instance made from a variant has the number
 of the variant; instance `0`, made from the pointer, is the object the
 pointer points to, which is also the instance the program passes to
 `from_json`. `get_value` of `next` returns the pointer; `convert` succeeds
 only on a variant that already has the target type. -/
def ring : reflection ring_state ring_type Nat Nat Nat Nat where
  type_get := fun c => ring_type.cpp c
  is_arithmetic := fun t =>
    match t with
    | ring_type.cpp cpp_type.std_string => false
    | ring_type.cpp _ => true
    | _ => false
  is_enumeration := fun _ => false
  is_wrapper := fun _ => false
  is_sequential_container := fun _ => false
  get_wrapped_type := fun t => t
  get_raw_type := fun t => if t = ring_type.node_ptr then ring_type.node else t
  get_properties := fun t => if t = ring_type.node then [0, 1] else []
  name_to_value := fun w _ _ => ring_alloc w none
  value_to_name := fun _ _ => []
  get_metadata := fun w _ _ => ring_alloc w none
  get_name := fun p => if p = 0 then bytes "next" else bytes "count"
  prop_get_type := fun p =>
    if p = 0 then ring_type.node_ptr else ring_type.cpp (cpp_type.integer int_kind.int32_t)
  prop_get_value := fun w p obj =>
    if obj ≠ 0 then ring_alloc w none
    else if p = 0 then (w, 0)
    else ring_alloc w (some (cvalue.integer int_kind.int32_t w.count))
  prop_set_value := fun w p obj v =>
    if obj ≠ 0 then (w, false)
    else
      match p, v, ring_content w v with
      | 0, 0, _ => (w, true)
      | 1, _, some (cvalue.integer int_kind.int32_t n) => ({ w with count := n }, true)
      | _, _, _ => (w, false)
  instance_of_variant := fun v => v
  inst_get_type := fun w i => if i = 0 then ring_type.node else ring_variant_type w i
  get_wrapped_instance := fun _ i => i
  get_derived_type := fun w i => if i = 0 then ring_type.node else ring_variant_type w i
  make_variant := fun w c => ring_alloc w (some c)
  make_invalid := fun w => ring_alloc w none
  operator_bool := fun w v => decide (ring_variant_type w v ≠ ring_type.invalid)
  convert := fun w v t => (w, decide (ring_variant_type w v = t ∧ t ≠ ring_type.invalid))
  extract_wrapped_value := fun w v => if v = 0 then (w, 0) else ring_alloc w (ring_content w v)
  create_sequential_view := fun w _ => (w, 0)
  set_size := fun w _ _ => (w, false)
  get_value_type := fun _ _ => ring_type.invalid
  view_get_value := fun w _ _ => ring_alloc w none
  view_set_value := fun w _ _ _ => (w, false)
  trunc := fun _ => 0
  of_int := fun _ => ⟨0⟩
  to_float := fun x => x

end json_serialization

/-! ## Lemmas -/

theorem transform_eq_map (op : Nat → Nat) (s : cstring) : transform op s = s.map op := by
  induction s with
  | nil => rfl
  | cons ch rest ih => simp [transform, ih]

theorem erase_remove_if_eq_filter (pred : Nat → Bool) (s : cstring) :
    erase_remove_if pred s = s.filter (fun ch => !pred ch) := by
  induction s with
  | nil => rfl
  | cons ch rest ih =>
    by_cases h : pred ch = true
    · simp [erase_remove_if, h, ih]
    · simp [erase_remove_if, h, ih]

theorem string_to_bool_eq (s : cstring) :
    string_to_bool s =
      !(normal_form s == bytes "false" || normal_form s == bytes "0" || (normal_form s).isEmpty) := by
  simp [string_to_bool, normal_form, transform_eq_map, erase_remove_if_eq_filter]

theorem tolower_swap_case (ch : Nat) : tolower (swap_case ch) = tolower ch := by
  unfold tolower swap_case
  split_ifs <;> omega

theorem isspace_tolower (ch : Nat) : isspace (tolower ch) = isspace ch := by
  unfold tolower isspace
  split_ifs with h
  · have h1 : (ch + 32 == 32) = false := by simp; omega
    have h2 : (ch == 32) = false := by simp; omega
    have h3 : decide (ch + 32 ≤ 13) = false := by simp
    have h4 : decide (ch ≤ 13) = false := by simp; omega
    simp [h1, h2, h3, h4]
  · rfl

theorem map_tolower_change_case (mask : List Bool) (s : cstring) :
    (change_case mask s).map tolower = s.map tolower := by
  induction s generalizing mask with
  | nil => cases mask <;> rfl
  | cons ch rest ih =>
    cases mask with
    | nil => rfl
    | cons b mask =>
      cases b <;> simp [change_case, ih, tolower_swap_case]

theorem normal_form_change_case (mask : List Bool) (s : cstring) :
    normal_form (change_case mask s) = normal_form s := by
  simp [normal_form, map_tolower_change_case]

theorem normal_form_insert_space (a b : cstring) (w : Nat) (hw : isspace w = true) :
    normal_form (a ++ w :: b) = normal_form (a ++ b) := by
  simp [normal_form, isspace_tolower, hw]

/-! ### Decimal text -/

theorem parse_digits_snoc (acc : Nat) (s : cstring) (ch : Nat) :
    parse_digits acc (s ++ [ch]) =
      (parse_digits acc s).bind (fun v => if 48 ≤ ch ∧ ch ≤ 57 then some (v * 10 + (ch - 48)) else none) := by
  induction s generalizing acc with
  | nil => simp [parse_digits]; 
  | cons c rest ih =>
    by_cases h : 48 ≤ c ∧ c ≤ 57
    · simp [parse_digits, h, ih]
    · simp [parse_digits, h]

theorem parse_digits_reverse (s : cstring) (h : all_digits s) :
    parse_digits 0 s.reverse = some (value_rev s) := by
  induction s with
  | nil => rfl
  | cons ch rest ih =>
    have hr : all_digits rest := fun c hc => h c (List.mem_cons_of_mem _ hc)
    have hc : 48 ≤ ch ∧ ch ≤ 57 := h ch (List.mem_cons_self _ _)
    rw [List.reverse_cons, parse_digits_snoc, ih hr]
    simp [hc, value_rev]; omega

theorem digits_rev_spec (fuel n : Nat) (h : n < fuel) :
    all_digits (digits_rev fuel n) ∧ value_rev (digits_rev fuel n) = n ∧ digits_rev fuel n ≠ [] ∧
      ∀ ch ∈ digits_rev fuel n, ch ≠ 45 := by
  induction fuel generalizing n with
  | zero => omega
  | succ fuel ih =>
    by_cases hz : n / 10 = 0
    · simp [digits_rev, hz, all_digits, value_rev]; omega
    · have hlt : n / 10 < fuel := by omega
      obtain ⟨h1, h2, _, h4⟩ := ih (n / 10) hlt
      refine ⟨?_, ?_, ?_, ?_⟩
      · intro ch hch
        simp [digits_rev, hz] at hch
        rcases hch with rfl | hch
        · omega
        · exact h1 ch hch
      · simp [digits_rev, hz, value_rev, h2]; omega
      · simp [digits_rev]
      · intro ch hch
        simp [digits_rev, hz] at hch
        rcases hch with rfl | hch
        · omega
        · exact h4 ch hch

theorem parse_nat_to_string (n : Nat) : parse_digits 0 (nat_to_string n) = some n := by
  obtain ⟨h1, h2, _, _⟩ := digits_rev_spec (n + 1) n (by omega)
  rw [nat_to_string, parse_digits_reverse _ h1, h2]

theorem nat_to_string_head (n : Nat) : ∃ ch rest, nat_to_string n = ch :: rest ∧ ch ≠ 45 := by
  obtain ⟨_, _, h3, h4⟩ := digits_rev_spec (n + 1) n (by omega)
  have hne : nat_to_string n ≠ [] := by simpa [nat_to_string] using h3
  cases hs : nat_to_string n with
  | nil => exact absurd hs hne
  | cons ch rest =>
    refine ⟨ch, rest, rfl, ?_⟩
    apply h4
    have : ch ∈ nat_to_string n := by rw [hs]; exact List.mem_cons_self _ _
    simpa [nat_to_string] using this

theorem string_to_int_int_to_string (v : Int) (hlo : INT_MIN ≤ v) (hhi : v ≤ INT_MAX) :
    string_to_int (int_to_string v) = some v := by
  unfold int_to_string
  by_cases hneg : v < 0
  · simp only [hneg, if_true]
    obtain ⟨ch, rest, hs, _⟩ := nat_to_string_head (-v).toNat
    have hp := parse_nat_to_string (-v).toNat
    rw [hs] at hp
    simp only [string_to_int, hs, hp, Option.bind]
    have : ((-v).toNat : Int) = -v := Int.toNat_of_nonneg (by omega)
    simp [this, hlo]
  · simp only [hneg, if_false]
    obtain ⟨ch, rest, hs, hne⟩ := nat_to_string_head v.toNat
    have hp := parse_nat_to_string v.toNat
    rw [hs] at hp
    have : (v.toNat : Int) = v := Int.toNat_of_nonneg (by omega)
    unfold string_to_int
    rw [hs]
    split
    · simp at *
    · rename_i h; simp at h; omega
    · simp [hp, this, hhi]

/-! ### Relationship graph -/

theorem walk_chain {τ : Type} [DecidableEq τ] (bases : τ → List (base_edge τ)) (c : Nat → τ)
    (δ : Nat → Int) (n : Nat) (hinj : Function.Injective c)
    (hb : ∀ i, i < n → bases (c (i + 1)) = [⟨c i, fun a => a + δ i⟩]) :
    ∀ (fuel k j : Nat) (addr : Int), j ≤ k → k ≤ n → k - j ≤ fuel →
      walk bases fuel (c k) (c j) addr = some (addr + chain_offset δ j k) := by
  intro fuel
  induction fuel with
  | zero =>
    intro k j addr hjk hkn hf
    have : k = j := by omega
    subst this
    cases k <;> simp [walk, chain_offset]
  | succ fuel ih =>
    intro k j addr hjk hkn hf
    by_cases hkj : k = j
    · subst hkj
      cases k <;> simp [walk, chain_offset]
    · obtain ⟨i, rfl⟩ : ∃ i, k = i + 1 := ⟨k - 1, by omega⟩
      have hne : c (i + 1) ≠ c j := fun h => hkj (hinj h)
      have hji : j ≤ i := by omega
      rw [walk, if_neg hne, hb i (by omega)]
      by_cases hij : i = j
      · subst hij
        have : chain_offset δ i i = 0 := by cases i <;> simp [chain_offset]
        simp [chain_offset, this]
      · have hne2 : c i ≠ c j := fun h => hij (hinj h)
        simp only [List.find?, hne2, decide_False, first_some]
        rw [ih i j _ hji (by omega) (by omega)]
        simp [chain_offset, hji]; ring

theorem chain_offset_self (δ : Nat → Int) (j : Nat) : chain_offset δ j j = 0 := by
  cases j <;> simp [chain_offset]

theorem native_dynamic_cast_iff (D k j : Nat) (hk : k ≤ D) :
    native_dynamic_cast D k j = true ↔ j ≤ k := by
  induction k with
  | zero => simp [native_dynamic_cast]
  | succ i ih =>
    have := ih (by omega)
    simp only [native_dynamic_cast, Bool.or_eq_true, beq_iff_eq, Bool.and_eq_true,
      decide_eq_true_eq, this]
    omega

theorem chain_walk_some (δ : Nat → Int) (D k j : Nat) (addr : Int) (hjk : j ≤ k) (hk : k ≤ D) :
    walk (chain_table δ D).bases (chain_table δ D).depth k j addr =
      some (addr + chain_offset δ j k) :=
  walk_chain (chain_table δ D).bases id δ D (fun _ _ h => h)
    (fun i hi => by simp [chain_table, hi]) D k j addr hjk hk (by simp [chain_table]; omega)

theorem chain_walk_none (δ : Nat → Int) (D : Nat) :
    ∀ (fuel k u : Nat) (addr : Int), k < u →
      walk (chain_table δ D).bases fuel k u addr = none := by
  intro fuel
  induction fuel with
  | zero => intro k u addr h; simp [walk]; omega
  | succ fuel ih =>
    intro k u addr h
    have hne : k ≠ u := by omega
    cases k with
    | zero =>
      have hb : (chain_table δ D).bases 0 = [] := rfl
      rw [walk, if_neg hne, hb]
      simp [first_some]
    | succ i =>
      rw [walk, if_neg hne]
      by_cases hi : i < D
      · have hiu : i ≠ u := by omega
        have hb : (chain_table δ D).bases (i + 1) = [⟨i, fun a => a + δ i⟩] := by
          simp [chain_table, hi]
        rw [hb]
        simp [hiu, first_some, ih i u _ (by omega)]
      · have hb : (chain_table δ D).bases (i + 1) = [] := by simp [chain_table, hi]
        rw [hb]
        simp [first_some]

theorem diamond_A_none (m n : Nat) (δA δC : Nat → Int) (oA oC : Int) (t : multiple)
    (ht : ∀ i, multiple.A i ≠ t) :
    ∀ (fuel k : Nat) (addr : Int),
      walk (diamond_table m n δA δC oA oC).bases fuel (.A k) t addr = none := by
  intro fuel
  induction fuel with
  | zero => intro k addr; simp [walk, ht k]
  | succ fuel ih =>
    intro k addr
    rw [walk, if_neg (ht k)]
    cases k with
    | zero =>
      have hb : (diamond_table m n δA δC oA oC).bases (.A 0) = [] := rfl
      rw [hb]
      simp [first_some]
    | succ i =>
      by_cases hi : i < m
      · have hb : (diamond_table m n δA δC oA oC).bases (.A (i + 1)) =
            [⟨.A i, fun a => a + δA i⟩] := by simp [diamond_table, hi]
        rw [hb]
        simp [ht i, first_some, ih i]
      · have hb : (diamond_table m n δA δC oA oC).bases (.A (i + 1)) = [] := by
          simp [diamond_table, hi]
        rw [hb]
        simp [first_some]

theorem diamond_C_some (m n : Nat) (δA δC : Nat → Int) (oA oC : Int) (fuel k j : Nat)
    (addr : Int) (hjk : j ≤ k) (hk : k ≤ n) (hf : k - j ≤ fuel) :
    walk (diamond_table m n δA δC oA oC).bases fuel (.C k) (.C j) addr =
      some (addr + chain_offset δC j k) :=
  walk_chain (diamond_table m n δA δC oA oC).bases multiple.C δC n
    (fun _ _ h => by injection h)
    (fun i hi => by simp [diamond_table, hi]) fuel k j addr hjk hk hf

theorem diamond_final_to_C (m n : Nat) (δA δC : Nat → Int) (oA oC : Int) (j : Nat) (p : Int)
    (hj : j ≤ n) :
    walk (diamond_table m n δA δC oA oC).bases (diamond_table m n δA δC oA oC).depth
        .final (.C j) p = some (p + oC + chain_offset δC j n) := by
  have hd : (diamond_table m n δA δC oA oC).depth = max m n + 1 := rfl
  rw [hd, walk, if_neg (by simp)]
  have hb : (diamond_table m n δA δC oA oC).bases .final =
      [⟨.A m, fun a => a + oA⟩, ⟨.C n, fun a => a + oC⟩] := rfl
  rw [hb]
  by_cases hnj : n = j
  · subst hnj
    simp [List.find?, chain_offset_self]
  · have h1 : (multiple.C n = multiple.C j) = False := by simp [hnj]
    simp only [List.find?, h1, decide_False, first_some]
    have : decide (multiple.A m = multiple.C j) = false := by simp
    simp only [this]
    rw [diamond_A_none m n δA δC oA oC (.C j) (by simp) (max m n) m]
    simp only
    rw [diamond_C_some m n δA δC oA oC (max m n) n j _ hj (le_refl _) (by omega)]


theorem nat_to_string_injective : Function.Injective nat_to_string := by
  intro a b h
  have ha := parse_nat_to_string a
  rw [h, parse_nat_to_string b] at ha
  exact (Option.some.inj ha).symm

theorem method_name_injective : Function.Injective method_name := by
  intro a b h
  exact nat_to_string_injective (List.append_cancel_left h)

theorem chain_get_method_isSome (δ : Nat → Int) (D k j : Nat) (hk : k ≤ D) :
    (get_method (chain_table δ D) (chain_methods D) k (method_name j)).isSome = true ↔ j ≤ k := by
  unfold get_method
  rw [List.find?_isSome]
  constructor
  · rintro ⟨m, hm, hp⟩
    simp only [chain_methods, List.mem_map, List.mem_range] at hm
    obtain ⟨i, _, rfl⟩ := hm
    simp only [Bool.and_eq_true, beq_iff_eq] at hp
    have hij : i = j := method_name_injective hp.1
    subst hij
    by_contra hlt
    have := chain_walk_none δ D (chain_table δ D).depth k i 0 (by omega)
    rw [this] at hp
    simp at hp
  · intro hjk
    refine ⟨⟨method_name j, j, [], fun s _ => (s, none)⟩, ?_, ?_⟩
    · simp only [chain_methods, List.mem_map, List.mem_range]
      exact ⟨j, by omega, rfl⟩
    · simp [chain_walk_some δ D k j 0 hjk hk]

/-! ## Boolean from string (`string_to_bool`) -/

/-- C1. Every string whose lower-cased form with whitespace removed is
 "false", "0" or the empty string is converted to `false` by `string_to_bool`. -/
theorem string_to_bool_false_set (s : cstring)
    (h : normal_form s = bytes "false" ∨ normal_form s = bytes "0" ∨ normal_form s = bytes "") :
    string_to_bool s = false := by
  rw [string_to_bool_eq]
  rcases h with h | h | h <;> rw [h] <;> decide

/-- C1, at the three literals named by the specification and at a mixed-case
 token surrounded by whitespace. -/
theorem string_to_bool_false_set_witness :
    string_to_bool (bytes "false") = false ∧ string_to_bool (bytes "0") = false ∧
      string_to_bool (bytes "") = false ∧ string_to_bool (bytes " FaLsE\t") = false :=
  ⟨string_to_bool_false_set (bytes "false") (Or.inl (by decide)),
   string_to_bool_false_set (bytes "0") (Or.inr (Or.inl (by decide))),
   string_to_bool_false_set (bytes "") (Or.inr (Or.inr (by decide))),
   string_to_bool_false_set (bytes " FaLsE\t") (Or.inl (by decide))⟩

/-- C2 as stated fails: the one-character string " " is a non-empty input whose
 lower-cased, whitespace-stripped form is neither "false" nor "0", and
 `string_to_bool` returns `false` for it. -/
theorem string_to_bool_true_set_blank :
    bytes " " ≠ [] ∧ normal_form (bytes " ") ≠ bytes "false" ∧
      normal_form (bytes " ") ≠ bytes "0" ∧ string_to_bool (bytes " ") = false := by
  decide

/-- C2, amended. Every string whose lower-cased, whitespace-stripped form is
 non-empty and differs from "false" and from "0" is converted to `true`. -/
theorem string_to_bool_true_set (s : cstring)
    (hne : normal_form s ≠ []) (hf : normal_form s ≠ bytes "false")
    (hz : normal_form s ≠ bytes "0") :
    string_to_bool s = true := by
  rw [string_to_bool_eq]
  have h1 : (normal_form s == bytes "false") = false := by simpa using hf
  have h2 : (normal_form s == bytes "0") = false := by simpa using hz
  have h3 : (normal_form s).isEmpty = false := by
    cases h : normal_form s with
    | nil => exact absurd h hne
    | cons x xs => rfl
  rw [h1, h2, h3]
  rfl

/-- C2, amended, at "1" (the benchmark input), "true", "yes" and "00". -/
theorem string_to_bool_true_set_witness :
    string_to_bool setup_string_bool = true ∧ string_to_bool (bytes "true") = true ∧
      string_to_bool (bytes "yes") = true ∧ string_to_bool (bytes "00") = true :=
  ⟨string_to_bool_true_set setup_string_bool (by decide) (by decide) (by decide),
   string_to_bool_true_set (bytes "true") (by decide) (by decide) (by decide),
   string_to_bool_true_set (bytes "yes") (by decide) (by decide) (by decide),
   string_to_bool_true_set (bytes "00") (by decide) (by decide) (by decide)⟩

/-- C8. `string_to_bool` is case-insensitive: changing any subset of the ASCII
 letters of a string to the other case does not change the result. -/
theorem string_to_bool_case_insensitive (mask : List Bool) (s : cstring) :
    string_to_bool (change_case mask s) = string_to_bool s := by
  rw [string_to_bool_eq, string_to_bool_eq, normal_form_change_case]

/-- C9. `string_to_bool` ignores a classic-locale whitespace character at any
 position of the string. -/
theorem string_to_bool_ignores_whitespace (a b : cstring) (w : Nat)
    (hw : isspace w = true) :
    string_to_bool (a ++ w :: b) = string_to_bool (a ++ b) := by
  rw [string_to_bool_eq, string_to_bool_eq, normal_form_insert_space a b w hw]

/-- C9 at "fal se": the space inside the token is removed. -/
theorem string_to_bool_ignores_whitespace_witness :
    isspace 32 = true ∧
      string_to_bool (bytes "fal" ++ 32 :: bytes "se") = string_to_bool (bytes "fal" ++ bytes "se") :=
  ⟨by decide, string_to_bool_ignores_whitespace (bytes "fal") (bytes "se") 32 (by decide)⟩

/-! ## Invocation -/

/-- C3. Invoking a method that requires N parameters with an argument list of
 another length returns the invalid Variant, does not call the underlying
 function and leaves the object unchanged, through `invoke_variadic` and
 through the fixed-arity forms alike. -/
theorem invoke_wrong_argument_count {τ σ : Type} [DecidableEq τ] (tbl : type_table τ)
    (m : method τ σ) (inst : instance_ref τ) (obj : σ) (args : List variant)
    (h : args.length ≠ m.parameter_types.length) :
    invoke_variadic tbl m inst obj args = ⟨variant.invalid, obj, false⟩ ∧
      (args = [] → invoke tbl m inst obj = ⟨variant.invalid, obj, false⟩) ∧
      (∀ a1, args = [a1] → invoke_1 tbl m inst obj a1 = ⟨variant.invalid, obj, false⟩) ∧
      (∀ a1 a2, args = [a1, a2] →
        invoke_2 tbl m inst obj a1 a2 = ⟨variant.invalid, obj, false⟩) ∧
      (∀ a1 a2 a3, args = [a1, a2, a3] →
        invoke_3 tbl m inst obj a1 a2 a3 = ⟨variant.invalid, obj, false⟩) := by
  have key : invoke_variadic tbl m inst obj args = ⟨variant.invalid, obj, false⟩ := by
    unfold invoke_variadic
    cases resolve tbl inst.static_type inst.addr inst.info m.declaring_type with
    | none => rfl
    | some a => simp [h]
  refine ⟨key, ?_, ?_, ?_, ?_⟩
  · intro e; subst e; exact key
  · intro a1 e; subst e; exact key
  · intro a1 a2 e; subst e; exact key
  · intro a1 a2 a3 e; subst e; exact key

/-- C3 on `void_method_arg_8` of `bench_rttr_invoke_method_arg_8`, called with
 seven arguments through `invoke_variadic`, and on `void_method_arg_2` called
 with one argument through the fixed-arity form. -/
theorem invoke_wrong_argument_count_witness :
    invoke_variadic (chain_table (fun _ => 0) 0) (void_method_arg 8) method_class_obj 0
        (List.replicate 7 (variant.int 1)) = ⟨variant.invalid, 0, false⟩ ∧
      invoke_1 (chain_table (fun _ => 0) 0) (void_method_arg 2) method_class_obj 0
        (variant.int 23) = ⟨variant.invalid, 0, false⟩ :=
  ⟨(invoke_wrong_argument_count (chain_table (fun _ => 0) 0) (void_method_arg 8)
      method_class_obj 0 (List.replicate 7 (variant.int 1)) (by decide)).1,
   (invoke_wrong_argument_count (chain_table (fun _ => 0) 0) (void_method_arg 2)
      method_class_obj 0 [variant.int 23] (by decide)).2.2.1 (variant.int 23) rfl⟩

/-- C6. When the concrete function of a method returns nothing, an invocation
 that called it yields the void Variant and an invocation that could not call
 it yields the invalid Variant; the void Variant is valid, the invalid one is
 not, so the two are distinguishable. -/
theorem void_return_distinguished {τ σ : Type} [DecidableEq τ] (tbl : type_table τ)
    (m : method τ σ) (inst : instance_ref τ) (obj : σ) (args : List variant)
    (hvoid : ∀ s a, (m.func s a).2 = none) :
    ((invoke_variadic tbl m inst obj args).called = true →
        (invoke_variadic tbl m inst obj args).result = variant.void) ∧
      ((invoke_variadic tbl m inst obj args).called = false →
        (invoke_variadic tbl m inst obj args).result = variant.invalid) ∧
      variant.void.is_valid = true ∧ variant.invalid.is_valid = false ∧
      variant.void ≠ variant.invalid := by
  refine ⟨?_, ?_, by decide, by decide, by decide⟩
  · unfold invoke_variadic
    cases resolve tbl inst.static_type inst.addr inst.info m.declaring_type with
    | none => simp
    | some a =>
      by_cases hl : args.length = m.parameter_types.length
      · cases hb : bind_arguments m.parameter_types args with
        | none => simp [hl]
        | some bound =>
          have := hvoid obj bound
          rcases hf : m.func obj bound with ⟨obj', r⟩
          rw [hf] at this
          simp only at this
          subst this
          simp [hl, hf]
      · simp [hl]
  · unfold invoke_variadic
    cases resolve tbl inst.static_type inst.addr inst.info m.declaring_type with
    | none => simp
    | some a =>
      by_cases hl : args.length = m.parameter_types.length
      · cases hb : bind_arguments m.parameter_types args with
        | none => simp [hl]
        | some bound =>
          rcases hf : m.func obj bound with ⟨obj', r⟩
          cases r <;> simp [hl, hf]
      · simp [hl]

/-- C6 on `method_0` of `bench_rttr_invoke_method_void_return_value`: the call
 `m.invoke(obj)` reaches the function and returns the void Variant. -/
theorem void_return_distinguished_witness :
    (invoke (chain_table (fun _ => 0) 0) (void_method_arg 0) method_class_obj 0).called = true ∧
      (invoke_variadic (chain_table (fun _ => 0) 0) (void_method_arg 0) method_class_obj 0
        []).result = variant.void :=
  ⟨by decide,
   (void_return_distinguished (chain_table (fun _ => 0) 0) (void_method_arg 0) method_class_obj
      0 [] (fun _ _ => rfl)).1 (by decide)⟩

/-! ## Relationship resolution -/

/-- C4. In a single-inheritance chain of depth `D`, resolving from the
 most-derived type to each ancestor succeeds with the compile-time-known
 offset, resolving from a type of the chain to an unrelated type returns "not
 related", and for an object of dynamic type `method_class_d_k` seen through a
 `method_class` reference the lookup of the method declared in
 `method_class_d_j` succeeds exactly when the native `dynamic_cast` to
 `method_class_d_j` does. -/
theorem single_inheritance_resolution (δ : Nat → Int) (D k j u : Nat) (addr p : Int)
    (hj : j ≤ D) (hk : k ≤ D) (hu : D < u) :
    resolve (chain_table δ D) D addr ⟨D, addr⟩ j = some (addr + chain_offset δ j D) ∧
      resolve (chain_table δ D) j addr ⟨k, p⟩ u = none ∧
      (get_method (chain_table δ D) (chain_methods D) (type_get ⟨0, addr, ⟨k, p⟩⟩)
          (method_name j)).isSome = native_dynamic_cast D k j := by
  refine ⟨?_, ?_, ?_⟩
  · simp [resolve, chain_walk_some δ D D j addr hj (le_refl D)]
  · simp [resolve, chain_walk_none δ D _ j u addr (by omega),
      chain_walk_none δ D _ k u p (by omega)]
  · rw [Bool.eq_iff_iff, native_dynamic_cast_iff D k j hk]
    exact chain_get_method_isSome δ D k j hk

/-- C4 on the benchmark cases of depth 7 with 8-byte hops: from
 `method_class_d_7` to `method_class_d_3`, to an unrelated type, and the lookups
 of `bench_rttr_find_method_level_3` and `bench_rttr_find_method_neg_level_3`. -/
theorem single_inheritance_resolution_witness :
    resolve (chain_table (fun _ => 8) 7) 7 1000 ⟨7, 1000⟩ 3 = some 1032 ∧
      resolve (chain_table (fun _ => 8) 7) 3 1000 ⟨3, 1000⟩ 9 = none ∧
      (get_method (chain_table (fun _ => 8) 7) (chain_methods 7) (type_get ⟨0, 1000, ⟨3, 1000⟩⟩)
          (method_name 3)).isSome = true ∧
      (get_method (chain_table (fun _ => 8) 7) (chain_methods 7) (type_get ⟨0, 1000, ⟨3, 1000⟩⟩)
          (method_name 4)).isSome = false :=
  ⟨(single_inheritance_resolution (fun _ => 8) 7 3 3 9 1000 1000 (by decide) (by decide)
      (by decide)).1,
   (single_inheritance_resolution (fun _ => 8) 7 3 3 9 1000 1000 (by decide) (by decide)
      (by decide)).2.1,
   (single_inheritance_resolution (fun _ => 8) 7 3 3 9 1000 1000 (by decide) (by decide)
      (by decide)).2.2,
   (single_inheritance_resolution (fun _ => 8) 7 3 4 9 1000 1000 (by decide) (by decide)
      (by decide)).2.2⟩

/-- C5. In a hierarchy with most-derived type `final` and the unrelated base
 branches A and C, an instance viewed as `class_multiple_base_A` does not reach
 a type of the C branch by a walk from its static type; the resolution
 succeeds, through the most-derived object, when the dynamic type is `final`
 (which derives from the target), and fails when the dynamic type is a class of
 the A branch (which does not). -/
theorem cross_cast_resolution (m n : Nat) (δA δC : Nat → Int) (oA oC : Int) (j k : Nat)
    (a p : Int) (hj : j ≤ n) :
    walk (diamond_table m n δA δC oA oC).bases (diamond_table m n δA δC oA oC).depth
        (.A 0) (.C j) a = none ∧
      resolve (diamond_table m n δA δC oA oC) (.A 0) a ⟨.final, p⟩ (.C j) =
        some (p + oC + chain_offset δC j n) ∧
      resolve (diamond_table m n δA δC oA oC) (.A 0) a ⟨.A k, p⟩ (.C j) = none := by
  have h0 := diamond_A_none m n δA δC oA oC (.C j) (by simp)
    (diamond_table m n δA δC oA oC).depth 0 a
  refine ⟨h0, ?_, ?_⟩
  · simp [resolve, h0, diamond_final_to_C m n δA δC oA oC j p hj]
  · simp [resolve, h0, diamond_A_none m n δA δC oA oC (.C j) (by simp) _ k p]

/-- C5 on the benchmark cases: a `class_multiple_final` object viewed as
 `class_multiple_base_A` resolved to `class_multiple_1C`
 (`bench_rttr_find_method_cross_cast_level_1`), and a `class_multiple_2A`
 object resolved to the same target
 (`bench_rttr_find_method_cross_cast_neg_level_1`). -/
theorem cross_cast_resolution_witness :
    resolve (diamond_table 5 5 (fun _ => 8) (fun _ => 16) 0 48) (.A 0) 40 ⟨.final, 0⟩ (.C 1) =
        some 112 ∧
      resolve (diamond_table 5 5 (fun _ => 8) (fun _ => 16) 0 48) (.A 0) 40 ⟨.A 2, 24⟩ (.C 1) =
        none :=
  ⟨(cross_cast_resolution 5 5 (fun _ => 8) (fun _ => 16) 0 48 1 2 40 0 (by decide)).2.1,
   (cross_cast_resolution 5 5 (fun _ => 8) (fun _ => 16) 0 48 1 2 40 24 (by decide)).2.2⟩

/-! ## String round trip -/

/-- C7. For every `int` value `v` and every `bool` value `b`: converting the
 Variant of the value to a string, constructing a Variant from that string and
 converting it back to the original type gives the value again. -/
theorem string_round_trip (v : Int) (b : Bool) (hlo : INT_MIN ≤ v) (hhi : v ≤ INT_MAX) :
    (variant.string (variant.int v).to_string).convert type_id.int = some (variant.int v) ∧
      (variant.string (variant.int v).to_string).to_int = v ∧
      (variant.string (variant.bool b).to_string).convert type_id.bool = some (variant.bool b) ∧
      (variant.string (variant.bool b).to_string).to_bool = b := by
  have hs : (variant.int v).to_string = int_to_string v := rfl
  have hb : (variant.bool b).to_string = bool_to_string b := rfl
  have h1 : (variant.string (int_to_string v)).convert type_id.int = some (variant.int v) := by
    simp [variant.convert, variant.get_type, string_to_int_int_to_string v hlo hhi]
  have h2 : (variant.string (bool_to_string b)).convert type_id.bool = some (variant.bool b) := by
    cases b <;> decide
  refine ⟨?_, ?_, ?_, ?_⟩
  · rw [hs, h1]
  · rw [hs, variant.to_int, h1]
  · rw [hb, h2]
  · rw [hb, variant.to_bool, h2]

/-- C7 at the benchmark values `setup_integer()` and `setup_bool()`. -/
theorem string_round_trip_witness :
    (variant.string (variant.int setup_integer).to_string).to_int = setup_integer ∧
      (variant.string (variant.bool setup_bool).to_string).to_bool = setup_bool :=
  ⟨(string_round_trip setup_integer setup_bool (by decide) (by decide)).2.1,
   (string_round_trip setup_integer setup_bool (by decide) (by decide)).2.2.2⟩

/-! ## Deserialization from JSON -/

namespace json_serialization

section
variable {σ T P I V W S : Type} {α β : Type}

theorem finishes_pure (a : α) : finishes (pure a : M S α) := by
  intro s h; cases h

theorem finishes_bind {m : M S α} {f : α → M S β} (hm : finishes m)
    (hf : ∀ a, finishes (f a)) : finishes (m >>= f) := by
  intro s
  show (M.bind m f s).1 ≠ outcome.out_of_fuel
  unfold M.bind
  have h1 := hm s
  rcases hms : m s with ⟨o, s'⟩
  rw [hms] at h1
  cases o with
  | ok a => exact hf a s'
  | thrown e => intro h; cases h
  | out_of_fuel => exact absurd rfl h1

theorem finishes_lift_except (x : Except exception α) : finishes (lift_except x : M S α) := by
  intro s h
  cases x <;> cases h

theorem finishes_call (f : σ → σ × α) : finishes (call f : M (run_state σ P I V W) α) := by
  intro s h; cases h

theorem finishes_access (ev : event P I V W) (f : σ → σ × α) :
    finishes (access ev f : M (run_state σ P I V W) α) := by
  intro s h; cases h

theorem finishes_read (f : σ → W → T) (w : W) :
    finishes (read f w : M (run_state σ P I V W) T) := by
  intro s h; cases h

theorem finishes_for_each (xs : List α) (body : α → M S Unit)
    (h : ∀ x, x ∈ xs → finishes (body x)) : finishes (for_each xs body) := by
  induction xs with
  | nil => exact finishes_pure ()
  | cons x xs ih =>
    exact finishes_bind (h x (List.mem_cons_self _ _))
      (fun _ => ih (fun y hy => h y (List.mem_cons_of_mem _ hy)))

theorem finishes_ite {c : Prop} [Decidable c] {a b : M S α} (ha : finishes a)
    (hb : finishes b) : finishes (if c then a else b) := by
  split_ifs <;> assumption

theorem finishes_extract_basic_types (r : reflection σ T P I V W) (j : json) :
    finishes (extract_basic_types r j) := by
  unfold extract_basic_types
  repeat' first
    | exact finishes_call _
    | exact finishes_bind (finishes_lift_except _) (fun _ => finishes_call _)
    | apply finishes_ite

theorem finishes_extract_integer (r : reflection σ T P I V W) (j : json) (k : int_kind) :
    finishes (extract_integer r j k) :=
  finishes_bind (finishes_lift_except _) (fun _ => finishes_call _)

theorem finishes_extract_floating (r : reflection σ T P I V W) (j : json) (k : float_kind) :
    finishes (extract_floating r j k) :=
  finishes_bind (finishes_lift_except _) (fun _ => finishes_call _)

theorem finishes_extract_value [DecidableEq T] (r : reflection σ T P I V W) (j : json) (t : T) :
    finishes (extract_value r j t) := by
  unfold extract_value
  repeat' first
    | exact finishes_call _
    | exact finishes_extract_integer r j _
    | exact finishes_extract_floating r j _
    | exact finishes_bind (finishes_lift_except _) (fun _ => finishes_call _)
    | apply finishes_ite

theorem depth_le_depth_items (items : List json) (j : json) (h : j ∈ items) :
    j.depth ≤ depth_items items := by
  induction items with
  | nil => cases h
  | cons x xs ih =>
    rw [depth_items]
    rcases List.mem_cons.mp h with rfl | h'
    · exact le_max_left _ _
    · exact le_trans (ih h') (le_max_right _ _)

theorem depth_le_depth_members (members : List (cstring × json)) (m : cstring × json)
    (h : m ∈ members) : m.2.depth ≤ depth_members members := by
  induction members with
  | nil => cases h
  | cons x xs ih =>
    obtain ⟨k, v⟩ := x
    rw [depth_members]
    rcases List.mem_cons.mp h with rfl | h'
    · exact le_max_left _ _
    · exact le_trans (ih h') (le_max_right _ _)

theorem at_key_depth (j : json) (key : cstring) :
    j.at_key key = json.null ∨ (j.at_key key).depth < j.depth := by
  cases j with
  | object members =>
    simp only [json.at_key]
    cases hf : members.find? (fun m => m.1 == key) with
    | none => exact Or.inl rfl
    | some m =>
      right
      have := depth_le_depth_members members m (List.mem_of_find?_eq_some hf)
      simp only [json.depth]
      omega
  | _ => exact Or.inl rfl

theorem at_index_depth (j : json) (i : Nat) :
    j.at_index i = json.null ∨ (j.at_index i).depth < j.depth := by
  cases j with
  | array items =>
    simp only [json.at_index]
    by_cases hi : i < items.length
    · right
      have hm : items.getD i json.null ∈ items := by
        rw [List.getD_eq_getElem _ _ hi]
        exact List.getElem_mem _
      have := depth_le_depth_items items _ hm
      simp only [json.depth]
      omega
    · left
      exact List.getD_eq_default _ _ (by omega)
  | _ => exact Or.inl rfl

theorem finishes_write_array_body (r : reflection σ T P I V W)
    (rec_obj : I → json → M (run_state σ P I V W) Unit)
    (rec_arr : W → json → M (run_state σ P I V W) Unit) (view : W) (j : json)
    (hobj : ∀ i j', j'.depth < j.depth → finishes (rec_obj i j'))
    (harr : ∀ w j', j'.depth < j.depth → finishes (rec_arr w j')) :
    finishes (write_array_body r rec_obj rec_arr view j) := by
  unfold write_array_body
  refine finishes_bind (finishes_access _ _) (fun _ => ?_)
  refine finishes_bind (finishes_read _ _) (fun t => ?_)
  refine finishes_for_each _ _ (fun i _ => ?_)
  simp only []
  rcases at_index_depth j i with h | h
  · rw [h]
    simp only [json.is_array, json.is_object]
    exact finishes_bind (finishes_extract_basic_types r _) (fun _ =>
      finishes_bind (finishes_call _) (fun c => by
        cases c
        · exact finishes_pure ()
        · exact finishes_bind (finishes_access _ _) (fun _ => finishes_pure ())))
  · refine finishes_ite ?_ (finishes_ite ?_ ?_)
    · exact finishes_bind (finishes_access _ _) (fun _ =>
        finishes_bind (finishes_call _) (fun _ => harr _ _ h))
    · exact finishes_bind (finishes_access _ _) (fun _ =>
        finishes_bind (finishes_call _) (fun _ =>
          finishes_bind (hobj _ _ h) (fun _ =>
            finishes_bind (finishes_access _ _) (fun _ => finishes_pure ()))))
    · exact finishes_bind (finishes_extract_basic_types r _) (fun _ =>
        finishes_bind (finishes_call _) (fun c => by
          cases c
          · exact finishes_pure ()
          · exact finishes_bind (finishes_access _ _) (fun _ => finishes_pure ())))

theorem finishes_fromjson_body [DecidableEq T] (r : reflection σ T P I V W)
    (rec_obj : I → json → M (run_state σ P I V W) Unit)
    (rec_arr : W → json → M (run_state σ P I V W) Unit) (obj : I) (j : json)
    (hobj : ∀ i j', j'.depth < j.depth → finishes (rec_obj i j'))
    (harr : ∀ w j', j'.depth < j.depth → finishes (rec_arr w j')) :
    finishes (fromjson_body r rec_obj rec_arr obj j) := by
  intro s
  unfold fromjson_body
  simp only []
  refine finishes_for_each _ _ (fun prop _ => ?_) s
  refine finishes_bind (finishes_call _) (fun _ => ?_)
  refine finishes_bind (fun s h => by cases h) (fun skip => ?_)
  refine finishes_ite (finishes_pure ()) (finishes_ite (finishes_pure ()) ?_)
  have hscalar : ∀ j' : json, finishes (do
      let extracted_value ← extract_value r j'
        (if r.is_wrapper (r.prop_get_type prop) then r.get_wrapped_type (r.prop_get_type prop)
          else r.prop_get_type prop)
      let converted ← call (fun w => r.convert w extracted_value (r.prop_get_type prop))
      if converted then
        let _ ← access (event.prop_set_value prop (wrapped_instance r s.world obj) extracted_value)
          (fun w => r.prop_set_value w prop (wrapped_instance r s.world obj) extracted_value)
        pure ()
      else pure () : M (run_state σ P I V W) Unit) := fun j' =>
    finishes_bind (finishes_extract_value r _ _) (fun _ =>
      finishes_bind (finishes_call _) (fun c => by
        cases c
        · exact finishes_pure ()
        · exact finishes_bind (finishes_access _ _) (fun _ => finishes_pure ())))
  rcases at_key_depth j (r.get_name prop) with h | h
  · rw [h]
    exact hscalar _
  · cases hv : j.at_key (r.get_name prop) with
    | array items =>
      rw [hv] at h
      refine finishes_bind (finishes_call _) (fun _ => finishes_ite ?_ (finishes_pure ()))
      exact finishes_bind (finishes_access _ _) (fun _ =>
        finishes_bind (finishes_call _) (fun _ => harr _ _ h))
    | object members =>
      rw [hv] at h
      exact finishes_bind (finishes_access _ _) (fun _ =>
        finishes_bind (hobj _ _ h) (fun _ =>
          finishes_bind (finishes_access _ _) (fun _ => finishes_pure ())))
    | null => exact hscalar _
    | boolean b => exact hscalar _
    | number_integer n => exact hscalar _
    | number_unsigned n => exact hscalar _
    | number_float x => exact hscalar _
    | string x => exact hscalar _

theorem finishes_recursion [DecidableEq T] (r : reflection σ T P I V W) (fuel : Nat) :
    (∀ (obj : I) (j : json), j.depth < fuel → finishes (fromjson_recursively r fuel obj j)) ∧
      (∀ (view : W) (j : json), j.depth < fuel →
        finishes (write_array_recursively r fuel view j)) := by
  induction fuel with
  | zero => exact ⟨fun _ _ h => absurd h (Nat.not_lt_zero _), fun _ _ h => absurd h (Nat.not_lt_zero _)⟩
  | succ fuel ih =>
    constructor
    · intro obj j hj
      rw [fromjson_recursively]
      exact finishes_fromjson_body r _ _ obj j (fun i j' h => ih.1 i j' (by omega))
        (fun w j' h => ih.2 w j' (by omega))
    · intro view j hj
      rw [write_array_recursively]
      exact finishes_write_array_body r _ _ view j (fun i j' h => ih.1 i j' (by omega))
        (fun w j' h => ih.2 w j' (by omega))

/-- C10. `io::from_json` never lets an exception escape: on every input it
 returns a boolean; and when the text is not well-formed JSON (`json::parse`
 throws) it returns `false` with the state of the program and the trace of
 accesses unchanged, so that no property of the target object has been read
 or written. -/
theorem from_json_no_exception_escapes [DecidableEq T] (r : reflection σ T P I V W)
    (parse : cstring → Except exception json) (json_str : cstring) (obj : I)
    (s : run_state σ P I V W) (e : exception) (hparse : parse json_str = .error e) :
    from_json r parse json_str obj s = (outcome.ok false, s) ∧
      ∀ (text : cstring) (target : I) (s0 : run_state σ P I V W),
        ∃ b, (from_json r parse text target s0).1 = outcome.ok b := by
  constructor
  · simp [from_json, hparse]
  · intro text target s0
    unfold from_json
    cases hp : parse text with
    | error e => exact ⟨false, rfl⟩
    | ok j =>
      have hfin := (finishes_recursion r (j.depth + 1)).1 target j (Nat.lt_succ_self _) s0
      simp only
      rcases hr : fromjson_recursively r (j.depth + 1) target j s0 with ⟨o, s1⟩
      rw [hr] at hfin
      cases o with
      | ok u => exact ⟨true, rfl⟩
      | thrown e => exact ⟨false, rfl⟩
      | out_of_fuel => exact absurd rfl hfin

/-- C10 on the small program: the truncated text `{"flag": tru` is rejected
 with the object untouched, and the well-formed text whose `count` is a string
 (for which `get<int32_t>` throws) still makes `from_json` return a boolean. -/
theorem from_json_no_exception_escapes_witness :
    from_json demo parse_text (bytes "\x7b\"flag\": tru") 0 demo_start =
        (outcome.ok false, demo_start) ∧
      ∃ b, (from_json demo parse_text (bytes "\x7b\"flag\": true, \"count\": \"x\"\x7d") 0
        demo_start).1 = outcome.ok b :=
  ⟨(from_json_no_exception_escapes demo parse_text (bytes "\x7b\"flag\": tru") 0 demo_start
      exception.parse_error rfl).1,
   (from_json_no_exception_escapes demo parse_text (bytes "\x7b\"flag\": tru") 0 demo_start
      exception.parse_error rfl).2 _ 0 demo_start⟩

end
end json_serialization

/-! ## String views -/

theorem compare_nil_nil : basic_string_view.compare ⟨[]⟩ ⟨[]⟩ = 0 := by decide

theorem compare_nil_cons (b : Nat) (t : cstring) : basic_string_view.compare ⟨[]⟩ ⟨b :: t⟩ = -1 := by
  simp [basic_string_view.compare, basic_string_view.size, traits_compare]

theorem compare_cons_nil (a : Nat) (s : cstring) : basic_string_view.compare ⟨a :: s⟩ ⟨[]⟩ = 1 := by
  simp [basic_string_view.compare, basic_string_view.size, traits_compare]

theorem compare_cons_cons (a b : Nat) (s t : cstring) :
    basic_string_view.compare ⟨a :: s⟩ ⟨b :: t⟩ =
      if a < b then -1 else if b < a then 1 else basic_string_view.compare ⟨s⟩ ⟨t⟩ := by
  simp only [basic_string_view.compare, basic_string_view.size, List.length_cons,
    Nat.succ_min_succ, traits_compare]
  by_cases h1 : a < b
  · simp [h1]
  · by_cases h2 : b < a
    · simp [h1, h2]
    · simp [h1, h2]

theorem op_eq_iff (a b : basic_string_view) :
    a.op_eq b = true ↔ a.size = b.size ∧ ∀ pos, pos < a.size → a.at pos = b.at pos := by
  simp [basic_string_view.op_eq]

theorem op_eq_iff_eq (a b : basic_string_view) : a.op_eq b = true ↔ a = b := by
  rw [op_eq_iff]
  constructor
  · rintro ⟨hs, hp⟩
    cases a with
    | mk x =>
      cases b with
      | mk y =>
        congr
        apply List.ext_getElem hs
        intro n h1 h2
        have := hp n h1
        simp only [basic_string_view.at] at this
        rwa [List.getD_eq_getElem _ _ h1, List.getD_eq_getElem _ _ h2] at this
  · rintro rfl
    exact ⟨rfl, fun _ _ => rfl⟩

theorem compare_spec (s t : cstring) :
    (basic_string_view.compare ⟨s⟩ ⟨t⟩ = 0 ↔ s = t) ∧
      (basic_string_view.compare ⟨s⟩ ⟨t⟩ < 0 ↔ lexicographical_compare s t = true) ∧
      (0 < basic_string_view.compare ⟨s⟩ ⟨t⟩ ↔ lexicographical_compare t s = true) := by
  induction s generalizing t with
  | nil =>
    cases t with
    | nil => simp [compare_nil_nil, lexicographical_compare]
    | cons b t => simp [compare_nil_cons, lexicographical_compare]
  | cons a s ih =>
    cases t with
    | nil => simp [compare_cons_nil, lexicographical_compare]
    | cons b t =>
      rw [compare_cons_cons]
      obtain ⟨h0, h1, h2⟩ := ih t
      by_cases hab : a < b
      · have hba : ¬ b < a := by omega
        have hne : a ≠ b := by omega
        simp [hab, hba, hne, lexicographical_compare]
      · by_cases hba : b < a
        · have hne : a ≠ b := by omega
          simp [hab, hba, hne, lexicographical_compare]
        · have he : a = b := by omega
          subst he
          simp [lexicographical_compare, h0, h1, h2]

/-- C16. The comparison of views is consistent with equality: `a.compare(b)`
 is zero exactly when `a == b`, that is when both have the same size and the
 same character at every position; it is negative exactly when `a` is
 lexicographically less than `b` and positive exactly when `a` is greater. -/
theorem compare_consistent_with_equality (a b : basic_string_view) :
    (a.compare b = 0 ↔ a.op_eq b = true) ∧
      (a.op_eq b = true ↔ a.size = b.size ∧ ∀ pos, pos < a.size → a.at pos = b.at pos) ∧
      (a.compare b < 0 ↔ lexicographical_compare a.m_data b.m_data = true) ∧
      (0 < a.compare b ↔ lexicographical_compare b.m_data a.m_data = true) := by
  obtain ⟨h0, h1, h2⟩ := compare_spec a.m_data b.m_data
  refine ⟨?_, op_eq_iff a b, h1, h2⟩
  rw [op_eq_iff_eq]
  cases a; cases b
  simpa using h0

/-! ## The base property wrapper -/

/-- C12. The base property wrapper is an inert invalid property: `is_valid()`
 is false, `get_value` returns the invalid Variant for every instance and
 leaves the instance as it was, and `set_value` returns false for every
 instance and argument and leaves both as they were. -/
theorem property_wrapper_base_inert {τ σ α : Type} (self : property_wrapper_base τ)
    (object : σ) (arg : α) :
    self.is_valid = false ∧
      self.get_value object = (variant.invalid, object) ∧
      (self.get_value object).1.is_valid = false ∧
      self.set_value object arg = (false, object, arg) :=
  ⟨rfl, rfl, rfl, rfl⟩

/-- C13. A wrapper constructed with the name `n` and the declaring type `t`
 returns `n` from `get_name()` and `t` from `get_declaring_type()`, and still
 does after any sequence of calls of `init`, `is_valid`, `get_type`,
 `get_metadata`, `set_value`, `get_value` and `visit`. -/
theorem property_identity_immutable {τ σ α κ ν : Type} (n : cstring) (t : τ)
    (calls : List (wrapper_call τ σ α κ ν)) :
    (make_property_wrapper_base n t).get_name = n ∧
      (make_property_wrapper_base n t).get_declaring_type = t ∧
      (calls.foldl property_wrapper_base.after
        (make_property_wrapper_base n t)).get_name = n ∧
      (calls.foldl property_wrapper_base.after
        (make_property_wrapper_base n t)).get_declaring_type = t := by
  have h : ∀ (p : property_wrapper_base τ),
      calls.foldl property_wrapper_base.after p = p := by
    induction calls with
    | nil => intro p; rfl
    | cons c rest ih =>
      intro p
      rw [List.foldl_cons]
      have hc : p.after c = p := by cases c <;> rfl
      rw [hc, ih]
  rw [h]
  exact ⟨rfl, rfl, rfl, rfl⟩

/-! ## Serialization to JSON -/

namespace json_serialization

section
variable {S α β γ : Type}

theorem M.pure_bind (a : α) (f : α → M S β) : (pure a >>= f) = f a := rfl

theorem M.bind_pure (m : M S α) : (m >>= pure) = m := by
  funext s
  show M.bind m pure s = m s
  unfold M.bind
  rcases h : m s with ⟨o, s'⟩
  cases o <;> rfl

theorem M.bind_assoc (m : M S α) (f : α → M S β) (g : β → M S γ) :
    (m >>= f >>= g) = (m >>= fun a => f a >>= g) := by
  funext s
  show M.bind (M.bind m f) g s = M.bind m (fun a => M.bind (f a) g) s
  unfold M.bind
  rcases h : m s with ⟨o, s'⟩
  cases o <;> rfl

end

section
variable {σ T P I V W A S : Type} {α β : Type}

theorem bind_eq_ok {m : M S α} {f : α → M S β} {s : S} {a : α} {s1 : S}
    (h : m s = (outcome.ok a, s1)) : (m >>= f) s = f a s1 := by
  show M.bind m f s = f a s1
  unfold M.bind
  rw [h]

theorem bind_eq_thrown {m : M S α} {f : α → M S β} {s : S} {e : exception} {s1 : S}
    (h : m s = (outcome.thrown e, s1)) : (m >>= f) s = (outcome.thrown e, s1) := by
  show M.bind m f s = _
  unfold M.bind
  rw [h]

theorem bind_eq_out_of_fuel {m : M S α} {f : α → M S β} {s : S} {s1 : S}
    (h : m s = (outcome.out_of_fuel, s1)) : (m >>= f) s = (outcome.out_of_fuel, s1) := by
  show M.bind m f s = _
  unfold M.bind
  rw [h]

theorem bind_ok_iff {m : M S α} {f : α → M S β} {s : S} {b : β} {s' : S} :
    (m >>= f) s = (outcome.ok b, s') ↔
      ∃ a s1, m s = (outcome.ok a, s1) ∧ f a s1 = (outcome.ok b, s') := by
  rcases hm : m s with ⟨o, s1⟩
  cases o with
  | ok a =>
    rw [bind_eq_ok hm]
    constructor
    · intro h; exact ⟨a, s1, rfl, h⟩
    · rintro ⟨a', s1', h1, h2⟩
      cases h1
      exact h2
  | thrown e =>
    rw [bind_eq_thrown hm]
    constructor
    · intro h; cases h
    · rintro ⟨a', s1', h1, _⟩; cases h1
  | out_of_fuel =>
    rw [bind_eq_out_of_fuel hm]
    constructor
    · intro h; cases h
    · rintro ⟨a', s1', h1, _⟩; cases h1

theorem map_in_order_length (f : α → M S β) (xs : List α) :
    ∀ (s : S) (ys : List β) (s' : S), map_in_order f xs s = (outcome.ok ys, s') →
      ys.length = xs.length := by
  induction xs with
  | nil =>
    intro s ys s' h
    cases h
    rfl
  | cons x xs ih =>
    intro s ys s' h
    rw [map_in_order, bind_ok_iff] at h
    obtain ⟨y, s1, _, h⟩ := h
    rw [bind_ok_iff] at h
    obtain ⟨ys', s2, hr, h⟩ := h
    have hl := ih s1 ys' s2 hr
    cases h
    simp [hl]

end

section
variable {σ T P I V W A S : Type} {α β γ : Type}

theorem lift_except_ok (a : α) : (lift_except (Except.ok a) : M S α) = pure a := rfl

theorem ite_bind_M (c : Prop) [Decidable c] (a b : M S α) (k : α → M S β) :
    ((if c then a else b) >>= k) = if c then a >>= k else b >>= k := by
  split_ifs <;> rfl

theorem write_array_item_eq [DecidableEq T] (r : reflection_out σ T P I V W A)
    (rec_obj : I → M (run_state σ P I V W) json)
    (rec_arr : W → M (run_state σ P I V W) json) (acc : List json) (item : V) :
    write_array_item r rec_obj rec_arr (json.array acc) item =
      (element_json r rec_obj rec_arr item >>= fun e => pure (json.array (acc ++ [e]))) := by
  unfold write_array_item element_json
  simp only [M.bind_assoc, ite_bind_M, json.push_back, lift_except_ok]

theorem for_fold_write_array_item [DecidableEq T] (r : reflection_out σ T P I V W A)
    (rec_obj : I → M (run_state σ P I V W) json)
    (rec_arr : W → M (run_state σ P I V W) json) (items : List V) :
    ∀ acc : List json,
      for_fold items (json.array acc) (write_array_item r rec_obj rec_arr) =
        (map_in_order (element_json r rec_obj rec_arr) items >>= fun js =>
          pure (json.array (acc ++ js))) := by
  induction items with
  | nil => intro acc; simp [for_fold, map_in_order, M.pure_bind]
  | cons x xs ih =>
    intro acc
    show (write_array_item r rec_obj rec_arr (json.array acc) x >>= fun acc' =>
      for_fold xs acc' (write_array_item r rec_obj rec_arr)) = _
    rw [write_array_item_eq, map_in_order]
    simp only [M.bind_assoc, M.pure_bind, ih, List.append_assoc, List.singleton_append]

end

section
variable {σ T P I V W A S : Type} {α β γ : Type}

theorem write_key_item_eq (rec_var : V → M (run_state σ P I V W) json) (acc : List json)
    (item : V × V) :
    write_key_item rec_var (json.array acc) item =
      (rec_var item.1 >>= fun e => pure (json.array (acc ++ [e]))) := by
  unfold write_key_item
  simp only [json.push_back, lift_except_ok]

theorem for_fold_write_key_item (rec_var : V → M (run_state σ P I V W) json)
    (items : List (V × V)) :
    ∀ acc : List json,
      for_fold items (json.array acc) (write_key_item rec_var) =
        (map_in_order rec_var (items.map Prod.fst) >>= fun js =>
          pure (json.array (acc ++ js))) := by
  induction items with
  | nil => intro acc; simp [for_fold, map_in_order, M.pure_bind]
  | cons x xs ih =>
    intro acc
    show (write_key_item rec_var (json.array acc) x >>= fun acc' =>
      for_fold xs acc' (write_key_item rec_var)) = _
    rw [write_key_item_eq]
    simp only [List.map_cons, map_in_order, M.bind_assoc,
      M.pure_bind, ih, List.append_assoc, List.singleton_append]

theorem set_member_key (k : json) :
    (json.object []).set_member (bytes "key") k = .ok (json.object [(bytes "key", k)]) := rfl

theorem set_member_value (k v : json) :
    (json.object [(bytes "key", k)]).set_member (bytes "value") v =
      .ok (json.object [(bytes "key", k), (bytes "value", v)]) := by
  have h1 : (bytes "key" = bytes "value") = False := by
    simp only [eq_iff_iff, iff_false]; decide
  have h2 : lexicographical_compare (bytes "value") (bytes "key") = false := by decide
  simp [json.set_member, insert_member, h1, h2]

theorem write_key_value_item_eq (rec_var : V → M (run_state σ P I V W) json) (acc : List json)
    (item : V × V) :
    write_key_value_item rec_var (json.array acc) item =
      (key_value_json rec_var item >>= fun e => pure (json.array (acc ++ [e]))) := by
  unfold write_key_value_item key_value_json
  simp only [json.push_back, lift_except_ok, M.bind_assoc, M.pure_bind,
    set_member_key, set_member_value]

theorem for_fold_write_key_value_item (rec_var : V → M (run_state σ P I V W) json)
    (items : List (V × V)) :
    ∀ acc : List json,
      for_fold items (json.array acc) (write_key_value_item rec_var) =
        (map_in_order (key_value_json rec_var) items >>= fun js =>
          pure (json.array (acc ++ js))) := by
  induction items with
  | nil => intro acc; simp [for_fold, map_in_order, M.pure_bind]
  | cons x xs ih =>
    intro acc
    show (write_key_value_item rec_var (json.array acc) x >>= fun acc' =>
      for_fold xs acc' (write_key_value_item rec_var)) = _
    rw [write_key_value_item_eq]
    simp only [map_in_order, M.bind_assoc, M.pure_bind, ih, List.append_assoc,
      List.singleton_append]

end

section
variable {σ T P I V W A S : Type} {α β γ : Type}

theorem call_bind_apply {β : Type} (f : σ → σ × α) (k : α → M (run_state σ P I V W) β)
    (s : run_state σ P I V W) :
    (call f >>= k) s = k (f s.world).2 { s with world := (f s.world).1 } := rfl

theorem inspect_bind_apply {β : Type} (f : σ → α) (k : α → M (run_state σ P I V W) β)
    (s : run_state σ P I V W) :
    (inspect f >>= k) s = k (f s.world) s := rfl

theorem access_bind_apply {β : Type} (ev : event P I V W) (f : σ → σ × α)
    (k : α → M (run_state σ P I V W) β) (s : run_state σ P I V W) :
    (access ev f >>= k) s = k (f s.world).2 ⟨(f s.world).1, s.trace ++ [ev]⟩ := rfl

theorem bind_pure_ok_iff {m : M S α} {g : α → β} {s : S} {b : β} {s' : S} :
    (m >>= fun a => (pure (g a) : M S β)) s = (outcome.ok b, s') ↔
      ∃ a, m s = (outcome.ok a, s') ∧ g a = b := by
  rw [bind_ok_iff]
  constructor
  · rintro ⟨a, s1, h1, h2⟩
    cases h2
    exact ⟨a, h1, rfl⟩
  · rintro ⟨a, h1, rfl⟩
    exact ⟨a, s', h1, rfl⟩

theorem map_in_order_forall (f : α → M S β) (Q : β → Prop)
    (hf : ∀ x s y s', f x s = (outcome.ok y, s') → Q y) (xs : List α) :
    ∀ (s : S) (ys : List β) (s' : S), map_in_order f xs s = (outcome.ok ys, s') →
      ∀ y, y ∈ ys → Q y := by
  induction xs with
  | nil =>
    intro s ys s' h y hy
    cases h
    cases hy
  | cons x xs ih =>
    intro s ys s' h y hy
    rw [map_in_order, bind_ok_iff] at h
    obtain ⟨y0, s1, h0, h⟩ := h
    rw [bind_ok_iff] at h
    obtain ⟨ys', s2, hr, h⟩ := h
    have hq := ih s1 ys' s2 hr
    cases h
    rcases List.mem_cons.mp hy with rfl | hy'
    · exact hf x s _ s1 h0
    · exact hq y hy'

theorem key_value_json_shape (rec_var : V → M S json) (item : V × V) (s : S) (e : json) (s' : S)
    (h : key_value_json rec_var item s = (outcome.ok e, s')) :
    ∃ k v, e = json.object [(bytes "key", k), (bytes "value", v)] := by
  unfold key_value_json at h
  rw [bind_ok_iff] at h
  obtain ⟨k, s1, _, h⟩ := h
  rw [bind_ok_iff] at h
  obtain ⟨v, s2, _, h⟩ := h
  cases h
  exact ⟨k, v, rfl⟩

/-- C14. The array that `write_array` builds is the list of the serializations
 of the items of the view, computed one after the other in iteration order:
 when `write_array` returns, the JSON array has exactly one element per item and
 its i-th element is the serialization of the i-th item. -/
theorem write_array_preserves_length_and_order [DecidableEq T]
    (r : reflection_out σ T P I V W A)
    (rec_obj : I → M (run_state σ P I V W) json)
    (rec_arr : W → M (run_state σ P I V W) json) (view : W)
    (s : run_state σ P I V W) :
    write_array_open r rec_obj rec_arr view s =
        (map_in_order (element_json r rec_obj rec_arr) (r.view_items s.world view).2 >>=
          fun elements => pure (json.array elements))
          { s with world := (r.view_items s.world view).1 } ∧
      ∀ (j : json) (s' : run_state σ P I V W),
        write_array_open r rec_obj rec_arr view s = (outcome.ok j, s') →
        ∃ elements : List json,
          j = json.array elements ∧
          elements.length = (r.view_items s.world view).2.length ∧
          map_in_order (element_json r rec_obj rec_arr) (r.view_items s.world view).2
            { s with world := (r.view_items s.world view).1 } = (outcome.ok elements, s') := by
  have heq : write_array_open r rec_obj rec_arr view s =
      (map_in_order (element_json r rec_obj rec_arr) (r.view_items s.world view).2 >>=
        fun elements => pure (json.array elements))
        { s with world := (r.view_items s.world view).1 } := by
    unfold write_array_open
    rw [call_bind_apply, for_fold_write_array_item]
    simp
  refine ⟨heq, ?_⟩
  intro j s' h
  rw [heq, bind_pure_ok_iff] at h
  obtain ⟨js, hjs, rfl⟩ := h
  exact ⟨js, rfl, map_in_order_length _ _ _ _ _ hjs, hjs⟩

/-- C15. When the view reports `is_key_only_type()`, the array that
 `write_associative_container` builds is the list of the serializations of the
 keys alone (the second halves of the pairs do not enter the computation);
 otherwise it is the list of the objects with exactly the two members `key`
 and `value` made from each pair; in both cases, when the function returns,
 the array has one element per iterated item, in iteration order. -/
theorem write_associative_container_contract (r : reflection_out σ T P I V W A)
    (rec_var : V → M (run_state σ P I V W) json) (view : A)
    (s : run_state σ P I V W) :
    (r.is_key_only_type s.world view = true →
        write_associative_container_open r rec_var view s =
          (map_in_order rec_var ((r.assoc_items s.world view).2.map Prod.fst) >>=
            fun elements => pure (json.array elements))
            { s with world := (r.assoc_items s.world view).1 }) ∧
      (r.is_key_only_type s.world view = false →
        write_associative_container_open r rec_var view s =
          (map_in_order (key_value_json rec_var) (r.assoc_items s.world view).2 >>=
            fun elements => pure (json.array elements))
            { s with world := (r.assoc_items s.world view).1 }) ∧
      ∀ (j : json) (s' : run_state σ P I V W),
        write_associative_container_open r rec_var view s = (outcome.ok j, s') →
        ∃ elements : List json,
          j = json.array elements ∧
          elements.length = (r.assoc_items s.world view).2.length ∧
          (r.is_key_only_type s.world view = false →
            ∀ e, e ∈ elements →
              ∃ k v, e = json.object [(bytes "key", k), (bytes "value", v)]) := by
  have h1 : r.is_key_only_type s.world view = true →
      write_associative_container_open r rec_var view s =
        (map_in_order rec_var ((r.assoc_items s.world view).2.map Prod.fst) >>=
          fun elements => pure (json.array elements))
          { s with world := (r.assoc_items s.world view).1 } := by
    intro hk
    unfold write_associative_container_open
    rw [inspect_bind_apply, if_pos hk, call_bind_apply, for_fold_write_key_item]
    simp
  have h2 : r.is_key_only_type s.world view = false →
      write_associative_container_open r rec_var view s =
        (map_in_order (key_value_json rec_var) (r.assoc_items s.world view).2 >>=
          fun elements => pure (json.array elements))
          { s with world := (r.assoc_items s.world view).1 } := by
    intro hk
    unfold write_associative_container_open
    rw [inspect_bind_apply, if_neg (by simp [hk]), call_bind_apply,
      for_fold_write_key_value_item]
    simp
  refine ⟨h1, h2, ?_⟩
  intro j s' h
  cases hk : r.is_key_only_type s.world view with
  | true =>
    rw [h1 hk, bind_pure_ok_iff] at h
    obtain ⟨js, hjs, rfl⟩ := h
    refine ⟨js, rfl, ?_, fun hf => by cases hf⟩
    simpa using map_in_order_length _ _ _ _ _ hjs
  | false =>
    rw [h2 hk, bind_pure_ok_iff] at h
    obtain ⟨js, hjs, rfl⟩ := h
    refine ⟨js, rfl, map_in_order_length _ _ _ _ _ hjs, fun _ => ?_⟩
    exact map_in_order_forall _ _ (fun x s0 y s1 hx => key_value_json_shape rec_var x s0 y s1 hx)
      _ _ _ _ hjs

end

section
variable {σ T P I V W A S : Type} {α β γ : Type}

theorem returns_atomic_pure (j : json)
    (h : (j.is_string || j.is_number || j.is_boolean || j.is_null) = true) :
    returns_atomic (pure j : M (run_state σ P I V W) json) :=
  fun _ => ⟨j, rfl, h⟩

theorem returns_atomic_inspect (f : σ → α) (k : α → M (run_state σ P I V W) json)
    (h : ∀ a, returns_atomic (k a)) : returns_atomic (inspect f >>= k) :=
  fun s => h (f s.world) s

theorem returns_atomic_ite {c : Prop} [Decidable c] {a b : M (run_state σ P I V W) json}
    (ha : returns_atomic a) (hb : returns_atomic b) : returns_atomic (if c then a else b) := by
  split_ifs <;> assumption

theorem returns_atomic_write_integer (r : reflection_out σ T P I V W A) (var : V)
    (k : int_kind) : returns_atomic (write_integer r var k) := by
  unfold write_integer
  refine returns_atomic_inspect _ _ (fun a => returns_atomic_pure _ ?_)
  cases k <;> rfl

theorem returns_atomic_write_atomic [DecidableEq T] (r : reflection_out σ T P I V W A) (t : T)
    (var : V) : returns_atomic (write_atomic_types_to_json r t var) := by
  unfold write_atomic_types_to_json
  repeat' first
    | exact returns_atomic_write_integer r var _
    | exact returns_atomic_pure _ rfl
    | apply returns_atomic_ite
    | refine returns_atomic_inspect _ _ (fun _ => ?_)

theorem write_atomic_not_atomic_type [DecidableEq T] (r : reflection_out σ T P I V W A) (t : T)
    (var : V) (h1 : r.is_arithmetic t = false) (h2 : r.is_enumeration t = false)
    (h3 : t ≠ r.type_get cpp_type.std_string) :
    write_atomic_types_to_json r t var = pure json.null := by
  unfold write_atomic_types_to_json
  simp [h1, h2, h3]

theorem write_variant_open_eq [DecidableEq T] (r : reflection_out σ T P I V W A)
    (rec_obj : I → M (run_state σ P I V W) json)
    (rec_arr : W → M (run_state σ P I V W) json)
    (rec_assoc : A → M (run_state σ P I V W) json) (var : V) (s : run_state σ P I V W) :
    ∃ j s', write_variant_open r rec_obj rec_arr rec_assoc var s = (outcome.ok j, s') ∧
      s'.trace = s.trace ∧
      (j.is_string || j.is_number || j.is_boolean || j.is_null) = true ∧
      (∀ t, t = (if r.is_wrapper (r.variant_get_type s.world var)
            then r.get_wrapped_type (r.variant_get_type s.world var)
            else r.variant_get_type s.world var) →
          r.is_arithmetic t = false → r.is_enumeration t = false →
          t ≠ r.type_get cpp_type.std_string → j = json.null) := by
  unfold write_variant_open
  rw [inspect_bind_apply]
  simp only []
  set vt := r.variant_get_type s.world var with hvt
  set wt := (if r.is_wrapper vt then r.get_wrapped_type vt else vt) with hwt
  by_cases hw : wt = vt
  · have hd : decide (wt ≠ vt) = false := by simp [hw]
    simp only [hd, Bool.false_eq_true, if_false, M.pure_bind]
    obtain ⟨j, hj, hk⟩ := returns_atomic_write_atomic r vt var s
    rw [bind_eq_ok hj, if_pos hk]
    refine ⟨j, s, rfl, rfl, hk, ?_⟩
    intro t ht h1 h2 h3
    rw [hw] at ht
    subst ht
    rw [write_atomic_not_atomic_type r vt var h1 h2 h3] at hj
    cases hj
    rfl
  · have hd : decide (wt ≠ vt) = true := by simp [hw]
    simp only [hd, if_true]
    rw [call_bind_apply]
    obtain ⟨j, hj, hk⟩ := returns_atomic_write_atomic r wt (r.extract_wrapped_value s.world var).2
      { s with world := (r.extract_wrapped_value s.world var).1 }
    rw [bind_eq_ok hj, if_pos hk]
    refine ⟨j, _, rfl, rfl, hk, ?_⟩
    intro t ht h1 h2 h3
    subst ht
    rw [write_atomic_not_atomic_type r wt _ h1 h2 h3] at hj
    cases hj
    rfl

end

section
variable {σ T P I V W A S : Type} {α β γ : Type}

theorem mem_keys_insert_member (key : cstring) (value : json) (ms : List (cstring × json)) :
    key ∈ (insert_member key value ms).map Prod.fst ∧
      ∀ k, k ∈ ms.map Prod.fst → k ∈ (insert_member key value ms).map Prod.fst := by
  induction ms with
  | nil => simp [insert_member]
  | cons m rest ih =>
    obtain ⟨k0, v0⟩ := m
    by_cases h1 : k0 = key
    · subst h1
      simp [insert_member]
    · cases h2 : lexicographical_compare key k0 with
      | true =>
        simp only [insert_member, h1, h2, if_false, if_true]
        constructor
        · simp
        · intro k hk
          simp only [List.map_cons, List.mem_cons] at hk ⊢
          tauto
      | false =>
        simp only [insert_member, h1, h2, if_false, Bool.false_eq_true]
        constructor
        · simp only [List.map_cons, List.mem_cons]
          exact Or.inr ih.1
        · intro k hk
          simp only [List.map_cons, List.mem_cons] at hk ⊢
          rcases hk with hk | hk
          · exact Or.inl hk
          · exact Or.inr (ih.2 k hk)

theorem for_fold_append (xs ys : List α) (f : β → α → M S β) :
    ∀ acc, for_fold (xs ++ ys) acc f = (for_fold xs acc f >>= fun acc' => for_fold ys acc' f) := by
  induction xs with
  | nil => intro acc; rfl
  | cons x xs ih =>
    intro acc
    show (f acc x >>= fun a => for_fold (xs ++ ys) a f) =
      ((f acc x >>= fun a => for_fold xs a f) >>= fun acc' => for_fold ys acc' f)
    rw [M.bind_assoc]
    congr 1
    funext a
    exact ih a

theorem write_property_spec (r : reflection_out σ T P I V W A)
    (rec_var : V → M (run_state σ P I V W) json)
    (hfin : ∀ v s, (rec_var v s).1 ≠ outcome.out_of_fuel)
    (obj : I) (ms : List (cstring × json)) (prop : P) (s : run_state σ P I V W) :
    (serializable r rec_var obj prop s ∧ ∃ j s',
        write_property r rec_var obj (json.object ms) prop s =
          (outcome.ok (json.object (insert_member (r.get_name prop) j ms)), s')) ∨
      (¬ serializable r rec_var obj prop s ∧ ∃ s',
        write_property r rec_var obj (json.object ms) prop s =
          (outcome.ok (json.object ms), s')) := by
  unfold write_property
  rw [call_bind_apply, inspect_bind_apply]
  simp only []
  by_cases h1 : r.operator_bool (r.get_metadata s.world prop (bytes "NO_SERIALIZE")).1
      (r.get_metadata s.world prop (bytes "NO_SERIALIZE")).2 = true
  · right
    rw [if_pos h1]
    refine ⟨fun h => ?_, _, rfl⟩
    have h' : r.operator_bool (r.get_metadata s.world prop (bytes "NO_SERIALIZE")).1
        (r.get_metadata s.world prop (bytes "NO_SERIALIZE")).2 = false := h.1
    rw [h'] at h1
    cases h1
  · rw [if_neg h1, access_bind_apply, inspect_bind_apply]
    have h1f : r.operator_bool (r.get_metadata s.world prop (bytes "NO_SERIALIZE")).1
      (r.get_metadata s.world prop (bytes "NO_SERIALIZE")).2 = false := by
      simpa using h1
    simp only []
    by_cases h2 : r.operator_bool
        (r.prop_get_value (r.get_metadata s.world prop (bytes "NO_SERIALIZE")).1 prop obj).1
        (r.prop_get_value (r.get_metadata s.world prop (bytes "NO_SERIALIZE")).1 prop obj).2 = true
    · simp only [h2, Bool.not_true, Bool.false_eq_true, if_false]
      unfold try_catch
      rcases hr : rec_var
          (r.prop_get_value (r.get_metadata s.world prop (bytes "NO_SERIALIZE")).1 prop obj).2
          ⟨(r.prop_get_value (r.get_metadata s.world prop (bytes "NO_SERIALIZE")).1 prop obj).1,
            s.trace ++ [event.prop_get_value prop obj]⟩ with ⟨o, s1⟩
      cases o with
      | ok j =>
        left
        refine ⟨(⟨h1f, h2, j, s1, hr⟩ : serializable r rec_var obj prop s), j, s1, ?_⟩
        rw [bind_eq_ok hr]
        rfl
      | thrown e =>
        right
        refine ⟨fun h => ?_, s1, ?_⟩
        · have h' : ∃ j s', rec_var
              (r.prop_get_value (r.get_metadata s.world prop (bytes "NO_SERIALIZE")).1 prop obj).2
              ⟨(r.prop_get_value (r.get_metadata s.world prop (bytes "NO_SERIALIZE")).1 prop
                obj).1, s.trace ++ [event.prop_get_value prop obj]⟩ = (outcome.ok j, s') := h.2.2
          obtain ⟨j, s', hj⟩ := h'
          rw [hr] at hj
          cases hj
        · rw [bind_eq_thrown hr]
          rfl
      | out_of_fuel =>
        exact absurd (by rw [hr]) (hfin _ _)
    · right
      have h2f : r.operator_bool
        (r.prop_get_value (r.get_metadata s.world prop (bytes "NO_SERIALIZE")).1 prop obj).1
        (r.prop_get_value (r.get_metadata s.world prop (bytes "NO_SERIALIZE")).1 prop obj).2
          = false := by simpa using h2
      simp only [h2f, Bool.not_false, if_true]
      refine ⟨fun h => ?_, _, rfl⟩
      have h' : r.operator_bool
          (r.prop_get_value (r.get_metadata s.world prop (bytes "NO_SERIALIZE")).1 prop obj).1
          (r.prop_get_value (r.get_metadata s.world prop (bytes "NO_SERIALIZE")).1 prop obj).2
            = true := h.2.1
      rw [h'] at h2f
      cases h2f

theorem for_fold_write_property (r : reflection_out σ T P I V W A)
    (rec_var : V → M (run_state σ P I V W) json)
    (hfin : ∀ v s, (rec_var v s).1 ≠ outcome.out_of_fuel) (obj : I) (props : List P) :
    ∀ (ms : List (cstring × json)) (s : run_state σ P I V W),
      ∃ ms' s', for_fold props (json.object ms) (write_property r rec_var obj) s =
          (outcome.ok (json.object ms'), s') ∧
        ∀ k, k ∈ ms.map Prod.fst → k ∈ ms'.map Prod.fst := by
  induction props with
  | nil => intro ms s; exact ⟨ms, s, rfl, fun _ h => h⟩
  | cons p rest ih =>
    intro ms s
    show ∃ ms' s', (write_property r rec_var obj (json.object ms) p >>= fun a =>
      for_fold rest a (write_property r rec_var obj)) s = _ ∧ _
    rcases write_property_spec r rec_var hfin obj ms p s with ⟨_, j, s1, h⟩ | ⟨_, s1, h⟩
    · rw [bind_eq_ok h]
      obtain ⟨ms', s', h', hk⟩ := ih (insert_member (r.get_name p) j ms) s1
      exact ⟨ms', s', h', fun k hkm => hk k ((mem_keys_insert_member _ _ _).2 k hkm)⟩
    · rw [bind_eq_ok h]
      exact ih ms s1

/-- C11. Serialization continues past a failing property: whatever
 `write_variant` does for the single properties (return or throw),
 `to_json_recursively` returns a JSON object; a property that is not
 serializable (truthy `NO_SERIALIZE`, invalid value, or a throwing
 `write_variant`) leaves the object under construction as it was; and every
 property that is serializable when its turn comes has a member of its name in
 the resulting object, whatever happened to the properties before and after
 it. -/
theorem to_json_continues_past_failing_property (r : reflection_out σ T P I V W A)
    (rec_var : V → M (run_state σ P I V W) json)
    (hfin : ∀ v s, (rec_var v s).1 ≠ outcome.out_of_fuel) :
    (∀ (obj2 : I) (s : run_state σ P I V W), ∃ ms s',
        to_json_recursively_open r rec_var obj2 s = (outcome.ok (json.object ms), s')) ∧
      (∀ (obj : I) (ms : List (cstring × json)) (prop : P) (s : run_state σ P I V W),
        ¬ serializable r rec_var obj prop s →
        ∃ s', write_property r rec_var obj (json.object ms) prop s =
          (outcome.ok (json.object ms), s')) ∧
      (∀ (obj2 : I) (s : run_state σ P I V W) (before after : List P) (prop : P)
          (acc1 : json) (s1 : run_state σ P I V W),
        r.get_properties (r.get_derived_type s.world
          (wrapped_instance r.toreflection s.world obj2)) = before ++ prop :: after →
        for_fold before (json.object [])
          (write_property r rec_var (wrapped_instance r.toreflection s.world obj2)) s =
            (outcome.ok acc1, s1) →
        serializable r rec_var (wrapped_instance r.toreflection s.world obj2) prop s1 →
        ∃ ms s', to_json_recursively_open r rec_var obj2 s = (outcome.ok (json.object ms), s') ∧
          r.get_name prop ∈ ms.map Prod.fst) := by
  refine ⟨?_, ?_, ?_⟩
  · intro obj2 s
    obtain ⟨ms, s', h, _⟩ := for_fold_write_property r rec_var hfin
      (wrapped_instance r.toreflection s.world obj2)
      (r.get_properties (r.get_derived_type s.world
        (wrapped_instance r.toreflection s.world obj2))) [] s
    exact ⟨ms, s', h⟩
  · intro obj ms prop s hns
    rcases write_property_spec r rec_var hfin obj ms prop s with ⟨hs, _⟩ | ⟨_, h⟩
    · exact absurd hs hns
    · exact h
  · intro obj2 s before after prop acc1 s1 hprops hb hser
    unfold to_json_recursively_open
    simp only []
    rw [hprops]
    generalize wrapped_instance r.toreflection s.world obj2 = obj at hb hser ⊢
    obtain ⟨ms1, s1', hb', _⟩ := for_fold_write_property r rec_var hfin obj before [] s
    rw [hb] at hb'
    cases hb'
    rw [for_fold_append, bind_eq_ok hb]
    show ∃ ms s', (write_property r rec_var obj (json.object ms1) prop >>= fun a =>
      for_fold after a (write_property r rec_var obj)) s1 = _ ∧ _
    rcases write_property_spec r rec_var hfin obj ms1 prop s1 with ⟨_, j, s2, h⟩ | ⟨hn, _⟩
    · rw [bind_eq_ok h]
      obtain ⟨ms, s', h', hk⟩ := for_fold_write_property r rec_var hfin obj after
        (insert_member (r.get_name prop) j ms1) s2
      exact ⟨ms, s', h', hk _ (mem_keys_insert_member _ _ _).1⟩
    · exact absurd hser hn

theorem write_variant_finishes [DecidableEq T] (r : reflection_out σ T P I V W A) (fuel : Nat)
    (v : V) (s : run_state σ P I V W) :
    (write_variant r (fuel + 1) v s).1 ≠ outcome.out_of_fuel := by
  rw [write_variant]
  obtain ⟨j, s', h, _⟩ := write_variant_open_eq r (to_json_recursively r fuel)
    (write_array r fuel) (write_associative_container r fuel) v s
  rw [h]
  intro hc
  cases hc

/-- C17. For an invalid instance `io::to_json` returns the empty string and
 leaves the state of the program and the trace of accesses unchanged (no
 property is enumerated or read); for a valid instance
 `to_json_recursively` returns a JSON object and `io::to_json` returns what
 `dump(4)` gives for that object. -/
theorem to_json_invalid_or_dump [DecidableEq T] (r : reflection_out σ T P I V W A)
    (dump : json → Nat → Except exception cstring) (fuel : Nat) (obj : I)
    (s : run_state σ P I V W) :
    (r.inst_is_valid s.world obj = false → to_json r dump fuel obj s = (outcome.ok [], s)) ∧
      (r.inst_is_valid s.world obj = true →
        ∃ ms s', to_json_recursively r (fuel + 2) obj s = (outcome.ok (json.object ms), s') ∧
          to_json r dump (fuel + 2) obj s = lift_except (dump (json.object ms) 4) s') := by
  constructor
  · intro hv
    unfold to_json
    rw [inspect_bind_apply]
    simp [hv]
    rfl
  · intro hv
    obtain ⟨ms, s', h, _⟩ := for_fold_write_property r (write_variant r (fuel + 1))
      (write_variant_finishes r fuel) (wrapped_instance r.toreflection s.world obj)
      (r.get_properties (r.get_derived_type s.world
        (wrapped_instance r.toreflection s.world obj))) [] s
    have h' : to_json_recursively_open r (write_variant r (fuel + 1)) obj s =
        (outcome.ok (json.object ms), s') := h
    refine ⟨ms, s', ?_, ?_⟩
    · rw [to_json_recursively]
      exact h'
    · unfold to_json
      rw [inspect_bind_apply]
      simp only [hv, Bool.not_true, Bool.false_eq_true, if_false]
      rw [to_json_recursively, bind_eq_ok h']

end

end json_serialization

/-! ## Runs of the second small program -/

namespace json_serialization

theorem throwing_write_finishes (v : Nat) (s : run_state lab_state Nat Nat Nat Nat) :
    (throwing_write v s).1 ≠ outcome.out_of_fuel := by
  unfold throwing_write
  split
  · intro h; cases h
  · exact write_variant_finishes lab 0 v s

/-- C14 on a `std::vector<int32_t>` holding 1, 2, 3. -/
theorem write_array_preserves_length_and_order_witness :
    ∃ elements : List json,
      json.array [json.number_integer 1, json.number_integer 2, json.number_integer 3] =
        json.array elements ∧
      elements.length = (lab.view_items (lab_with (lab_value.vector [1, 2, 3])).world 0).2.length ∧
      map_in_order (element_json lab (to_json_recursively lab 0) (write_array lab 0))
        (lab.view_items (lab_with (lab_value.vector [1, 2, 3])).world 0).2
        { lab_with (lab_value.vector [1, 2, 3]) with
          world := (lab.view_items (lab_with (lab_value.vector [1, 2, 3])).world 0).1 } =
        (outcome.ok elements,
          (write_array_open lab (to_json_recursively lab 0) (write_array lab 0) 0
            (lab_with (lab_value.vector [1, 2, 3]))).2) :=
  (write_array_preserves_length_and_order lab (to_json_recursively lab 0) (write_array lab 0) 0
    (lab_with (lab_value.vector [1, 2, 3]))).2 _ _ rfl

/-- C15 on a `std::map<int32_t, int32_t>` holding 1 ↦ 2 and 3 ↦ 4. -/
theorem write_associative_container_contract_witness :
    ∃ elements : List json,
      json.array
          [json.object [(bytes "key", json.number_integer 1), (bytes "value", json.number_integer 2)],
           json.object [(bytes "key", json.number_integer 3), (bytes "value", json.number_integer 4)]] =
        json.array elements ∧
      elements.length =
        (lab.assoc_items (lab_with (lab_value.map [(1, 2), (3, 4)])).world 0).2.length ∧
      (lab.is_key_only_type (lab_with (lab_value.map [(1, 2), (3, 4)])).world 0 = false →
        ∀ e, e ∈ elements → ∃ k v, e = json.object [(bytes "key", k), (bytes "value", v)]) :=
  (write_associative_container_contract lab (write_variant lab 1) 0
    (lab_with (lab_value.map [(1, 2), (3, 4)]))).2.2 _
    (write_associative_container_open lab (write_variant lab 1) 0
      (lab_with (lab_value.map [(1, 2), (3, 4)]))).2 rfl

/-- C11 on the second small program, `write_variant` replaced by a stand-in that
 throws on the `std::string` property `title`: the object is left as it was by
 that property, and the later property `count` is in the result. -/
theorem to_json_continues_past_failing_property_witness :
    (∃ s', write_property lab throwing_write 0 (json.object []) 0 lab_start =
        (outcome.ok (json.object []), s')) ∧
      ∃ ms s', to_json_recursively_open lab throwing_write 0 lab_start =
          (outcome.ok (json.object ms), s') ∧
        lab.get_name 1 ∈ ms.map Prod.fst :=
  ⟨(to_json_continues_past_failing_property lab throwing_write throwing_write_finishes).2.1
      0 [] 0 lab_start (fun h => by
        obtain ⟨_, _, j, s', hj⟩ := h
        cases hj),
   (to_json_continues_past_failing_property lab throwing_write throwing_write_finishes).2.2
      0 lab_start [0] [2, 3, 4, 5, 6, 7] 1 _ _ rfl rfl ⟨rfl, rfl, _, _, rfl⟩⟩

/-- C17 on the second small program: an invalid instance (a variant that
 does not exist) gives the empty string, the object gives the dump of a JSON
 object. -/
theorem to_json_invalid_or_dump_witness :
    to_json lab dump_kind 0 1 lab_start = (outcome.ok [], lab_start) ∧
      ∃ ms s', to_json_recursively lab 2 0 lab_start = (outcome.ok (json.object ms), s') ∧
        to_json lab dump_kind 2 0 lab_start = lift_except (dump_kind (json.object ms) 4) s' :=
  ⟨(to_json_invalid_or_dump lab dump_kind 0 1 lab_start).1 rfl,
   (to_json_invalid_or_dump lab dump_kind 0 0 lab_start).2 rfl⟩

/-- C18 does not hold of the code: for a variant whose
 (unwrapped) type is not arithmetic, not an enumeration and not `std::string`,
 `write_atomic_types_to_json` returns `json{}`, which is the JSON `null`, and
 `write_variant` returns every `atomic_result` that `is_null()`; the value is
 written as `null` and none of `write_array`, `write_associative_container`
 and `to_json_recursively` is reached (nothing is accessed). -/
theorem write_variant_returns_null_for_containers {σ T P I V W A : Type} [DecidableEq T]
    (r : reflection_out σ T P I V W A) (fuel : Nat) (var : V) (s : run_state σ P I V W)
    (t : T)
    (ht : t = (if r.is_wrapper (r.variant_get_type s.world var)
      then r.get_wrapped_type (r.variant_get_type s.world var)
      else r.variant_get_type s.world var))
    (h1 : r.is_arithmetic t = false) (h2 : r.is_enumeration t = false)
    (h3 : t ≠ r.type_get cpp_type.std_string) :
    (write_variant r (fuel + 1) var s).1 = outcome.ok json.null ∧
      (write_variant r (fuel + 1) var s).2.trace = s.trace := by
  rw [write_variant]
  obtain ⟨j, s', h, htr, _, hnull⟩ := write_variant_open_eq r (to_json_recursively r fuel)
    (write_array r fuel) (write_associative_container r fuel) var s
  rw [h, hnull t ht h1 h2 h3]
  exact ⟨rfl, htr⟩

/-- C18 on a `std::vector<int32_t>` holding 1, 2, 3 and on a `std::set<int32_t>`
 holding 4, 5: both are containers, `write_variant` gives `null` for both, while
 `write_array` and `write_associative_container` over their views give the
 arrays. -/
theorem write_variant_returns_null_for_containers_witness :
    (lab.var_is_sequential_container (lab_with (lab_value.vector [1, 2, 3])).world 0 = true ∧
      ((write_variant lab 3 0 (lab_with (lab_value.vector [1, 2, 3]))).1 = outcome.ok json.null ∧
        (write_variant lab 3 0 (lab_with (lab_value.vector [1, 2, 3]))).2.trace = []) ∧
      (write_array lab 2 0 (lab_with (lab_value.vector [1, 2, 3]))).1 =
        outcome.ok (json.array [json.number_integer 1, json.number_integer 2,
          json.number_integer 3])) ∧
    (lab.var_is_associative_container (lab_with (lab_value.set [4, 5])).world 0 = true ∧
      ((write_variant lab 3 0 (lab_with (lab_value.set [4, 5]))).1 = outcome.ok json.null ∧
        (write_variant lab 3 0 (lab_with (lab_value.set [4, 5]))).2.trace = []) ∧
      (write_associative_container lab 2 0 (lab_with (lab_value.set [4, 5]))).1 =
        outcome.ok (json.array [json.number_integer 4, json.number_integer 5])) :=
  ⟨⟨rfl,
    write_variant_returns_null_for_containers lab 2 0 (lab_with (lab_value.vector [1, 2, 3]))
      lab_type.vector_int rfl rfl rfl (by decide),
    rfl⟩,
   ⟨rfl,
    write_variant_returns_null_for_containers lab 2 0 (lab_with (lab_value.set [4, 5]))
      lab_type.set_int rfl rfl rfl (by decide),
    rfl⟩⟩

/-- C19 does not hold of the code: `from_json` of the text
 `\x7b"fixed": [6, 7, 8]\x7d` into the object whose property `fixed` is a
 `std::array<int32_t, 2>` returns `true`; `write_array_recursively` calls
 `set_size(3)` and then `set_value` at the indices 0, 1 and 2 of the view of
 two elements; the view reports `set_size(3)` and `set_value(2, _)` as
 failures, the results are ignored, and the container holds 6, 7 afterwards
 (the third element is dropped). -/
theorem write_array_recursively_out_of_range :
    (from_json lab.toreflection parse_text (bytes "\x7b\"fixed\": [6, 7, 8]\x7d") 0
        lab_start).1 = outcome.ok true ∧
      (from_json lab.toreflection parse_text (bytes "\x7b\"fixed\": [6, 7, 8]\x7d") 0
        lab_start).2.trace =
        [event.prop_get_value 3 0, event.view_set_size 5 3, event.view_set_value 5 0 6,
          event.view_set_value 5 1 7, event.view_set_value 5 2 8] ∧
      lab_content (from_json lab.toreflection parse_text (bytes "\x7b\"fixed\": [6, 7, 8]\x7d") 0
        lab_start).2.world 5 = lab_value.array [6, 7] ∧
      (lab.set_size (from_json lab.toreflection parse_text
        (bytes "\x7b\"fixed\": [6, 7, 8]\x7d") 0 lab_start).2.world 5 3).2 = false ∧
      (lab.view_set_value (from_json lab.toreflection parse_text
        (bytes "\x7b\"fixed\": [6, 7, 8]\x7d") 0 lab_start).2.world 5 2 8).2 = false := by
  decide!

end json_serialization

/-! ## Arrays from JSON (`write_array_recursively`) -/

namespace json_serialization

section
variable {σ T P I V W S : Type} {α β : Type}

end

section
variable {σ T P I V W S : Type} {α β : Type}

theorem keeps_pure (inv : S → Prop) (a : α) : keeps inv (pure a : M S α) :=
  fun _ h => h

theorem keeps_bind {inv : S → Prop} {m : M S α} {f : α → M S β}
    (hm : keeps inv m) (hf : ∀ a, keeps inv (f a)) : keeps inv (m >>= f) := by
  intro s hs
  have h1 := hm s hs
  rcases hms : m s with ⟨o, s1⟩
  rw [hms] at h1
  cases o with
  | ok a => rw [bind_eq_ok hms]; exact hf a s1 h1
  | thrown e => rw [bind_eq_thrown hms]; exact h1
  | out_of_fuel => rw [bind_eq_out_of_fuel hms]; exact h1

theorem keeps_lift_except (inv : run_state σ P I V W → Prop) (x : Except exception α) :
    keeps inv (lift_except x : M (run_state σ P I V W) α) := by
  intro s hs
  cases x <;> exact hs

theorem keeps_ite {inv : S → Prop} {c : Prop} [Decidable c] {a b : M S α}
    (ha : keeps inv a) (hb : keeps inv b) : keeps inv (if c then a else b) := by
  split_ifs <;> assumption

theorem keeps_for_each (inv : S → Prop) (xs : List α) (body : α → M S Unit)
    (h : ∀ x, x ∈ xs → keeps inv (body x)) : keeps inv (for_each xs body) := by
  induction xs with
  | nil => exact keeps_pure inv ()
  | cons x xs ih =>
    exact keeps_bind (h x (List.mem_cons_self _ _))
      (fun _ => ih (fun y hy => h y (List.mem_cons_of_mem _ hy)))

end

end json_serialization

/-! ## Termination and frame of deserialization -/

namespace json_serialization

section
variable {σ T P I V W S : Type} {α β : Type}

theorem fromjson_body_eq [DecidableEq T] (r : reflection σ T P I V W)
    (rec_obj : I → json → M (run_state σ P I V W) Unit)
    (rec_arr : W → json → M (run_state σ P I V W) Unit) (obj : I) (j : json)
    (s : run_state σ P I V W) :
    fromjson_body r rec_obj rec_arr obj j s =
      for_each (r.get_properties (r.get_derived_type s.world (wrapped_instance r s.world obj)))
        (fromjson_property r rec_obj rec_arr (wrapped_instance r s.world obj) j) s := rfl

theorem write_array_body_eq (r : reflection σ T P I V W)
    (rec_obj : I → json → M (run_state σ P I V W) Unit)
    (rec_arr : W → json → M (run_state σ P I V W) Unit) (view : W) (j : json) :
    write_array_body r rec_obj rec_arr view j =
      (access (event.view_set_size view j.size) (fun w => r.set_size w view j.size) >>= fun _ =>
        read r.get_value_type view >>= fun t =>
          for_each (List.range j.size) (write_array_element r rec_obj rec_arr view j t)) := rfl

theorem for_each_congr (xs : List α) (f g : α → M S Unit) (h : ∀ x, x ∈ xs → f x = g x) :
    for_each xs f = for_each xs g := by
  induction xs with
  | nil => rfl
  | cons x xs ih =>
    show M.bind (f x) (fun _ => for_each xs f) = M.bind (g x) (fun _ => for_each xs g)
    rw [h x (List.mem_cons_self _ _), ih (fun y hy => h y (List.mem_cons_of_mem _ hy))]

theorem write_array_element_congr (r : reflection σ T P I V W)
    (ro ro' : I → json → M (run_state σ P I V W) Unit)
    (ra ra' : W → json → M (run_state σ P I V W) Unit) (view : W) (j : json) (t : T) (i : Nat)
    (hobj : ∀ obj j', j'.depth < j.depth → ro obj j' = ro' obj j')
    (harr : ∀ w j', j'.depth < j.depth → ra w j' = ra' w j') :
    write_array_element r ro ra view j t i = write_array_element r ro' ra' view j t i := by
  unfold write_array_element
  simp only []
  rcases at_index_depth j i with h | h
  · rw [h]
    rfl
  · split_ifs
    · simp only [harr _ _ h]
    · simp only [hobj _ _ h]
    · rfl

theorem fromjson_property_congr [DecidableEq T] (r : reflection σ T P I V W)
    (ro ro' : I → json → M (run_state σ P I V W) Unit)
    (ra ra' : W → json → M (run_state σ P I V W) Unit) (obj : I) (j : json) (prop : P)
    (hobj : ∀ obj j', j'.depth < j.depth → ro obj j' = ro' obj j')
    (harr : ∀ w j', j'.depth < j.depth → ra w j' = ra' w j') :
    fromjson_property r ro ra obj j prop = fromjson_property r ro' ra' obj j prop := by
  unfold fromjson_property
  simp only []
  rcases at_key_depth j (r.get_name prop) with h | h
  · rw [h]
  · cases hv : j.at_key (r.get_name prop) with
    | array items =>
      rw [hv] at h
      simp only [harr _ _ h]
    | object members =>
      rw [hv] at h
      simp only [hobj _ _ h]
    | null => rfl
    | boolean b => rfl
    | number_integer n => rfl
    | number_unsigned n => rfl
    | number_float x => rfl
    | string x => rfl

theorem fuel_step [DecidableEq T] (r : reflection σ T P I V W) (fuel : Nat) :
    (∀ (obj : I) (j : json), j.depth < fuel →
        fromjson_recursively r fuel obj j = fromjson_recursively r (fuel + 1) obj j) ∧
      (∀ (view : W) (j : json), j.depth < fuel →
        write_array_recursively r fuel view j = write_array_recursively r (fuel + 1) view j) := by
  induction fuel with
  | zero => exact ⟨fun _ _ h => absurd h (Nat.not_lt_zero _), fun _ _ h => absurd h (Nat.not_lt_zero _)⟩
  | succ fuel ih =>
    constructor
    · intro obj j hj
      funext s
      rw [fromjson_recursively, fromjson_recursively, fromjson_body_eq, fromjson_body_eq]
      rw [for_each_congr _ _ _ (fun prop _ => fromjson_property_congr r _ _ _ _ _ j prop
        (fun i j' h => ih.1 i j' (by omega)) (fun w j' h => ih.2 w j' (by omega)))]
    · intro view j hj
      rw [write_array_recursively, write_array_recursively, write_array_body_eq,
        write_array_body_eq]
      have key : ∀ t, for_each (List.range j.size)
          (write_array_element r (fromjson_recursively r fuel) (write_array_recursively r fuel)
            view j t) =
          for_each (List.range j.size)
            (write_array_element r (fromjson_recursively r (fuel + 1))
              (write_array_recursively r (fuel + 1)) view j t) := fun t =>
        for_each_congr _ _ _ (fun i _ => write_array_element_congr r _ _ _ _ view j t i
          (fun i j' h => ih.1 i j' (by omega)) (fun w j' h => ih.2 w j' (by omega)))
      simp only [key]

theorem fuel_enough [DecidableEq T] (r : reflection σ T P I V W) (j : json) (extra : Nat) :
    (∀ obj : I, fromjson_recursively r (j.depth + 1 + extra) obj j =
        fromjson_recursively r (j.depth + 1) obj j) ∧
      (∀ view : W, write_array_recursively r (j.depth + 1 + extra) view j =
        write_array_recursively r (j.depth + 1) view j) := by
  induction extra with
  | zero => exact ⟨fun _ => rfl, fun _ => rfl⟩
  | succ extra ih =>
    constructor
    · intro obj
      rw [← ih.1 obj]
      exact ((fuel_step r (j.depth + 1 + extra)).1 obj j (by omega)).symm
    · intro view
      rw [← ih.2 view]
      exact ((fuel_step r (j.depth + 1 + extra)).2 view j (by omega)).symm

end

section
variable {σ T P I V W S : Type} {α β : Type}

theorem quiet_pure (allowed : event P I V W → Prop) (a : α) :
    quiet allowed (pure a : M (run_state σ P I V W) α) :=
  fun _ => ⟨[], by simp [pure], fun _ h => by cases h⟩

theorem quiet_bind {allowed : event P I V W → Prop} {m : M (run_state σ P I V W) α}
    {f : α → M (run_state σ P I V W) β}
    (hm : quiet allowed m) (hf : ∀ a, quiet allowed (f a)) : quiet allowed (m >>= f) := by
  intro s
  obtain ⟨r1, h1, g1⟩ := hm s
  rcases hms : m s with ⟨o, s1⟩
  rw [hms] at h1
  cases o with
  | ok a =>
    rw [bind_eq_ok hms]
    obtain ⟨r2, h2, g2⟩ := hf a s1
    refine ⟨r1 ++ r2, by rw [h2]; simp only at h1; rw [h1, List.append_assoc], fun e he => ?_⟩
    rcases List.mem_append.mp he with h | h
    · exact g1 e h
    · exact g2 e h
  | thrown e => rw [bind_eq_thrown hms]; exact ⟨r1, h1, g1⟩
  | out_of_fuel => rw [bind_eq_out_of_fuel hms]; exact ⟨r1, h1, g1⟩

theorem quiet_lift_except (allowed : event P I V W → Prop) (x : Except exception α) :
    quiet allowed (lift_except x : M (run_state σ P I V W) α) := by
  intro s
  cases x <;> exact ⟨[], by simp [lift_except], fun _ h => by cases h⟩

theorem quiet_call (allowed : event P I V W → Prop) (f : σ → σ × α) :
    quiet allowed (call f : M (run_state σ P I V W) α) :=
  fun _ => ⟨[], by simp [call], fun _ h => by cases h⟩

theorem quiet_access {allowed : event P I V W → Prop} (ev : event P I V W) (f : σ → σ × α)
    (h : allowed ev) : quiet allowed (access ev f : M (run_state σ P I V W) α) :=
  fun _ => ⟨[ev], by simp [access], fun e he => by
    rw [List.mem_singleton] at he
    rw [he]
    exact h⟩

theorem quiet_read (allowed : event P I V W → Prop) (f : σ → W → T) (w : W) :
    quiet allowed (read f w : M (run_state σ P I V W) T) :=
  fun _ => ⟨[], by simp [read], fun _ h => by cases h⟩

theorem quiet_ite {allowed : event P I V W → Prop} {c : Prop} [Decidable c]
    {a b : M (run_state σ P I V W) α}
    (ha : quiet allowed a) (hb : quiet allowed b) : quiet allowed (if c then a else b) := by
  split_ifs <;> assumption

theorem quiet_for_each (allowed : event P I V W → Prop) (xs : List α)
    (body : α → M (run_state σ P I V W) Unit)
    (h : ∀ x, x ∈ xs → quiet allowed (body x)) : quiet allowed (for_each xs body) := by
  induction xs with
  | nil => exact quiet_pure allowed ()
  | cons x xs ih =>
    exact quiet_bind (h x (List.mem_cons_self _ _))
      (fun _ => ih (fun y hy => h y (List.mem_cons_of_mem _ hy)))

theorem quiet_extract_basic_types (allowed : event P I V W → Prop) (r : reflection σ T P I V W)
    (j : json) : quiet allowed (extract_basic_types r j) := by
  unfold extract_basic_types
  repeat' first
    | exact quiet_call _ _
    | exact quiet_bind (quiet_lift_except _ _) (fun _ => quiet_call _ _)
    | apply quiet_ite

theorem quiet_extract_value [DecidableEq T] (allowed : event P I V W → Prop)
    (r : reflection σ T P I V W) (j : json) (t : T) :
    quiet allowed (extract_value r j t) := by
  unfold extract_value extract_integer extract_floating
  repeat' first
    | exact quiet_call _ _
    | exact quiet_bind (quiet_lift_except _ _) (fun _ => quiet_call _ _)
    | apply quiet_ite

theorem quiet_write_array_element {allowed : event P I V W → Prop} (r : reflection σ T P I V W)
    (ro : I → json → M (run_state σ P I V W) Unit)
    (ra : W → json → M (run_state σ P I V W) Unit) (view : W) (j : json) (t : T) (i : Nat)
    (hview : ∀ e : event P I V W, e.is_view_access = true → allowed e)
    (hobj : (j.at_index i).is_object = true → ∀ obj, quiet allowed (ro obj (j.at_index i)))
    (harr : (j.at_index i).is_array = true → ∀ w, quiet allowed (ra w (j.at_index i))) :
    quiet allowed (write_array_element r ro ra view j t i) := by
  unfold write_array_element
  simp only []
  split_ifs with h1 h2
  · exact quiet_bind (quiet_access _ _ (hview _ rfl)) (fun _ =>
      quiet_bind (quiet_call _ _) (fun _ => harr h1 _))
  · exact quiet_bind (quiet_access _ _ (hview _ rfl)) (fun _ =>
      quiet_bind (quiet_call _ _) (fun _ =>
        quiet_bind (hobj h2 _) (fun _ =>
          quiet_bind (quiet_access _ _ (hview _ rfl)) (fun _ => quiet_pure _ ()))))
  · exact quiet_bind (quiet_extract_basic_types _ r _) (fun _ =>
      quiet_bind (quiet_call _ _) (fun c => by
        cases c
        · exact quiet_pure _ ()
        · exact quiet_bind (quiet_access _ _ (hview _ rfl)) (fun _ => quiet_pure _ ())))

theorem quiet_write_array_body {allowed : event P I V W → Prop} (r : reflection σ T P I V W)
    (ro : I → json → M (run_state σ P I V W) Unit)
    (ra : W → json → M (run_state σ P I V W) Unit) (view : W) (j : json)
    (hview : ∀ e : event P I V W, e.is_view_access = true → allowed e)
    (hobj : ∀ i, (j.at_index i).is_object = true → ∀ obj, quiet allowed (ro obj (j.at_index i)))
    (harr : ∀ i, (j.at_index i).is_array = true → ∀ w, quiet allowed (ra w (j.at_index i))) :
    quiet allowed (write_array_body r ro ra view j) := by
  rw [write_array_body_eq]
  exact quiet_bind (quiet_access _ _ (hview _ rfl)) (fun _ =>
    quiet_bind (quiet_read _ _ _) (fun t =>
      quiet_for_each _ _ _ (fun i _ =>
        quiet_write_array_element r ro ra view j t i hview (hobj i) (harr i))))

theorem peek_bind_apply (f : run_state σ P I V W → α) (k : α → M (run_state σ P I V W) β)
    (s : run_state σ P I V W) :
    ((fun s => (outcome.ok (f s), s) : M (run_state σ P I V W) α) >>= k) s = k (f s) s := rfl

end

section
variable {σ T P I V W S : Type} {α β : Type}

/-- C22. Deserialization terminates: with a recursion budget above the
 nesting depth of the JSON value, `fromjson_recursively` and
 `write_array_recursively` never use the budget up, and every larger budget
 gives the same result in the same state (the result does not depend on the
 budget); the recursive calls are made on `json_object[name]` and on
 `json_array_value[i]` when these are arrays or objects, and such a value is
 nested strictly less deeply than the value it is taken from. -/
theorem deserialization_terminates [DecidableEq T] (r : reflection σ T P I V W) (j : json)
    (fuel : Nat) (hfuel : j.depth < fuel) :
    (∀ (obj : I) (s : run_state σ P I V W),
        (fromjson_recursively r fuel obj j s).1 ≠ outcome.out_of_fuel ∧
        fromjson_recursively r fuel obj j s = fromjson_recursively r (j.depth + 1) obj j s) ∧
      (∀ (view : W) (s : run_state σ P I V W),
        (write_array_recursively r fuel view j s).1 ≠ outcome.out_of_fuel ∧
        write_array_recursively r fuel view j s =
          write_array_recursively r (j.depth + 1) view j s) ∧
      (∀ key, (j.at_key key).is_array = true ∨ (j.at_key key).is_object = true →
        (j.at_key key).depth < j.depth) ∧
      (∀ i, (j.at_index i).is_array = true ∨ (j.at_index i).is_object = true →
        (j.at_index i).depth < j.depth) := by
  obtain ⟨extra, rfl⟩ : ∃ extra, fuel = j.depth + 1 + extra := ⟨fuel - (j.depth + 1), by omega⟩
  refine ⟨fun obj s => ⟨(finishes_recursion r _).1 obj j hfuel s, ?_⟩,
    fun view s => ⟨(finishes_recursion r _).2 view j hfuel s, ?_⟩, fun key h => ?_, fun i h => ?_⟩
  · rw [(fuel_enough r j extra).1 obj]
  · rw [(fuel_enough r j extra).2 view]
  · rcases at_key_depth j key with h0 | h0
    · rw [h0] at h
      rcases h with h | h <;> cases h
    · exact h0
  · rcases at_index_depth j i with h0 | h0
    · rw [h0] at h
      rcases h with h | h <;> cases h
    · exact h0

/-- C22 on the second small program and the JSON value
 `\x7b"list": [1, [2]]\x7d` of depth 3 with the budget 5. -/
theorem deserialization_terminates_witness :
    (fromjson_recursively lab.toreflection 5 0
        (json.object [(bytes "list", json.array [json.number_integer 1,
          json.array [json.number_integer 2]])]) lab_start).1 ≠ outcome.out_of_fuel ∧
      fromjson_recursively lab.toreflection 5 0
        (json.object [(bytes "list", json.array [json.number_integer 1,
          json.array [json.number_integer 2]])]) lab_start =
      fromjson_recursively lab.toreflection
        ((json.object [(bytes "list", json.array [json.number_integer 1,
          json.array [json.number_integer 2]])]).depth + 1) 0
        (json.object [(bytes "list", json.array [json.number_integer 1,
          json.array [json.number_integer 2]])]) lab_start :=
  (deserialization_terminates lab.toreflection
    (json.object [(bytes "list", json.array [json.number_integer 1,
      json.array [json.number_integer 2]])]) 5 (by decide)).1 0 lab_start

end

section
variable {σ T P I V W S : Type} {α β : Type}

theorem quiet_nothing {m : M (run_state σ P I V W) α} (h : quiet (fun _ => False) m)
    (s : run_state σ P I V W) : (m s).2.trace = s.trace := by
  obtain ⟨rest, h1, h2⟩ := h s
  cases rest with
  | nil => simpa using h1
  | cons e rest => exact absurd (h2 e (List.mem_cons_self _ _)) id

theorem keeps_call_obs {X : Type} (obs : σ → X) (x : X) (f : σ → σ × α)
    (hf : ∀ w, obs (f w).1 = obs w) :
    keeps (fun t : run_state σ P I V W => obs t.world = x) (call f) :=
  fun s hs => (hf s.world).trans hs

theorem keeps_access_obs {X : Type} (obs : σ → X) (x : X) (ev : event P I V W) (f : σ → σ × α)
    (hf : ∀ w, obs (f w).1 = obs w) :
    keeps (fun t : run_state σ P I V W => obs t.world = x) (access ev f) :=
  fun s hs => (hf s.world).trans hs

theorem keeps_extract_basic_types {X : Type} (r : reflection σ T P I V W) (obs : σ → X)
    (hobs : variant_frame r obs) (x : X) (j : json) :
    keeps (fun t : run_state σ P I V W => obs t.world = x) (extract_basic_types r j) := by
  unfold extract_basic_types
  repeat' first
    | exact keeps_call_obs obs x _ (fun w => hobs.make_variant_same w _)
    | exact keeps_call_obs obs x _ (fun w => hobs.make_invalid_same w)
    | exact keeps_bind (keeps_lift_except _ _) (fun _ =>
        keeps_call_obs obs x _ (fun w => hobs.make_variant_same w _))
    | apply keeps_ite

theorem keeps_extract_value [DecidableEq T] {X : Type} (r : reflection σ T P I V W)
    (obs : σ → X) (hobs : variant_frame r obs) (x : X) (j : json) (t : T) :
    keeps (fun t : run_state σ P I V W => obs t.world = x) (extract_value r j t) := by
  unfold extract_value extract_integer extract_floating
  repeat' first
    | exact keeps_call_obs obs x _ (fun w => hobs.make_variant_same w _)
    | exact keeps_call_obs obs x _ (fun w => hobs.make_invalid_same w)
    | exact keeps_call_obs obs x _ (fun w => hobs.name_to_value_same w _ _)
    | exact keeps_bind (keeps_lift_except _ _) (fun _ =>
        keeps_call_obs obs x _ (fun w => hobs.make_variant_same w _))
    | exact keeps_bind (keeps_lift_except _ _) (fun _ =>
        keeps_call_obs obs x _ (fun w => hobs.name_to_value_same w _ _))
    | apply keeps_ite

theorem fromjson_property_scalar [DecidableEq T] (r : reflection σ T P I V W)
    (ro : I → json → M (run_state σ P I V W) Unit)
    (ra : W → json → M (run_state σ P I V W) Unit) (obj : I) (j : json) (prop : P)
    (s : run_state σ P I V W)
    (hmeta : r.operator_bool (r.get_metadata s.world prop (bytes "NO_SERIALIZE")).1
        (r.get_metadata s.world prop (bytes "NO_SERIALIZE")).2 = false)
    (hcont : j.contains (r.get_name prop) = true)
    (harr : (j.at_key (r.get_name prop)).is_array = false)
    (hobj : (j.at_key (r.get_name prop)).is_object = false) :
    fromjson_property r ro ra obj j prop s =
      (extract_value r (j.at_key (r.get_name prop))
          (if r.is_wrapper (r.prop_get_type prop) then r.get_wrapped_type (r.prop_get_type prop)
            else r.prop_get_type prop) >>= fun extracted_value =>
        call (fun w => r.convert w extracted_value (r.prop_get_type prop)) >>= fun converted =>
          if converted then
            access (event.prop_set_value prop obj extracted_value)
              (fun w => r.prop_set_value w prop obj extracted_value) >>= fun _ => pure ()
          else pure ())
        ⟨(r.get_metadata s.world prop (bytes "NO_SERIALIZE")).1, s.trace⟩ := by
  unfold fromjson_property
  rw [call_bind_apply, peek_bind_apply]
  simp only [hmeta, hcont, Bool.false_eq_true, if_false, Bool.not_true]
  cases hv : j.at_key (r.get_name prop) with
  | array items => rw [hv] at harr; cases harr
  | object members => rw [hv] at hobj; cases hobj
  | null => rfl
  | boolean b => rfl
  | number_integer n => rfl
  | number_unsigned n => rfl
  | number_float x => rfl
  | string x => rfl

theorem fromjson_property_array [DecidableEq T] (r : reflection σ T P I V W)
    (ro : I → json → M (run_state σ P I V W) Unit)
    (ra : W → json → M (run_state σ P I V W) Unit) (obj : I) (j : json) (prop : P)
    (s : run_state σ P I V W) (items : List json)
    (hmeta : r.operator_bool (r.get_metadata s.world prop (bytes "NO_SERIALIZE")).1
        (r.get_metadata s.world prop (bytes "NO_SERIALIZE")).2 = false)
    (hcont : j.contains (r.get_name prop) = true)
    (hv : j.at_key (r.get_name prop) = json.array items) :
    fromjson_property r ro ra obj j prop s =
      (call r.make_invalid >>= fun _ =>
        if r.is_sequential_container (r.prop_get_type prop) then
          access (event.prop_get_value prop obj) (fun w => r.prop_get_value w prop obj) >>=
            fun var => call (fun w => r.create_sequential_view w var) >>= fun view =>
              ra view (json.array items)
        else pure ())
        ⟨(r.get_metadata s.world prop (bytes "NO_SERIALIZE")).1, s.trace⟩ := by
  unfold fromjson_property
  rw [call_bind_apply, peek_bind_apply]
  simp only [hmeta, hcont, Bool.false_eq_true, if_false, Bool.not_true, hv]

theorem scalar_items_at_index (j : json) (h : scalar_items j) (i : Nat) :
    (j.at_index i).is_array = false ∧ (j.at_index i).is_object = false := by
  by_cases hi : i < j.size
  · exact h i hi
  · cases j with
    | array items =>
      have : (json.array items).at_index i = json.null := by
        simp only [json.at_index, json.size] at hi ⊢
        exact List.getD_eq_default _ _ (not_lt.mp hi)
      rw [this]
      exact ⟨rfl, rfl⟩
    | _ => exact ⟨rfl, rfl⟩

end

section
variable {σ T P I V W S : Type} {α β : Type}

/-- C21. A failed conversion leaves the target unchanged and does not stop
 deserialization. In the scalar case of `fromjson_recursively` and for a
 scalar element of `write_array_recursively`: when the value was extracted and
 `convert` to the type of the property (of the elements) returns false, the
 pass of the loop ends normally with the trace of accesses unchanged
 (`set_value` is not called) in the state that `convert` has left, the loop
 goes on with the remaining properties (elements) from that state, and
 whatever the creation and conversion of variants leave alone (`obs`) is as it
 was before the pass. -/
theorem failed_conversion_keeps_target [DecidableEq T] (r : reflection σ T P I V W)
    (ro : I → json → M (run_state σ P I V W) Unit)
    (ra : W → json → M (run_state σ P I V W) Unit) :
    (∀ (obj : I) (j : json) (prop : P) (s : run_state σ P I V W) (v : V)
        (s1 : run_state σ P I V W),
        r.operator_bool (r.get_metadata s.world prop (bytes "NO_SERIALIZE")).1
          (r.get_metadata s.world prop (bytes "NO_SERIALIZE")).2 = false →
        j.contains (r.get_name prop) = true →
        (j.at_key (r.get_name prop)).is_array = false →
        (j.at_key (r.get_name prop)).is_object = false →
        extract_value r (j.at_key (r.get_name prop))
          (if r.is_wrapper (r.prop_get_type prop) then r.get_wrapped_type (r.prop_get_type prop)
            else r.prop_get_type prop)
          ⟨(r.get_metadata s.world prop (bytes "NO_SERIALIZE")).1, s.trace⟩ = (outcome.ok v, s1) →
        (r.convert s1.world v (r.prop_get_type prop)).2 = false →
        fromjson_property r ro ra obj j prop s =
            (outcome.ok (), ⟨(r.convert s1.world v (r.prop_get_type prop)).1, s.trace⟩) ∧
          (∀ rest, for_each (prop :: rest) (fromjson_property r ro ra obj j) s =
            for_each rest (fromjson_property r ro ra obj j)
              ⟨(r.convert s1.world v (r.prop_get_type prop)).1, s.trace⟩) ∧
          ∀ (X : Type) (obs : σ → X), variant_frame r obs →
            obs (r.convert s1.world v (r.prop_get_type prop)).1 = obs s.world) ∧
      (∀ (view : W) (j : json) (t : T) (i : Nat) (s : run_state σ P I V W) (v : V)
        (s1 : run_state σ P I V W),
        (j.at_index i).is_array = false →
        (j.at_index i).is_object = false →
        extract_basic_types r (j.at_index i) s = (outcome.ok v, s1) →
        (r.convert s1.world v t).2 = false →
        write_array_element r ro ra view j t i s =
            (outcome.ok (), ⟨(r.convert s1.world v t).1, s.trace⟩) ∧
          (∀ rest, for_each (i :: rest) (write_array_element r ro ra view j t) s =
            for_each rest (write_array_element r ro ra view j t)
              ⟨(r.convert s1.world v t).1, s.trace⟩) ∧
          ∀ (X : Type) (obs : σ → X), variant_frame r obs →
            obs (r.convert s1.world v t).1 = obs s.world) := by
  constructor
  · intro obj j prop s v s1 hmeta hcont harr hobj hext hconv
    have htr : s1.trace = s.trace := by
      have h := quiet_nothing (quiet_extract_value (fun _ => False) r
        (j.at_key (r.get_name prop))
        (if r.is_wrapper (r.prop_get_type prop) then r.get_wrapped_type (r.prop_get_type prop)
          else r.prop_get_type prop))
        ⟨(r.get_metadata s.world prop (bytes "NO_SERIALIZE")).1, s.trace⟩
      rw [hext] at h
      exact h
    have hpass : fromjson_property r ro ra obj j prop s =
        (outcome.ok (), ⟨(r.convert s1.world v (r.prop_get_type prop)).1, s.trace⟩) := by
      rw [fromjson_property_scalar r ro ra obj j prop s hmeta hcont harr hobj, bind_eq_ok hext,
        call_bind_apply]
      simp only [hconv, Bool.false_eq_true, if_false, htr]
      rfl
    refine ⟨hpass, fun rest => ?_, fun X obs hobs => ?_⟩
    · show (fromjson_property r ro ra obj j prop >>= fun _ =>
        for_each rest (fromjson_property r ro ra obj j)) s = _
      rw [bind_eq_ok hpass]
    · have h := keeps_extract_value r obs hobs (obs s.world) (j.at_key (r.get_name prop))
        (if r.is_wrapper (r.prop_get_type prop) then r.get_wrapped_type (r.prop_get_type prop)
          else r.prop_get_type prop)
        ⟨(r.get_metadata s.world prop (bytes "NO_SERIALIZE")).1, s.trace⟩
        (hobs.get_metadata_same _ _ _)
      rw [hext] at h
      exact (hobs.convert_same _ _ _).trans h
  · intro view j t i s v s1 harr hobj hext hconv
    have htr : s1.trace = s.trace := by
      have h := quiet_nothing (quiet_extract_basic_types (fun _ => False) r (j.at_index i)) s
      rw [hext] at h
      exact h
    have hpass : write_array_element r ro ra view j t i s =
        (outcome.ok (), ⟨(r.convert s1.world v t).1, s.trace⟩) := by
      unfold write_array_element
      simp only [harr, hobj, Bool.false_eq_true, if_false]
      rw [bind_eq_ok hext, call_bind_apply]
      simp only [hconv, Bool.false_eq_true, if_false, htr]
      rfl
    refine ⟨hpass, fun rest => ?_, fun X obs hobs => ?_⟩
    · show (write_array_element r ro ra view j t i >>= fun _ =>
        for_each rest (write_array_element r ro ra view j t)) s = _
      rw [bind_eq_ok hpass]
    · have h := keeps_extract_basic_types r obs hobs (obs s.world) (j.at_index i) s rfl
      rw [hext] at h
      exact (hobs.convert_same _ _ _).trans h

theorem lab_variant_frame : variant_frame lab.toreflection lab_object where
  get_metadata_same := by
    intro w p k
    simp only [lab]
    split_ifs <;> rfl
  make_variant_same := fun _ _ => rfl
  make_invalid_same := fun _ => rfl
  name_to_value_same := fun _ _ _ => rfl
  convert_same := by
    intro w v t
    simp only [lab, lab_convert]
    split_ifs
    · rfl
    · rfl
    · split
      · split_ifs <;> rfl
      · rfl

theorem lab_view_frame : view_frame lab.toreflection lab_object where
  variants := lab_variant_frame
  prop_get_value_same := by
    intro w p i
    simp only [lab]
    split_ifs <;> rfl
  create_sequential_view_same := fun _ _ => rfl
  set_size_same := by
    intro w view n
    simp only [lab]
    split <;> rfl
  view_set_value_same := by
    intro w view i v
    simp only [lab]
    split
    · split_ifs <;> rfl
    · split_ifs <;> rfl
    · rfl

/-- C21 on the second small program. The property `tags` (a `std::set`) meets
 the JSON number 5 in `\x7b"tags": 5, "count": 9\x7d`: the conversion fails, no
 access is made, the object is as before and the loop goes on with `count`.
 Element 1 of `[1, null, 3]` written to a `std::vector<int32_t>`: the same. -/
theorem failed_conversion_keeps_target_witness :
    (∃ w, fromjson_property lab.toreflection (fromjson_recursively lab.toreflection 0)
          (write_array_recursively lab.toreflection 0) 0
          (json.object [(bytes "tags", json.number_integer 5),
            (bytes "count", json.number_integer 9)]) 4 lab_start = (outcome.ok (), ⟨w, []⟩) ∧
        lab_object w = lab_object lab_start.world ∧
        for_each [4, 1] (fromjson_property lab.toreflection
          (fromjson_recursively lab.toreflection 0) (write_array_recursively lab.toreflection 0) 0
          (json.object [(bytes "tags", json.number_integer 5),
            (bytes "count", json.number_integer 9)])) lab_start =
        for_each [1] (fromjson_property lab.toreflection
          (fromjson_recursively lab.toreflection 0) (write_array_recursively lab.toreflection 0) 0
          (json.object [(bytes "tags", json.number_integer 5),
            (bytes "count", json.number_integer 9)])) ⟨w, []⟩) ∧
      ∃ w, write_array_element lab.toreflection (fromjson_recursively lab.toreflection 0)
          (write_array_recursively lab.toreflection 0) 0
          (json.array [json.number_integer 1, json.null, json.number_integer 3])
          (lab_type.cpp (cpp_type.integer int_kind.int32_t)) 1
          (lab_with (lab_value.vector [10, 20, 30])) = (outcome.ok (), ⟨w, []⟩) ∧
        lab_object w = lab_object (lab_with (lab_value.vector [10, 20, 30])).world := by
  have h1 := (failed_conversion_keeps_target lab.toreflection
    (fromjson_recursively lab.toreflection 0) (write_array_recursively lab.toreflection 0)).1 0
    (json.object [(bytes "tags", json.number_integer 5), (bytes "count", json.number_integer 9)])
    4 lab_start _ _ rfl rfl rfl rfl rfl rfl
  have h2 := (failed_conversion_keeps_target lab.toreflection
    (fromjson_recursively lab.toreflection 0) (write_array_recursively lab.toreflection 0)).2 0
    (json.array [json.number_integer 1, json.null, json.number_integer 3])
    (lab_type.cpp (cpp_type.integer int_kind.int32_t)) 1
    (lab_with (lab_value.vector [10, 20, 30])) _ _ rfl rfl rfl rfl
  exact ⟨⟨_, h1.1, h1.2.2 _ lab_object lab_variant_frame, h1.2.1 [1]⟩,
    ⟨_, h2.1, h2.2.2 _ lab_object lab_variant_frame⟩⟩

end

section
variable {σ T P I V W S : Type} {α β : Type}

theorem quiet_write_array_body_scalar {allowed : event P I V W → Prop}
    (r : reflection σ T P I V W)
    (ro : I → json → M (run_state σ P I V W) Unit)
    (ra : W → json → M (run_state σ P I V W) Unit) (view : W) (j : json)
    (hview : ∀ e : event P I V W, e.is_view_access = true → allowed e)
    (hj : scalar_items j) : quiet allowed (write_array_body r ro ra view j) :=
  quiet_write_array_body r ro ra view j hview
    (fun i h => by rw [(scalar_items_at_index j hj i).2] at h; cases h)
    (fun i h => by rw [(scalar_items_at_index j hj i).1] at h; cases h)

theorem keeps_write_array_body_scalar {X : Type} (r : reflection σ T P I V W)
    (ro : I → json → M (run_state σ P I V W) Unit)
    (ra : W → json → M (run_state σ P I V W) Unit) (view : W) (j : json)
    (obs : σ → X) (hobs : view_frame r obs) (x : X) (hj : scalar_items j) :
    keeps (fun t : run_state σ P I V W => obs t.world = x) (write_array_body r ro ra view j) := by
  rw [write_array_body_eq]
  refine keeps_bind (keeps_access_obs obs x _ _ (fun w => hobs.set_size_same w _ _)) (fun _ => ?_)
  refine keeps_bind (fun _ h => h) (fun t => ?_)
  refine keeps_for_each _ _ _ (fun i _ => ?_)
  unfold write_array_element
  obtain ⟨ha, ho⟩ := scalar_items_at_index j hj i
  simp only [ha, ho, Bool.false_eq_true, if_false]
  refine keeps_bind (keeps_extract_basic_types r obs hobs.variants x _) (fun v =>
    keeps_bind (keeps_call_obs obs x _ (fun w => hobs.variants.convert_same w _ _)) (fun c => ?_))
  cases c
  · exact keeps_pure _ ()
  · exact keeps_bind (keeps_access_obs obs x _ _ (fun w => hobs.view_set_value_same w _ _ _))
      (fun _ => keeps_pure _ ())

/-- C23. In `fromjson_recursively` the JSON-array case never calls
 `prop.set_value`. For a property that is to be read and whose JSON value is an
 array: when the type of the property is not a sequential container, the
 pass ends without an access (an empty variant is made, nothing else); when
 it is, the pass is `prop.get_value`, `create_sequential_view` and
 `write_array_recursively` on that view, and ends where
 `write_array_recursively` ends, nothing is stored back; for an array of
 scalars every access of the pass is that `get_value` or an access through a
 view, and whatever is not aliased by the variant that `get_value` returned
 (`obs`) is as it was before the pass. -/
theorem array_case_never_sets_property [DecidableEq T] (r : reflection σ T P I V W)
    (obj : I) (j : json) (prop : P) (s : run_state σ P I V W) (items : List json)
    (hmeta : r.operator_bool (r.get_metadata s.world prop (bytes "NO_SERIALIZE")).1
      (r.get_metadata s.world prop (bytes "NO_SERIALIZE")).2 = false)
    (hcont : j.contains (r.get_name prop) = true)
    (hv : j.at_key (r.get_name prop) = json.array items) :
    (∀ (ro : I → json → M (run_state σ P I V W) Unit)
        (ra : W → json → M (run_state σ P I V W) Unit),
        (r.is_sequential_container (r.prop_get_type prop) = false →
          fromjson_property r ro ra obj j prop s =
            (outcome.ok (),
              ⟨(r.make_invalid (r.get_metadata s.world prop (bytes "NO_SERIALIZE")).1).1,
                s.trace⟩)) ∧
        (r.is_sequential_container (r.prop_get_type prop) = true →
          fromjson_property r ro ra obj j prop s =
            ra (r.create_sequential_view
                  (r.prop_get_value
                    (r.make_invalid (r.get_metadata s.world prop (bytes "NO_SERIALIZE")).1).1
                    prop obj).1
                  (r.prop_get_value
                    (r.make_invalid (r.get_metadata s.world prop (bytes "NO_SERIALIZE")).1).1
                    prop obj).2).2
              (json.array items)
              ⟨(r.create_sequential_view
                  (r.prop_get_value
                    (r.make_invalid (r.get_metadata s.world prop (bytes "NO_SERIALIZE")).1).1
                    prop obj).1
                  (r.prop_get_value
                    (r.make_invalid (r.get_metadata s.world prop (bytes "NO_SERIALIZE")).1).1
                    prop obj).2).1,
                s.trace ++ [event.prop_get_value prop obj]⟩)) ∧
      (scalar_items (json.array items) →
        ∀ (ro : I → json → M (run_state σ P I V W) Unit) (fuel : Nat),
          (∃ rest,
            (fromjson_property r ro (write_array_recursively r (fuel + 1)) obj j prop s).2.trace =
              s.trace ++ rest ∧
            ∀ e, e ∈ rest → e = event.prop_get_value prop obj ∨ e.is_view_access = true) ∧
          ∀ (X : Type) (obs : σ → X), view_frame r obs →
            obs (fromjson_property r ro (write_array_recursively r (fuel + 1)) obj j prop s).2.world
              = obs s.world) := by
  refine ⟨fun ro ra => ⟨fun hseq => ?_, fun hseq => ?_⟩, fun hj ro fuel => ⟨?_, fun X obs hobs => ?_⟩⟩
  · rw [fromjson_property_array r ro ra obj j prop s items hmeta hcont hv, call_bind_apply]
    simp only [hseq, Bool.false_eq_true, if_false]
    rfl
  · rw [fromjson_property_array r ro ra obj j prop s items hmeta hcont hv, call_bind_apply]
    simp only [hseq, if_true]
    rw [access_bind_apply, call_bind_apply]
  · rw [fromjson_property_array r ro _ obj j prop s items hmeta hcont hv]
    have hq : quiet (fun e => e = event.prop_get_value prop obj ∨ e.is_view_access = true)
        (call r.make_invalid >>= fun _ =>
          if r.is_sequential_container (r.prop_get_type prop) then
            access (event.prop_get_value prop obj) (fun w => r.prop_get_value w prop obj) >>=
              fun var => call (fun w => r.create_sequential_view w var) >>= fun view =>
                write_array_recursively r (fuel + 1) view (json.array items)
          else pure ()) := by
      refine quiet_bind (quiet_call _ _) (fun _ => quiet_ite ?_ (quiet_pure _ ()))
      refine quiet_bind (quiet_access _ _ (Or.inl rfl)) (fun _ =>
        quiet_bind (quiet_call _ _) (fun view => ?_))
      rw [write_array_recursively]
      exact quiet_write_array_body_scalar r _ _ view _ (fun e he => Or.inr he) hj
    exact hq ⟨(r.get_metadata s.world prop (bytes "NO_SERIALIZE")).1, s.trace⟩
  · rw [fromjson_property_array r ro _ obj j prop s items hmeta hcont hv]
    have hk : keeps (fun t : run_state σ P I V W => obs t.world = obs s.world)
        (call r.make_invalid >>= fun _ =>
          if r.is_sequential_container (r.prop_get_type prop) then
            access (event.prop_get_value prop obj) (fun w => r.prop_get_value w prop obj) >>=
              fun var => call (fun w => r.create_sequential_view w var) >>= fun view =>
                write_array_recursively r (fuel + 1) view (json.array items)
          else pure ()) := by
      refine keeps_bind (keeps_call_obs obs _ _ (fun w => hobs.variants.make_invalid_same w))
        (fun _ => keeps_ite ?_ (keeps_pure _ ()))
      refine keeps_bind (keeps_access_obs obs _ _ _ (fun w => hobs.prop_get_value_same w _ _))
        (fun _ => keeps_bind
          (keeps_call_obs obs _ _ (fun w => hobs.create_sequential_view_same w _)) (fun view => ?_))
      rw [write_array_recursively]
      exact keeps_write_array_body_scalar r _ _ view _ obs hobs _ hj
    exact hk ⟨(r.get_metadata s.world prop (bytes "NO_SERIALIZE")).1, s.trace⟩
      (hobs.variants.get_metadata_same _ _ _)

/-- C23 on the second small program, whose `get_value` returns a copy. The
 JSON array `[1, 2]` for the `std::vector` property `list` is written to the
 copy and the object keeps 10, 20, 30; the same array for the `int32_t`
 property `count` leads to no access at all. -/
theorem array_case_never_sets_property_witness :
    ((∃ rest,
        (fromjson_property lab.toreflection (fromjson_recursively lab.toreflection 0)
          (write_array_recursively lab.toreflection 1) 0
          (json.object [(bytes "list", json.array [json.number_integer 1, json.number_integer 2])])
          2 lab_start).2.trace = [] ++ rest ∧
        ∀ e, e ∈ rest → e = event.prop_get_value 2 0 ∨ e.is_view_access = true) ∧
      lab_object (fromjson_property lab.toreflection (fromjson_recursively lab.toreflection 0)
          (write_array_recursively lab.toreflection 1) 0
          (json.object [(bytes "list", json.array [json.number_integer 1, json.number_integer 2])])
          2 lab_start).2.world = lab_object lab_start.world) ∧
      (fromjson_property lab.toreflection (fromjson_recursively lab.toreflection 0)
          (write_array_recursively lab.toreflection 1) 0
          (json.object [(bytes "count", json.array [json.number_integer 1, json.number_integer 2])])
          1 lab_start).2.trace = [] := by
  have h1 := (array_case_never_sets_property lab.toreflection 0
    (json.object [(bytes "list", json.array [json.number_integer 1, json.number_integer 2])])
    2 lab_start [json.number_integer 1, json.number_integer 2] rfl rfl rfl).2
    (by unfold scalar_items; decide) (fromjson_recursively lab.toreflection 0) 0
  have h2 := ((array_case_never_sets_property lab.toreflection 0
    (json.object [(bytes "count", json.array [json.number_integer 1, json.number_integer 2])])
    1 lab_start [json.number_integer 1, json.number_integer 2] rfl rfl rfl).1
    (fromjson_recursively lab.toreflection 0) (write_array_recursively lab.toreflection 1)).1 rfl
  exact ⟨⟨h1.1, h1.2 _ lab_object lab_view_frame⟩, congrArg (fun x => x.2.trace) h2⟩

end

end json_serialization

/-! ## Values between JSON and variants -/

namespace json_serialization

section
variable {σ T P I V W A S : Type} {α β : Type}

/-- C24. `io::from_json` is not atomic. The text
 `\x7b"flag": true, "count": "x"\x7d` is well-formed JSON; on the object whose
 `flag` is false and whose `count` is 7, `from_json` returns false (`get<int32_t>`
 throws on the string when `count` is extracted), and `flag`, the property
 processed before, has been set to true: the one access made is that
 `set_value`. -/
theorem from_json_not_atomic :
    (∃ j, parse_text (bytes "\x7b\"flag\": true, \"count\": \"x\"\x7d") = Except.ok j) ∧
      demo_start.world.flag = false ∧
      (from_json demo parse_text (bytes "\x7b\"flag\": true, \"count\": \"x\"\x7d") 0
        demo_start).1 = outcome.ok false ∧
      (from_json demo parse_text (bytes "\x7b\"flag\": true, \"count\": \"x\"\x7d") 0
        demo_start).2.world.flag = true ∧
      (from_json demo parse_text (bytes "\x7b\"flag\": true, \"count\": \"x\"\x7d") 0
        demo_start).2.world.count = 7 ∧
      (from_json demo parse_text (bytes "\x7b\"flag\": true, \"count\": \"x\"\x7d") 0
        demo_start).2.trace = [event.prop_set_value 0 0 1] ∧
      (fromjson_recursively demo 2 0
        (json.object [(bytes "flag", json.boolean true), (bytes "count", json.string (bytes "x"))])
        demo_start).1 = outcome.thrown exception.type_error := by
  refine ⟨⟨_, rfl⟩, rfl, ?_, ?_, ?_, ?_, ?_⟩ <;> decide!

theorem mem_keys_insert_member_inv (key : cstring) (value : json) (ms : List (cstring × json))
    (k : cstring) (h : k ∈ (insert_member key value ms).map Prod.fst) :
    k = key ∨ k ∈ ms.map Prod.fst := by
  induction ms with
  | nil =>
    simp only [insert_member, List.map_cons, List.map_nil, List.mem_singleton] at h
    exact Or.inl h
  | cons m rest ih =>
    obtain ⟨k0, v0⟩ := m
    by_cases h1 : k0 = key
    · subst h1
      simp only [insert_member, if_true, List.map_cons, List.mem_cons] at h ⊢
      tauto
    · cases h2 : lexicographical_compare key k0 with
      | true =>
        simp only [insert_member, h1, h2, if_false, if_true, List.map_cons, List.mem_cons] at h ⊢
        tauto
      | false =>
        simp only [insert_member, h1, h2, if_false, Bool.false_eq_true, List.map_cons,
          List.mem_cons] at h ⊢
        rcases h with h | h
        · exact Or.inr (Or.inl h)
        · rcases ih h with h | h
          · exact Or.inl h
          · exact Or.inr (Or.inr h)

theorem for_fold_write_property_keys (r : reflection_out σ T P I V W A)
    (rec_var : V → M (run_state σ P I V W) json)
    (hfin : ∀ v s, (rec_var v s).1 ≠ outcome.out_of_fuel) (obj : I) (props : List P) :
    ∀ (ms : List (cstring × json)) (s : run_state σ P I V W),
      ∃ ms' s', for_fold props (json.object ms) (write_property r rec_var obj) s =
          (outcome.ok (json.object ms'), s') ∧
        ∀ k, k ∈ ms'.map Prod.fst → k ∈ ms.map Prod.fst ∨ ∃ p, p ∈ props ∧ r.get_name p = k := by
  induction props with
  | nil => intro ms s; exact ⟨ms, s, rfl, fun _ h => Or.inl h⟩
  | cons p rest ih =>
    intro ms s
    show ∃ ms' s', (write_property r rec_var obj (json.object ms) p >>= fun a =>
      for_fold rest a (write_property r rec_var obj)) s = _ ∧ _
    rcases write_property_spec r rec_var hfin obj ms p s with ⟨_, j, s1, h⟩ | ⟨_, s1, h⟩
    · rw [bind_eq_ok h]
      obtain ⟨ms', s', h', hk⟩ := ih (insert_member (r.get_name p) j ms) s1
      refine ⟨ms', s', h', fun k hkm => ?_⟩
      rcases hk k hkm with h1 | ⟨q, hq, hn⟩
      · rcases mem_keys_insert_member_inv _ _ _ _ h1 with h2 | h2
        · exact Or.inr ⟨p, List.mem_cons_self _ _, h2.symm⟩
        · exact Or.inl h2
      · exact Or.inr ⟨q, List.mem_cons_of_mem _ hq, hn⟩
    · rw [bind_eq_ok h]
      obtain ⟨ms', s', h', hk⟩ := ih ms s1
      refine ⟨ms', s', h', fun k hkm => ?_⟩
      rcases hk k hkm with h1 | ⟨q, hq, hn⟩
      · exact Or.inl h1
      · exact Or.inr ⟨q, List.mem_cons_of_mem _ hq, hn⟩

/-- C26. `to_json_recursively` always returns a JSON object, and the name of
 every member of it is the name of a property of the derived type of the
 (unwrapped) instance; the pass over a property with a truthy `NO_SERIALIZE`
 metadata value, or whose `get_value` is an invalid variant, returns the
 object under construction as it was. -/
theorem to_json_recursively_member_names [DecidableEq T] (r : reflection_out σ T P I V W A)
    (fuel : Nat) :
    (∀ (obj2 : I) (s : run_state σ P I V W), ∃ ms s',
        to_json_recursively r (fuel + 2) obj2 s = (outcome.ok (json.object ms), s') ∧
        ∀ k, k ∈ ms.map Prod.fst →
          ∃ p, p ∈ r.get_properties (r.get_derived_type s.world
              (wrapped_instance r.toreflection s.world obj2)) ∧ r.get_name p = k) ∧
      (∀ (obj : I) (ms : List (cstring × json)) (prop : P) (s : run_state σ P I V W),
        r.operator_bool (r.get_metadata s.world prop (bytes "NO_SERIALIZE")).1
            (r.get_metadata s.world prop (bytes "NO_SERIALIZE")).2 = true ∨
          r.operator_bool
            (r.prop_get_value (r.get_metadata s.world prop (bytes "NO_SERIALIZE")).1 prop obj).1
            (r.prop_get_value (r.get_metadata s.world prop (bytes "NO_SERIALIZE")).1 prop obj).2
              = false →
        ∃ s', write_property r (write_variant r (fuel + 1)) obj (json.object ms) prop s =
          (outcome.ok (json.object ms), s')) := by
  constructor
  · intro obj2 s
    rw [to_json_recursively]
    obtain ⟨ms, s', h, hk⟩ := for_fold_write_property_keys r (write_variant r (fuel + 1))
      (write_variant_finishes r fuel) (wrapped_instance r.toreflection s.world obj2)
      (r.get_properties (r.get_derived_type s.world
        (wrapped_instance r.toreflection s.world obj2))) [] s
    refine ⟨ms, s', h, fun k hkm => ?_⟩
    rcases hk k hkm with h1 | h1
    · cases h1
    · exact h1
  · intro obj ms prop s hns
    rcases write_property_spec r (write_variant r (fuel + 1)) (write_variant_finishes r fuel)
      obj ms prop s with ⟨hs, _⟩ | ⟨_, h⟩
    · obtain ⟨h1, h2, _⟩ := hs
      rcases hns with h | h
      · rw [h] at h1; cases h1
      · rw [h] at h2; cases h2
    · exact h

/-- C26 on the second small program: the result is an object whose member
 names are names of properties, and the passes over `secret` (which carries
 `NO_SERIALIZE`) and over `broken` (whose value is invalid) leave the object
 under construction as it was. -/
theorem to_json_recursively_member_names_witness :
    (∃ ms s', to_json_recursively lab 2 0 lab_start = (outcome.ok (json.object ms), s') ∧
        ∀ k, k ∈ ms.map Prod.fst →
          ∃ p, p ∈ [0, 1, 2, 3, 4, 5, 6, 7] ∧ lab.get_name p = k) ∧
      (∃ s', write_property lab (write_variant lab 1) 0
        (json.object [(bytes "count", json.number_integer 7)]) 6 lab_start =
          (outcome.ok (json.object [(bytes "count", json.number_integer 7)]), s')) ∧
      ∃ s', write_property lab (write_variant lab 1) 0
        (json.object [(bytes "count", json.number_integer 7)]) 7 lab_start =
          (outcome.ok (json.object [(bytes "count", json.number_integer 7)]), s') :=
  ⟨(to_json_recursively_member_names lab 0).1 0 lab_start,
   (to_json_recursively_member_names lab 0).2 0 _ 6 lab_start (Or.inl rfl),
   (to_json_recursively_member_names lab 0).2 0 _ 7 lab_start (Or.inr rfl)⟩

end

section
variable {σ T P I V W A S : Type} {α β : Type}

/-- C27. For a variant of type `char`, `write_atomic_types_to_json` returns
 the JSON boolean `var.to_bool()`, exactly as for type `bool`; no character
 code is written. `extract_value` for type `char` reads an `int` and casts it to
 `char`; from the boolean that was written it makes the `char` 1 or 0, which
 is not the original code unless that code is 0 or 1. -/
theorem char_written_as_boolean [DecidableEq T] (r : reflection_out σ T P I V W A)
    (hchar : r.is_arithmetic (r.type_get (cpp_type.integer int_kind.char)) = true)
    (hbool : r.is_arithmetic (r.type_get cpp_type.bool) = true)
    (hne : r.type_get (cpp_type.integer int_kind.char) ≠ r.type_get cpp_type.bool) :
    (∀ (v : V) (s : run_state σ P I V W),
        write_atomic_types_to_json r (r.type_get (cpp_type.integer int_kind.char)) v s =
          (outcome.ok (json.boolean (r.to_bool s.world v)), s) ∧
        write_atomic_types_to_json r (r.type_get cpp_type.bool) v s =
          (outcome.ok (json.boolean (r.to_bool s.world v)), s)) ∧
      (∀ n : Int,
        extract_value r.toreflection (json.number_integer n)
            (r.type_get (cpp_type.integer int_kind.char)) =
          call (fun w => r.make_variant w
            (cvalue.integer int_kind.char (int_kind.char.cast (int_kind.int32_t.cast n))))) ∧
      (∀ (v : V) (s : run_state σ P I V W) (j : json) (s' : run_state σ P I V W),
        write_atomic_types_to_json r (r.type_get (cpp_type.integer int_kind.char)) v s =
          (outcome.ok j, s') →
        extract_value r.toreflection j (r.type_get (cpp_type.integer int_kind.char)) =
          call (fun w => r.make_variant w
            (cvalue.integer int_kind.char (if r.to_bool s.world v then 1 else 0)))) ∧
      (∀ (b : Bool) (code : Int), code ≠ 0 → code ≠ 1 →
        cvalue.integer int_kind.char (if b then 1 else 0) ≠
          cvalue.integer int_kind.char code) := by
  have hw : ∀ (v : V) (s : run_state σ P I V W),
      write_atomic_types_to_json r (r.type_get (cpp_type.integer int_kind.char)) v s =
        (outcome.ok (json.boolean (r.to_bool s.world v)), s) := by
    intro v s
    unfold write_atomic_types_to_json
    simp only [hchar, hne, if_true, if_false]
    rfl
  have hx : ∀ j : json, extract_value r.toreflection j
      (r.type_get (cpp_type.integer int_kind.char)) =
      (lift_except (j.get_integer r.trunc int_kind.int32_t) >>= fun n =>
        call (fun w => r.make_variant w
          (cvalue.integer int_kind.char (int_kind.char.cast n)))) := by
    intro j
    unfold extract_value
    simp only [hchar, hne, if_true, if_false]
  refine ⟨fun v s => ⟨hw v s, ?_⟩, fun n => ?_, fun v s j s' h => ?_, fun b code h0 h1 h => ?_⟩
  · unfold write_atomic_types_to_json
    simp only [hbool, if_true]
    rfl
  · rw [hx]
    rfl
  · rw [hw v s] at h
    cases h
    rw [hx]
    cases r.to_bool s.world v <;> rfl
  · cases b
    · exact h0 (cvalue.integer.inj h).2.symm
    · exact h1 (cvalue.integer.inj h).2.symm

/-- C27 on the second small program: the `char` of code 65 is written as the
 JSON `true`, and `true` is read back as the `char` of code 1. -/
theorem char_written_as_boolean_witness :
    write_atomic_types_to_json lab (lab_type.cpp (cpp_type.integer int_kind.char)) 0
        (lab_with (lab_value.atom (cvalue.integer int_kind.char 65))) =
      (outcome.ok (json.boolean true),
        lab_with (lab_value.atom (cvalue.integer int_kind.char 65))) ∧
      extract_value lab.toreflection (json.boolean true)
          (lab_type.cpp (cpp_type.integer int_kind.char)) =
        call (fun w => lab.make_variant w (cvalue.integer int_kind.char 1)) ∧
      cvalue.integer int_kind.char 1 ≠ cvalue.integer int_kind.char 65 :=
  ⟨((char_written_as_boolean lab rfl rfl (by decide)).1 0
      (lab_with (lab_value.atom (cvalue.integer int_kind.char 65)))).1,
   (char_written_as_boolean lab rfl rfl (by decide)).2.2.1 0
      (lab_with (lab_value.atom (cvalue.integer int_kind.char 65))) (json.boolean true) _ rfl,
   (char_written_as_boolean lab rfl rfl (by decide)).2.2.2 true 65 (by decide) (by decide)⟩

/-- C28. `extract_basic_types` maps a JSON boolean to a `bool` variant, a
 floating-point number to a `double`, a string to a `std::string`, and `null`,
 arrays and objects to the invalid variant; a JSON integer, signed or
 unsigned, is extracted with `get<int64_t>` (an unsigned JSON integer passes
 the test `is_number_integer()`, so the `uint64_t` branch is never taken), and
 an unsigned value from `2 ^ 63` to `2 ^ 64 - 1` becomes the negative `int64_t`
 that is less by `2 ^ 64`. -/
theorem extract_basic_types_cases (r : reflection σ T P I V W) :
    (∀ b, extract_basic_types r (json.boolean b) =
        call (fun w => r.make_variant w (cvalue.bool b))) ∧
      (∀ x, extract_basic_types r (json.number_float x) =
        call (fun w => r.make_variant w (cvalue.floating float_kind.double x))) ∧
      (∀ text, extract_basic_types r (json.string text) =
        call (fun w => r.make_variant w (cvalue.string text))) ∧
      extract_basic_types r json.null = call r.make_invalid ∧
      (∀ items, extract_basic_types r (json.array items) = call r.make_invalid) ∧
      (∀ members, extract_basic_types r (json.object members) = call r.make_invalid) ∧
      (∀ n, extract_basic_types r (json.number_integer n) =
        call (fun w => r.make_variant w
          (cvalue.integer int_kind.int64_t (int_kind.int64_t.cast n)))) ∧
      (∀ n, (json.number_unsigned n).is_number_integer = true ∧
        extract_basic_types r (json.number_unsigned n) =
          call (fun w => r.make_variant w
            (cvalue.integer int_kind.int64_t (int_kind.int64_t.cast n)))) ∧
      (∀ n : Nat, 2 ^ 63 ≤ n → n < 2 ^ 64 →
        int_kind.int64_t.cast n = (n : Int) - 2 ^ 64 ∧ int_kind.int64_t.cast n < 0) ∧
      (∀ n : Int, - 2 ^ 63 ≤ n → n < 2 ^ 63 → int_kind.int64_t.cast n = n) := by
  refine ⟨fun _ => rfl, fun _ => rfl, fun _ => rfl, rfl, fun _ => rfl, fun _ => rfl,
    fun _ => rfl, fun _ => ⟨rfl, rfl⟩, fun n h1 h2 => ?_, fun n h1 h2 => ?_⟩
  · have h : int_kind.int64_t.cast n = (n : Int) - 2 ^ 64 := by
      simp only [int_kind.cast, wrap_signed]
      norm_num
      omega
    rw [h]
    exact ⟨rfl, by omega⟩
  · simp only [int_kind.cast, wrap_signed]
    norm_num
    omega

/-- C28 at the largest unsigned 64-bit value and at `2 ^ 63`. -/
theorem extract_basic_types_cases_witness :
    (int_kind.int64_t.cast (18446744073709551615 : Nat) = (18446744073709551615 : Nat) - 2 ^ 64 ∧
        int_kind.int64_t.cast (18446744073709551615 : Nat) < 0) ∧
      (int_kind.int64_t.cast (9223372036854775808 : Nat) = (9223372036854775808 : Nat) - 2 ^ 64 ∧
        int_kind.int64_t.cast (9223372036854775808 : Nat) < 0) ∧
      int_kind.int64_t.cast (-5) = -5 :=
  ⟨(extract_basic_types_cases demo).2.2.2.2.2.2.2.2.1 18446744073709551615 (by decide)
      (by decide),
   (extract_basic_types_cases demo).2.2.2.2.2.2.2.2.1 9223372036854775808 (by decide)
      (by decide),
   (extract_basic_types_cases demo).2.2.2.2.2.2.2.2.2 (-5) (by decide) (by decide)⟩

/-- C29. `extract_value` treats an enumeration type `t` asymmetrically: a JSON
 string gives `name_to_value` (a value of the enumeration), a JSON integer
 gives a variant holding `value_to_name`, the name of the enumerator and not a
 value of `t`, every other kind of JSON value gives the invalid variant; and
 for a type that is none of the twelve arithmetic types of the chain, no
 enumeration and not `std::string`, every JSON value gives the invalid
 variant. -/
theorem extract_value_enumeration [DecidableEq T] (r : reflection σ T P I V W) (t : T) :
    (r.is_arithmetic t = false → r.is_enumeration t = true →
        (∀ text, extract_value r (json.string text) t =
          call (fun w => r.name_to_value w t text)) ∧
        (∀ n, extract_value r (json.number_integer n) t =
          call (fun w => r.make_variant w
            (cvalue.string_view (r.value_to_name t (int_kind.int64_t.cast n))))) ∧
        (∀ n, extract_value r (json.number_unsigned n) t =
          call (fun w => r.make_variant w
            (cvalue.string_view (r.value_to_name t (int_kind.int64_t.cast n))))) ∧
        (∀ j : json, j.is_string = false → j.is_number_integer = false →
          extract_value r j t = call r.make_invalid)) ∧
      ((∀ c, t ≠ r.type_get c) → r.is_enumeration t = false →
        ∀ j : json, extract_value r j t = call r.make_invalid) := by
  constructor
  · intro ha he
    refine ⟨fun text => ?_, fun n => ?_, fun n => ?_, fun j h1 h2 => ?_⟩
    · unfold extract_value
      simp only [ha, he, Bool.false_eq_true, if_false, if_true, json.is_string]
      rfl
    · unfold extract_value
      simp only [ha, he, Bool.false_eq_true, if_false, if_true, json.is_string,
        json.is_number_integer]
      rfl
    · unfold extract_value
      simp only [ha, he, Bool.false_eq_true, if_false, if_true, json.is_string,
        json.is_number_integer]
      rfl
    · unfold extract_value
      simp only [ha, he, h1, h2, Bool.false_eq_true, if_false, if_true]
  · intro hc he j
    unfold extract_value
    simp only [hc, he, Bool.false_eq_true, if_false]
    split_ifs <;> rfl

/-- C29 on the third small program: for the enumeration `color`, `"green"`
 gives the enumerator `green`, the integer 1 gives the text `green`, `true`
 gives the invalid variant; for the class `shape` the integer 1 gives the
 invalid variant. -/
theorem extract_value_enumeration_witness :
    ((extract_value paint (json.string (bytes "green")) paint_type.color ⟨[], []⟩).2.world =
        [paint_value.enumerator 1] ∧
      (extract_value paint (json.number_integer 1) paint_type.color ⟨[], []⟩).2.world =
        [paint_value.atom (cvalue.string_view (bytes "green"))] ∧
      extract_value paint (json.boolean true) paint_type.color = call paint.make_invalid) ∧
      extract_value paint (json.number_integer 1) paint_type.shape = call paint.make_invalid := by
  have h := (extract_value_enumeration paint paint_type.color).1 rfl rfl
  have h' := (extract_value_enumeration paint paint_type.shape).2 (fun c hc => by cases hc) rfl
  refine ⟨⟨?_, ?_, h.2.2.2 _ rfl rfl⟩, h' _⟩
  · rw [h.1]
    rfl
  · rw [h.2.1]
    rfl

end

end json_serialization

/-! ## Resizing before writing (`write_array_recursively`) -/

namespace json_serialization

section
variable {σ T P I V W S : Type} {α β : Type}

end

section
variable {σ T P I V W S : Type} {α β : Type}

end

end json_serialization

/-! ## Properties that a run of `fromjson_recursively` skips -/

namespace json_serialization

section
variable {σ T P I V W S : Type} {α β : Type}

end

end json_serialization

end rttr
